import Mathlib

/-! pflagenv: composite map values and the reflective binder

A shallow embedding of `map.go` and `pflagenv.go`.

Go strings are modelled as lists of Unicode code points (`Str`); every character
the code inspects (`,`, `"`, `=`, `\r`, `\n`, `-`, `_`) is ASCII, so on valid
UTF-8 the byte-level and code-point-level readings coincide.  Go maps are
association lists read through `GoMap.get`; a nil map is `none`.

A call returns the state it leaves behind together with a `Status`: nil, a
returned error, or a run-time panic.  The struct handed to `Setup` is a tree of
fields, each with its `reflect` type and the value it holds.

The library routines the package calls (`encoding/csv`, `strings`, `camelcase`,
`reflect`, `pflag`, `viper`, `mapstructure`) are modelled next to the functions
that call them, as far as those functions use them.
-/

deriving instance DecidableEq for Except

namespace Pflagenv

/-- Go `string`, as its sequence of code points. -/
abbrev Str := List Char

/-! ## Errors -/

/-- Errors of `encoding/csv`'s `Reader.Read`. -/
inductive CsvError
  /-- `io.EOF`: there is no record to read. -/
  | eof
  /-- `csv.ErrBareQuote`: a `"` inside an unquoted field. -/
  | bareQuote
  /-- `csv.ErrQuote`: a stray or unterminated `"` in a quoted field. -/
  | quote
  deriving DecidableEq, Repr

/-- Errors returned by the functions of `map.go`. -/
inductive MapError
  /-- An error of `csvReader.Read()`, returned unchanged. -/
  | csv (e : CsvError)
  /-- `fmt.Errorf("invalid key=value format in %q", v)`. -/
  | invalidKeyValue (v : Str)
  /-- `fmt.Errorf("invalid int in %q: %w", v, err)`. -/
  | invalidInt (v : Str)
  /-- `fmt.Errorf("unsupported map type %T", data)`. -/
  | unsupportedMapType (shape : Str)
  deriving DecidableEq, Repr

/-! ## Go maps -/

/-- A non-nil Go map with string keys: an association list, read by `GoMap.get`. -/
abbrev GoMap (β : Type) := List (Str × β)

namespace GoMap

/-- The value `m[k]` with its presence flag. -/
def get {β : Type} : GoMap β → Str → Option β
  | [], _ => none
  | (k', v) :: rest, k => if k' = k then some v else get rest k

/-- The assignment `m[k] = v`. -/
def set {β : Type} : GoMap β → Str → β → GoMap β
  | [], k, v => [(k, v)]
  | (k', v') :: rest, k, v => if k' = k then (k', v) :: rest else (k', v') :: set rest k v

/-- The loop `for k, v := range src { dst[k] = v }`. -/
def assignAll {β : Type} (dst src : GoMap β) : GoMap β :=
  src.foldl (fun acc kv => set acc kv.1 kv.2) dst

end GoMap

/-! ## `strings` helpers -/

/-- `strings.SplitN(v, "=", 2)`: the text before the first `sep` and the text after
it, or `none` when `sep` does not occur (the result then has length 1). -/
def splitFirst (sep : Char) : Str → Option (Str × Str)
  | [] => none
  | c :: rest =>
    if c = sep then some ([], rest)
    else match splitFirst sep rest with
      | some (a, b) => some (c :: a, b)
      | none => none

/-- `strings.TrimSuffix(s, "\n")`. -/
def trimSuffixNL : Str → Str
  | [] => []
  | [c] => if c = '\n' then [] else [c]
  | c :: d :: rest => c :: trimSuffixNL (d :: rest)

/-! ## `encoding/csv`: reading one record

`csv.NewReader(r).Read()` with the default settings (`Comma = ','`, no comment
character, `LazyQuotes = false`, `TrimLeadingSpace = false`).  The reader takes
its input line by line; `readLine` turns a line's final `\r\n` into `\n` and drops
a `\r` that ends the input.  `normalizeLines` applies that to the whole input.
The record parser is then a machine over the characters of the normalised input.
-/

/-- The effect of `Reader.readLine` on every line of the input. -/
def normalizeLines : Str → Str
  | [] => []
  | c :: rest =>
    if c = '\r' then
      match rest with
      | [] => []
      | d :: _ => if d = '\n' then normalizeLines rest else c :: normalizeLines rest
    else c :: normalizeLines rest

/-- Where `Reader.readRecord` stands in the input. -/
inductive ReadPhase
  /-- Before the record: empty lines are skipped. -/
  | recordStart
  /-- At the first character of a field. -/
  | fieldStart
  /-- Inside a non-quoted field. -/
  | inField
  /-- Inside a quoted field, after its opening quote. -/
  | inQuoted
  /-- Inside a quoted field, just after a `"`. -/
  | afterQuote
  deriving DecidableEq, Repr

/-- The reader's progress: phase, the field being read and the finished fields. -/
structure ReadState where
  phase : ReadPhase
  cur : Str
  done : List Str
  deriving DecidableEq, Repr

/-- One step of the reader: either a new state or the end of the record. -/
inductive ReadStep
  | next (s : ReadState)
  | stop (r : Except CsvError (List Str))

/-- The reader's step in a non-quoted field (`fieldStart` on a character other
than `"` behaves as `inField` with an empty field). -/
def stepUnquoted (cur : Str) (done : List Str) (c : Char) : ReadStep :=
  if c = ',' then .next ⟨.fieldStart, [], done ++ [cur]⟩
  else if c = '\n' then .stop (.ok (done ++ [cur]))
  else if c = '"' then .stop (.error .bareQuote)
  else .next ⟨.inField, cur ++ [c], done⟩

/-- The reader's step at the first character of a field. -/
def stepFieldStart (done : List Str) (c : Char) : ReadStep :=
  if c = '"' then .next ⟨.inQuoted, [], done⟩ else stepUnquoted [] done c

/-- The reader's step on character `c`. -/
def readStep (s : ReadState) (c : Char) : ReadStep :=
  match s.phase with
  | .recordStart =>
    if c = '\n' then .next ⟨.recordStart, [], []⟩ else stepFieldStart [] c
  | .fieldStart => stepFieldStart s.done c
  | .inField => stepUnquoted s.cur s.done c
  | .inQuoted =>
    if c = '"' then .next ⟨.afterQuote, s.cur, s.done⟩
    else .next ⟨.inQuoted, s.cur ++ [c], s.done⟩
  | .afterQuote =>
    if c = '"' then .next ⟨.inQuoted, s.cur ++ ['"'], s.done⟩
    else if c = ',' then .next ⟨.fieldStart, [], s.done ++ [s.cur]⟩
    else if c = '\n' then .stop (.ok (s.done ++ [s.cur]))
    else .stop (.error .quote)

/-- The reader's result when the input ends in state `s`. -/
def readEnd (s : ReadState) : Except CsvError (List Str) :=
  match s.phase with
  | .recordStart => .error .eof
  | .fieldStart => .ok (s.done ++ [[]])
  | .inField => .ok (s.done ++ [s.cur])
  | .inQuoted => .error .quote
  | .afterQuote => .ok (s.done ++ [s.cur])

/-- Run the reader from state `s` over the rest of the input. -/
def readFrom (s : ReadState) : Str → Except CsvError (List Str)
  | [] => readEnd s
  | c :: rest =>
    match readStep s c with
    | .next s' => readFrom s' rest
    | .stop r => r

/-- `csv.NewReader(strings.NewReader(val)).Read()`. -/
def csvRead (val : Str) : Except CsvError (List Str) :=
  readFrom ⟨.recordStart, [], []⟩ (normalizeLines val)

/-! ## `encoding/csv`: writing one record -/

/-- `unicode.IsSpace`. -/
def isSpace (c : Char) : Bool :=
  let n := c.toNat
  n = 0x09 || n = 0x0A || n = 0x0B || n = 0x0C || n = 0x0D || n = 0x20 ||
  n = 0x85 || n = 0xA0 || n = 0x1680 || (0x2000 ≤ n && n ≤ 0x200A) ||
  n = 0x2028 || n = 0x2029 || n = 0x202F || n = 0x205F || n = 0x3000

/-- `Writer.fieldNeedsQuotes` with `Comma = ','`. -/
def fieldNeedsQuotes (field : Str) : Bool :=
  match field with
  | [] => false
  | c :: _ =>
    if field = ['\\', '.'] then true
    else if field.any (fun x => x = '\n' || x = '\r' || x = '"' || x = ',') then true
    else isSpace c

/-- The body of a quoted field: every `"` is doubled, and `\r` and `\n` are
written as they are (`UseCRLF = false`). -/
def escapeQuotes : Str → Str
  | [] => []
  | c :: rest => if c = '"' then '"' :: '"' :: escapeQuotes rest else c :: escapeQuotes rest

/-- What `Writer.Write` emits for one field. -/
def writeField (field : Str) : Str :=
  if fieldNeedsQuotes field then '"' :: (escapeQuotes field ++ ['"']) else field

/-- The fields of a record, separated by commas. -/
def writeFields : List Str → Str
  | [] => []
  | [f] => writeField f
  | f :: g :: rest => writeField f ++ ',' :: writeFields (g :: rest)

/-- `csv.NewWriter(b).Write(record)` followed by `Flush`, as the contents of the
buffer: the fields and the record terminator.  Writing to a `bytes.Buffer` with a
valid delimiter never fails. -/
def csvWrite (record : List Str) : Except MapError Str :=
  .ok (writeFields record ++ ['\n'])

/-! ## `map.go` -/

/-- `readAsMap`. -/
def readAsMap : List Str → Except MapError (GoMap Str)
  | vals => go vals []
where
  /-- The loop of `readAsMap`, `result` being the map built so far. -/
  go : List Str → GoMap Str → Except MapError (GoMap Str)
    | [], result => .ok result
    | v :: rest, result =>
      match splitFirst '=' v with
      | none => .error (.invalidKeyValue v)
      | some (k, x) => go rest (GoMap.set result k x)

/-- `readAsCSV`.  A nil slice is the empty list. -/
def readAsCSV (val : Str) : Except MapError (List Str) :=
  if val = [] then .ok []
  else match csvRead val with
    | .ok r => .ok r
    | .error e => .error (.csv e)

/-- `writeAsCSV`. -/
def writeAsCSV (vals : List Str) : Except MapError Str :=
  match csvWrite vals with
  | .error e => .error e
  | .ok b => .ok (trimSuffixNL b)

/-- How a call ended: normally, with a returned error, or with a run-time panic. -/
inductive Status (ε : Type)
  | ok
  | error (e : ε)
  | panic (msg : Str)
  deriving DecidableEq, Repr

/-- The struct `stringMap`; `value` is the map its pointer refers to (`none` is a
nil map). -/
structure stringMap where
  value : Option (GoMap Str)
  changed : Bool
  deriving DecidableEq, Repr

/-- `newStringMap`: the referenced map is overwritten with `val`. -/
def newStringMap (val : Option (GoMap Str)) : stringMap :=
  { value := val, changed := false }

/-- `stringMap.Set`: the state after the call and how the call ended.  Assigning
into a nil map panics. -/
def stringMap.Set (m : stringMap) (val : Str) : stringMap × Status MapError :=
  match readAsCSV val with
  | .error err => (m, .error err)
  | .ok s =>
    match readAsMap s with
    | .error err => (m, .error err)
    | .ok v =>
      if !m.changed then
        ({ value := some v, changed := true }, .ok)
      else
        match m.value with
        | some mapValue =>
          ({ value := some (GoMap.assignAll mapValue v), changed := true }, .ok)
        | none =>
          if v = [] then ({ value := none, changed := true }, .ok)
          else (m, .panic "assignment to entry in nil map".toList)

/-! ## Names: `strings` and `camelcase` -/

/-- `strings.Split(s, sep)` for a one-character separator: at least one part. -/
def splitAll (sep : Char) : Str → List Str
  | [] => [[]]
  | c :: rest =>
    if c = sep then [] :: splitAll sep rest
    else match splitAll sep rest with
      | [] => [[c]]
      | p :: ps => (c :: p) :: ps

/-- `strings.Join(parts, sep)`. -/
def join (sep : Str) : List Str → Str
  | [] => []
  | [p] => p
  | p :: q :: rest => p ++ sep ++ join sep (q :: rest)

/-- `strings.ToUpper` for ASCII text: only the letters `a` to `z` are mapped,
where the library maps every Unicode letter.  Field names and tags outside ASCII
are outside this model. -/
def toUpper (s : Str) : Str := s.map Char.toUpper

/-- `strings.ToLower` for ASCII text: only the letters `A` to `Z` are mapped,
where the library (and the key folding of `viper`) maps every Unicode letter. -/
def toLower (s : Str) : Str := s.map Char.toLower

/-- The character classes of `camelcase.Split`: 1 lower case, 2 upper case,
3 digit, 4 anything else.  The classes are those of ASCII; the library uses
`unicode.IsLower`, `unicode.IsUpper` and `unicode.IsDigit`, so a name with
letters outside ASCII is split differently there. -/
def charClass (c : Char) : Nat :=
  if c.isLower then 1 else if c.isUpper then 2 else if c.isDigit then 3 else 4

/-- First loop of `camelcase.Split`: the maximal runs of characters of one class. -/
def splitRuns : Str → List Str
  | [] => []
  | c :: rest =>
    match splitRuns rest with
    | (d :: run) :: runs =>
      if charClass c = charClass d then (c :: d :: run) :: runs
      else [c] :: (d :: run) :: runs
    | runs => [c] :: runs

/-- First character of a run (`runes[i][0]`) satisfies `p`. -/
def headIs (p : Char → Bool) : Str → Bool
  | [] => false
  | c :: _ => p c

/-- Second loop of `camelcase.Split`, `r` being the run at index `i` and the
argument the runs after it: when an upper-case run is followed by a lower-case
run, the last upper-case letter moves to the front of the lower-case run
(`"PDFL", "oader"` becomes `"PDF", "Loader"`). -/
def moveCapitalsFrom (r : Str) : List Str → List Str
  | [] => [r]
  | r' :: rest =>
    if headIs Char.isUpper r && headIs Char.isLower r' then
      r.dropLast :: moveCapitalsFrom (r.getLast?.toList ++ r') rest
    else r :: moveCapitalsFrom r' rest

/-- Second loop of `camelcase.Split` over all runs. -/
def moveCapitals : List Str → List Str
  | [] => []
  | r :: rest => moveCapitalsFrom r rest

/-- `camelcase.Split` on valid UTF-8: the non-empty runs after both loops. -/
def camelcaseSplit (src : Str) : List Str :=
  (moveCapitals (splitRuns src)).filter (fun r => r ≠ [])

/-! ## `reflect`: types and values -/

/-- `reflect.Kind`. -/
inductive Kind
  | invalid | bool | int | int8 | int16 | int32 | int64
  | uint | uint8 | uint16 | uint32 | uint64 | uintptr
  | float32 | float64 | complex64 | complex128
  | array | chan | func | interface | map | ptr | slice | string | struct | unsafePointer
  deriving DecidableEq, Repr

/-- The predeclared boolean, numeric and string types. -/
inductive Basic
  | bool | int | int8 | int16 | int32 | int64
  | uint | uint8 | uint16 | uint32 | uint64 | uintptr
  | float32 | float64 | complex64 | complex128 | string
  deriving DecidableEq, Repr

/-- A Go type, as far as the binder looks at it. -/
inductive GoType
  /-- A predeclared type. -/
  | basic (b : Basic)
  /-- The slice type `[]elem`. -/
  | slice (elem : GoType)
  /-- The map type `map[key]elem`. -/
  | map (key elem : GoType)
  /-- The pointer type `*elem`. -/
  | ptr (elem : GoType)
  /-- A struct type printed as `name`; `ptrIsValue` says whether the pointer to
  it implements `pflag.Value`. -/
  | struct (name : Str) (ptrIsValue : Bool)
  /-- A defined type `type name underlying` that is not a struct, such as
  `time.Duration`; `ptrIsValue` as for structs. -/
  | named (name : Str) (underlying : GoType) (ptrIsValue : Bool)
  /-- Any other type (array, channel, function, interface), by kind and name. -/
  | other (k : Kind) (name : Str)
  deriving DecidableEq, Repr

/-- Kind of a predeclared type. -/
def Basic.kind : Basic → Kind
  | .bool => .bool | .int => .int | .int8 => .int8 | .int16 => .int16
  | .int32 => .int32 | .int64 => .int64 | .uint => .uint | .uint8 => .uint8
  | .uint16 => .uint16 | .uint32 => .uint32 | .uint64 => .uint64
  | .uintptr => .uintptr | .float32 => .float32 | .float64 => .float64
  | .complex64 => .complex64 | .complex128 => .complex128 | .string => .string

/-- Name of a predeclared type. -/
def Basic.name : Basic → Str
  | .bool => "bool".toList | .int => "int".toList | .int8 => "int8".toList
  | .int16 => "int16".toList | .int32 => "int32".toList | .int64 => "int64".toList
  | .uint => "uint".toList | .uint8 => "uint8".toList | .uint16 => "uint16".toList
  | .uint32 => "uint32".toList | .uint64 => "uint64".toList
  | .uintptr => "uintptr".toList | .float32 => "float32".toList
  | .float64 => "float64".toList | .complex64 => "complex64".toList
  | .complex128 => "complex128".toList | .string => "string".toList

namespace GoType

/-- `Type.Kind()`. -/
def kind : GoType → Kind
  | basic b => b.kind
  | slice _ => .slice
  | map _ _ => .map
  | ptr _ => .ptr
  | struct _ _ => .struct
  | named _ u _ => u.kind
  | other k _ => k

/-- `Type.String()`. -/
def String : GoType → Str
  | basic b => b.name
  | slice e => "[]".toList ++ e.String
  | map k e => "map[".toList ++ k.String ++ "]".toList ++ e.String
  | ptr e => "*".toList ++ e.String
  | struct n _ => n
  | named n _ _ => n
  | other _ n => n

/-- `Type.Elem()` of a slice, map or pointer type (absent for other kinds, where
the call panics). -/
def Elem : GoType → Option GoType
  | slice e => some e
  | map _ e => some e
  | ptr e => some e
  | named _ u _ => u.Elem
  | _ => none

/-- `Type.Key()` of a map type. -/
def Key : GoType → Option GoType
  | map k _ => some k
  | named _ u _ => u.Key
  | _ => none

/-- `reflect.PtrTo(t).Implements(valueType)`: the pointer to the type has the
methods of `pflag.Value`. -/
def ptrImplementsValue : GoType → Bool
  | struct _ b => b
  | named _ _ b => b
  | _ => false

end GoType

/-- `reflect.TypeOf(time.Duration(0))`. -/
def durationType : GoType := .named "time.Duration".toList (.basic .int64) false

/-- A `reflect.StructField` with its parsed tag; `exported` is what `CanSet`
reports for the field's value (the struct is always reached through a pointer). -/
structure StructField where
  /-- `f.Name`. -/
  Name : Str
  /-- `f.Tag.Get("env")`. -/
  envTag : Str := []
  /-- `f.Tag.Get("flag")`. -/
  flagTag : Str := []
  /-- `f.Tag.Get("desc")`. -/
  descTag : Str := []
  /-- `f.Anonymous`. -/
  Anonymous : Bool := false
  /-- `v.CanSet()`. -/
  exported : Bool := true
  /-- `f.Type`. -/
  type : GoType
  deriving DecidableEq, Repr

/-- The value held by a variable, as far as the binder reads it.  A value goes
with a type (`StructField.type`); a well-typed struct pairs every type with a
value of the matching shape. -/
inductive GoValue
  | bool (b : Bool)
  /-- A value of a signed integer kind (`v.Int()`). -/
  | int (i : Int)
  /-- A value of an unsigned integer kind (`v.Uint()`). -/
  | uint (n : Nat)
  /-- A floating-point value, by its bit pattern (`v.Float()`). -/
  | float (bits : Nat)
  | string (s : Str)
  /-- A value of type `[]string`. -/
  | strings (xs : List Str)
  /-- A value of type `map[string]string`; `none` is the nil map. -/
  | stringMap (m : Option (GoMap Str))
  /-- A value of type `map[string]int64`. -/
  | int64Map (m : Option (GoMap Int))
  /-- A struct value: its fields in declaration order, each with its value. -/
  | struct (fields : List (StructField × GoValue))
  /-- A pointer: nil, or the address of a value. -/
  | pointer (target : Option GoValue)
  /-- A value of any other type; the binder does not look inside. -/
  | other
  deriving Repr

/-- The fields of a struct with their values. -/
abbrev Fields := List (StructField × GoValue)

/-! ## `pflag`: the flag registry -/

/-- Which registration call created a flag. -/
inductive FlagKind
  | string | int | int8 | int16 | int32 | int64 | duration
  | uint | uint8 | uint16 | uint32 | uint64 | float64 | bool | stringSlice
  /-- `VarP` on the field's own `pflag.Value`. -/
  | value
  /-- `VarP` on `newStringMap(...)`. -/
  | stringMap
  /-- `VarP` on `newInt64Map(...)`. -/
  | int64Map
  deriving DecidableEq, Repr

/-- A `pflag.Flag`. -/
structure Flag where
  Name : Str
  Shorthand : Str
  Usage : Str
  kind : FlagKind
  /-- The default given at registration. -/
  DefValue : GoValue
  /-- Whether the flag was set on the command line. -/
  Changed : Bool := false
  /-- The flag's value once `Changed`, as the text given on the command line. -/
  Value : Str := []
  deriving Repr

/-- A `pflag.FlagSet`: the flags in order of registration. -/
structure FlagSet where
  formal : List Flag := []
  deriving Repr

/-- Length of a string in bytes (`len(s)`). -/
def byteLen (s : Str) : Nat := (s.map Char.utf8Size).sum

/-- `FlagSet.Lookup`. -/
def FlagSet.Lookup (fset : FlagSet) (name : Str) : Option Flag :=
  fset.formal.find? (fun f => f.Name = name)

/-- `FlagSet.AddFlag`: the registry after the call and the panic, if any.  A name
that is already registered, a shorthand longer than one byte and a shorthand that
is already in use make `pflag` panic.  The panic values are abbreviated: the
messages of `pflag` also carry the name of the flag set (`<set> flag redefined:
<name>`) and quote the shorthand. -/
def FlagSet.AddFlag (fset : FlagSet) (flag : Flag) : FlagSet × Option Str :=
  if (fset.Lookup flag.Name).isSome then
    (fset, some ("flag redefined: ".toList ++ flag.Name))
  else
    let fset' : FlagSet := { formal := fset.formal ++ [flag] }
    if flag.Shorthand = [] then (fset', none)
    else if byteLen flag.Shorthand > 1 then
      (fset', some ("shorthand is more than one ASCII character".toList))
    else if fset.formal.any (fun g => g.Shorthand = flag.Shorthand) then
      (fset', some ("unable to redefine shorthand ".toList ++ flag.Shorthand))
    else (fset', none)

/-! ## `viper`: the settings store

Keys are case-insensitive: every key is lower-cased on entry.  Keys are taken
whole; the nesting of keys at `.` is outside this model. -/

/-- The maps of the global `viper` instance that the binder writes. -/
structure Viper where
  /-- Key to the names of the environment variables bound to it. -/
  env : GoMap (List Str) := []
  /-- Key to its default. -/
  defaults : GoMap GoValue := []
  /-- Key to the name of the flag bound to it. -/
  pflags : GoMap Str := []
  deriving Repr

/-- `viper.BindEnv(key)`: with one argument the variable is the upper-cased key,
and the call returns no error. -/
def Viper.BindEnv (v : Viper) (key : Str) : Viper :=
  let k := toLower key
  { v with env := GoMap.set v.env k ((v.env.get k).getD [] ++ [toUpper k]) }

/-- `viper.SetDefault(key, value)`. -/
def Viper.SetDefault (v : Viper) (key : Str) (value : GoValue) : Viper :=
  { v with defaults := GoMap.set v.defaults (toLower key) value }

/-- `viper.BindPFlag(key, flag)` for a non-nil flag, which returns no error. -/
def Viper.BindPFlag (v : Viper) (key : Str) (flag : Flag) : Viper :=
  { v with pflags := GoMap.set v.pflags (toLower key) flag.Name }

/-! ## `pflagenv.go`: `Setup` -/

/-- Errors returned by `setup`. -/
inductive SetupError
  /-- `errors.New("result must be a pointer")`. -/
  | notPointer
  /-- `errors.New("result must be addressable (a pointer)")`. -/
  | notAddressable
  /-- `errors.New("result must be a struct")`. -/
  | notStruct
  /-- `fmt.Errorf("failed to setup embedded struct: %w", err)`. -/
  | embedded (err : SetupError)
  /-- `fmt.Errorf("failed to setup struct %T: %w", p.Interface(), err)`. -/
  | inStruct (typ : Str) (err : SetupError)
  /-- `fmt.Errorf("failed to setup struct pointer %T: %w", p.Elem().Interface(), err)`. -/
  | inStructPointer (typ : Str) (err : SetupError)
  /-- `fmt.Errorf("unsupported type %s", f.Type.String())`. -/
  | unsupportedType (typ : Str)
  deriving DecidableEq, Repr

/-- The text of a `SetupError` (`err.Error()`). -/
def SetupError.message : SetupError → Str
  | .notPointer => "result must be a pointer".toList
  | .notAddressable => "result must be addressable (a pointer)".toList
  | .notStruct => "result must be a struct".toList
  | .embedded err => "failed to setup embedded struct: ".toList ++ err.message
  | .inStruct typ err => "failed to setup struct ".toList ++ typ ++ ": ".toList ++ err.message
  | .inStructPointer typ err =>
    "failed to setup struct pointer ".toList ++ typ ++ ": ".toList ++ err.message
  | .unsupportedType typ => "unsupported type ".toList ++ typ

/-- What `Setup` works on: the flag set it is given and the global `viper`. -/
structure Binder where
  fset : FlagSet := {}
  viper : Viper := {}
  deriving Repr

/-- The environment name of a field (lines 51 to 69): the `env` tag up to its
first comma, or the upper-cased words of the field name joined by `_`. -/
def envName (f : StructField) : Str :=
  let env := f.envTag
  let env := if env ≠ [] ∧ env.contains ',' then (splitAll ',' env).headD [] else env
  if env = [] then toUpper (join "_".toList (camelcaseSplit f.Name)) else env

/-- The flag name of a field before prefixing (lines 52 to 72): the `flag` tag up
to its first comma, or the lower-cased words of the field name joined by `-`. -/
def flagName (f : StructField) : Str :=
  let flag := f.flagTag
  let flag := if flag.contains ',' then (splitAll ',' flag).headD [] else flag
  if flag = [] then toLower (join "-".toList (camelcaseSplit f.Name)) else flag

/-- The shorthand of a field (lines 53 to 60): the second comma-separated part of
the `flag` tag. -/
def shorthandOf (f : StructField) : Str :=
  if f.flagTag.contains ',' then (splitAll ',' f.flagTag).getD 1 [] else []

/-- The flag name with the namespace prefix (lines 78 to 80). -/
def prefixed (baseFlag flag : Str) : Str :=
  if baseFlag ≠ [] then baseFlag ++ "-".toList ++ flag else flag

/-- The description registered for a field (line 82). -/
def description (f : StructField) : Str :=
  f.descTag ++ " (environment ".toList ++ envName f ++ ")".toList

namespace GoValue

/-- `v.String()` on a value of kind `String`. -/
def getString : GoValue → Str
  | .string s => s
  | _ => []

/-- `v.Int()` on a value of a signed integer kind. -/
def getInt : GoValue → Int
  | .int i => i
  | _ => 0

/-- `v.Uint()` on a value of an unsigned integer kind. -/
def getUint : GoValue → Nat
  | .uint n => n
  | _ => 0

/-- `v.Float()` on a value of a floating-point kind. -/
def getFloat : GoValue → Nat
  | .float x => x
  | _ => 0

/-- `v.Bool()` on a value of kind `Bool`. -/
def getBool : GoValue → Bool
  | .bool b => b
  | _ => false

end GoValue

/-- A freshly registered flag. -/
def newFlag (name shorthand usage : Str) (kind : FlagKind) (value : GoValue) : Flag :=
  { Name := name, Shorthand := shorthand, Usage := usage, kind := kind, DefValue := value }

/-- The type assertion `p.Interface().(*T)` followed by the registration of the
flag: the assertion panics unless the field's type is exactly `T`. -/
def registerAs (fset : FlagSet) (t expected : GoType) (flag : Flag) : FlagSet × Option Str :=
  if t = expected then fset.AddFlag flag
  else (fset, some ("interface conversion: interface {} is *".toList ++ t.String ++
    ", not *".toList ++ expected.String))

/-- The map cases (lines 129 and 131): the type assertion `v.Interface().(T)` on
the value comes first, then the one on the pointer, then the registration; the
first panics unless the field's type is exactly `T`. -/
def registerMapAs (fset : FlagSet) (t expected : GoType) (flag : Flag) :
    FlagSet × Option Str :=
  if t = expected then fset.AddFlag flag
  else (fset, some ("interface conversion: interface {} is ".toList ++ t.String ++
    ", not ".toList ++ expected.String))

/-- The panic of `v.Int()` on a value of the unsigned kind of `expected`.  The
call is made before the type assertion on the pointer is checked, so a defined
type of that kind panics here as well. -/
def intOnUnsigned (fset : FlagSet) (expected : GoType) : FlagSet × Option Str :=
  (fset, some ("reflect: call of reflect.Value.Int on ".toList ++ expected.String ++
    " Value".toList))

/-- Lines 86 to 136 of `setup`: the registration attempted for a field, as the
registry after it and the panic, if any. -/
def registerField (fset : FlagSet) (f : StructField) (v : GoValue)
    (flag shorthand desc : Str) : FlagSet × Option Str :=
  if f.type.ptrImplementsValue then
    fset.AddFlag (newFlag flag shorthand desc .value v)
  else
    match f.type.kind with
    | .string =>
      registerAs fset f.type (.basic .string)
        (newFlag flag shorthand desc .string (.string v.getString))
    | .int =>
      registerAs fset f.type (.basic .int) (newFlag flag shorthand desc .int (.int v.getInt))
    | .int8 =>
      registerAs fset f.type (.basic .int8) (newFlag flag shorthand desc .int8 (.int v.getInt))
    | .int16 =>
      registerAs fset f.type (.basic .int16) (newFlag flag shorthand desc .int16 (.int v.getInt))
    | .int32 =>
      registerAs fset f.type (.basic .int32) (newFlag flag shorthand desc .int32 (.int v.getInt))
    | .int64 =>
      if f.type = durationType then
        fset.AddFlag (newFlag flag shorthand desc .duration (.int v.getInt))
      else
        registerAs fset f.type (.basic .int64) (newFlag flag shorthand desc .int64 (.int v.getInt))
    | .uint =>
      registerAs fset f.type (.basic .uint) (newFlag flag shorthand desc .uint (.uint v.getUint))
    | .uint8 => intOnUnsigned fset (.basic .uint8)
    | .uint16 => intOnUnsigned fset (.basic .uint16)
    | .uint32 => intOnUnsigned fset (.basic .uint32)
    | .uint64 =>
      registerAs fset f.type (.basic .uint64)
        (newFlag flag shorthand desc .uint64 (.uint v.getUint))
    | .float64 =>
      registerAs fset f.type (.basic .float64)
        (newFlag flag shorthand desc .float64 (.float v.getFloat))
    | .bool =>
      registerAs fset f.type (.basic .bool) (newFlag flag shorthand desc .bool (.bool v.getBool))
    | .slice =>
      match f.type.Elem.map GoType.kind with
      | some .string =>
        registerAs fset f.type (.slice (.basic .string)) (newFlag flag shorthand desc .stringSlice v)
      | _ => (fset, none)
    | .map =>
      if f.type.Key.map GoType.kind = some .string then
        match f.type.Elem.map GoType.kind with
        | some .string =>
          registerMapAs fset f.type (.map (.basic .string) (.basic .string))
            (newFlag flag shorthand desc .stringMap v)
        | some .int64 =>
          registerMapAs fset f.type (.map (.basic .string) (.basic .int64))
            (newFlag flag shorthand desc .int64Map v)
        | _ => (fset, none)
      else (fset, none)
    | _ => (fset, none)

/-- The wrapping of an error returned by a recursive call (`fmt.Errorf("...: %w",
err)`); a nil error and a panic pass through. -/
def wrapError (w : SetupError → SetupError) :
    Binder × Status SetupError → Binder × Status SetupError
  | (b, .error err) => (b, .error (w err))
  | r => r

/-- One iteration of the loop of `setup` (lines 43 to 163) on field `f` holding
`v`.  `descend baseEnv baseFlag b` stands for the recursive call
`setup(fset, ptr, baseEnv, baseFlag)` on the struct that the field holds or
points to.  The loop body does not read `baseEnv`: its only use is commented out
(lines 75 to 77). -/
def fieldStep (_baseEnv baseFlag : Str) (f : StructField) (v : GoValue) (b : Binder)
    (descend : Str → Str → Binder → Binder × Status SetupError) :
    Binder × Status SetupError :=
  if !f.exported then (b, .ok)
  else
    let env := envName f
    let flag := prefixed baseFlag (flagName f)
    match registerField b.fset f v flag (shorthandOf f) (description f) with
    | (fset, some msg) => ({ b with fset := fset }, .panic msg)
    | (fset, none) =>
      let b1 : Binder := { b with fset := fset }
      match fset.Lookup flag with
      | none =>
        if f.Anonymous && f.type.kind = .struct then
          wrapError .embedded (descend [] [] b1)
        else if f.type.kind = .struct then
          wrapError (.inStruct ('*' :: f.type.String)) (descend env flag b1)
        else if f.type.kind = .ptr then
          match v with
          | .pointer (some _) =>
            if (f.type.Elem.map GoType.kind) = some .struct then
              wrapError (.inStructPointer f.type.String) (descend env flag b1)
            else (b1, .error (.unsupportedType f.type.String))
          | _ => (b1, .panic "reflect: call of reflect.Value.Type on zero Value".toList)
        else (b1, .error (.unsupportedType f.type.String))
      | some pf =>
        ({ b1 with viper := ((b1.viper.BindEnv env).SetDefault env v).BindPFlag env pf }, .ok)

mutual
/-- The loop body on field `f` holding `v`, the recursive call being the loop
over the fields of the struct in `v`: the address of a struct field
(`p.Interface()`) and a non-nil pointer to a struct pass the three argument
checks of `setup`. -/
def setupField (baseEnv baseFlag : Str) (f : StructField) :
    GoValue → Binder → Binder × Status SetupError
  | .struct fields, b =>
    fieldStep baseEnv baseFlag f (.struct fields) b
      (fun e p b' => setupFields e p fields b')
  | .pointer (some (.struct fields)), b =>
    fieldStep baseEnv baseFlag f (.pointer (some (.struct fields))) b
      (fun e p b' => setupFields e p fields b')
  | v, b => fieldStep baseEnv baseFlag f v b (fun _ _ b' => (b', .ok))
/-- The loop of `setup` over the fields of a struct (lines 42 to 166): it stops
at the first field that returns an error or panics. -/
def setupFields (baseEnv baseFlag : Str) :
    Fields → Binder → Binder × Status SetupError
  | [], b => (b, .ok)
  | (f, v) :: rest, b =>
    match setupField baseEnv baseFlag f v b with
    | (b', .ok) => setupFields baseEnv baseFlag rest b'
    | r => r
end

/-- `setup` from line 36 on: the argument is a non-nil pointer to the value `val`
of type `t`. -/
def setupElem (baseEnv baseFlag : Str) (t : GoType) (val : GoValue) (b : Binder) :
    Binder × Status SetupError :=
  if t.kind ≠ .struct then (b, .error .notStruct)
  else
    match val with
    | .struct fields => setupFields baseEnv baseFlag fields b
    | _ => (b, .ok)

/-- The dynamic value passed as `c interface{}`. -/
inductive Arg
  /-- Anything that is not a pointer (`val.Kind() != reflect.Ptr`), the nil
  interface included. -/
  | nonPointer
  /-- A nil pointer of type `*elem`. -/
  | nilPointer (elem : GoType)
  /-- A non-nil pointer to the value `val` of type `elem`. -/
  | pointer (elem : GoType) (val : GoValue)
  deriving Repr

/-- `setup`: the binder after the call and how the call ended. -/
def setup (b : Binder) (c : Arg) (baseEnv baseFlag : Str) : Binder × Status SetupError :=
  match c with
  | .nonPointer => (b, .error .notPointer)
  | .nilPointer _ => (b, .error .notAddressable)
  | .pointer t val => setupElem baseEnv baseFlag t val b

/-- `Setup`. -/
def Setup (b : Binder) (c : Arg) : Binder × Status SetupError :=
  setup b c [] []

/-! ## Auxiliary notions used in the statements -/

/-- The map a token stands for: `readAsMap(readAsCSV(t))`. -/
def parseToken (t : Str) : Except MapError (GoMap Str) :=
  match readAsCSV t with
  | .error err => .error err
  | .ok s => readAsMap s

/-- A sequence of `Set` calls that all return nil: the state after the last one,
or `none` as soon as a call fails or panics. -/
def setEach : stringMap → List Str → Option stringMap
  | m, [] => some m
  | m, t :: ts =>
    match m.Set t with
    | (m', .ok) => setEach m' ts
    | _ => none

/-- The value of key `k` in the first map overridden in turn by the later ones:
the value in the last map that has the key. -/
def lastWrite : List (GoMap Str) → Str → Option Str
  | [], _ => none
  | m :: rest, k =>
    match lastWrite rest k with
    | some v => some v
    | none => m.get k

/-- The keys of a map. -/
def GoMap.keys {β : Type} (m : GoMap β) : List Str := m.map Prod.fst

/-- The strings `stringMap.String` hands to `writeAsCSV`: one `k=v` per entry
(`fmt.Sprintf("%s=%s", k, v)`), in the order the map is iterated. -/
def keyValueStrings (m : GoMap Str) : List Str :=
  m.map (fun kv => kv.1 ++ '=' :: kv.2)

/-- `stringMap.String`; the map is iterated in the order of its entries here,
in an unspecified order in Go. -/
def stringMap.String (m : stringMap) : Str :=
  match writeAsCSV (keyValueStrings (m.value.getD [])) with
  | .ok str => '[' :: (str ++ [']'])
  | .error _ => ['[', ']']

/-- Writing strings with `writeAsCSV` and reading the token back with `readAsCSV`
and `readAsMap`. -/
def writeThenRead (vals : List Str) : Except MapError (GoMap Str) :=
  match writeAsCSV vals with
  | .error err => .error err
  | .ok token =>
    match readAsCSV token with
    | .error err => .error err
    | .ok s => readAsMap s

/-- Whether a string contains a carriage return followed by a line feed. -/
def hasCRLF : Str → Bool
  | [] => false
  | c :: rest => (c = '\r' && headIs (fun d => d = '\n') rest) || hasCRLF rest

/-- The errors of the three argument checks of `setup` (lines 27 to 38). -/
def SetupError.isArgumentError : SetupError → Bool
  | .notPointer => true
  | .notAddressable => true
  | .notStruct => true
  | _ => false

/-- The argument is a non-nil pointer to a struct. -/
def Arg.isStructPointer : Arg → Bool
  | .pointer t _ => t.kind = .struct
  | _ => false

/-- The kinds named as unsupported: a map whose key is not of kind string, a
string-keyed map whose element is of neither kind string nor kind int64, and a
slice whose element is not of kind string. -/
def unsupportedKind (t : GoType) : Bool :=
  match t.kind with
  | .map =>
    t.Key.map GoType.kind != some .string ||
      (t.Elem.map GoType.kind != some .string && t.Elem.map GoType.kind != some .int64)
  | .slice => t.Elem.map GoType.kind != some .string
  | _ => false

/-- The names of the registered flags, in order of registration. -/
def Binder.flagNames (b : Binder) : List Str := b.fset.formal.map Flag.Name

/-- The struct `Config { Server struct { Base; Host string } }` where `Base` is the
embedded struct `Base { Port int }`. -/
def embeddedInNested : GoValue :=
  .struct [
    ({ Name := "Server".toList, type := .struct "main.Server".toList false },
      .struct [
        ({ Name := "Base".toList, Anonymous := true, type := .struct "main.Base".toList false },
          .struct [({ Name := "Port".toList, type := .basic .int }, .int 8080)]),
        ({ Name := "Host".toList, type := .basic .string }, .string "localhost".toList)])]

/-- The struct `Config { A T }` for a predeclared type `T`, holding `v`. -/
def singleField (t : Basic) (v : GoValue) : Arg :=
  .pointer (.struct "main.Config".toList false)
    (.struct [({ Name := "A".toList, type := .basic t }, v)])

/-- A capitalised ASCII word: an upper-case letter followed by one or more
lower-case letters. -/
def isCapitalisedWord : Str → Bool
  | u :: c :: l => u.isUpper && c.isLower && l.all Char.isLower
  | _ => false

/-- The concatenation of words. -/
def concatWords : List Str → Str
  | [] => []
  | w :: ws => w ++ concatWords ws

/-- The runs of a concatenation of capitalised words: for each word, its
capital and its lower-case letters. -/
def capitalRuns : List Str → List Str
  | [] => []
  | (u :: l) :: ws => [u] :: l :: capitalRuns ws
  | [] :: ws => capitalRuns ws

/-- A struct field together with the fields declared before and after it in its
struct. -/
structure Level where
  pre : Fields
  field : StructField
  post : Fields

/-- The fields of the outermost struct of a chain of nested structs: the field of
every level holds the struct of the next level, the field of the last level holds
the struct with the fields `inner`. -/
def nest : List Level → Fields → Fields
  | [], inner => inner
  | l :: rest, inner => l.pre ++ (l.field, .struct (nest rest inner)) :: l.post

/-- The field types for which lines 86 to 136 register a flag: the types with a
`Set` of their own and the exact types of the registration calls.  The unsigned
widths 8, 16 and 32, whose default is read with `v.Int()`, are not among them. -/
def registersFlag (t : GoType) : Bool :=
  t.ptrImplementsValue ||
  t ∈ [GoType.basic .string, .basic .int, .basic .int8, .basic .int16, .basic .int32,
    .basic .int64, durationType, .basic .uint, .basic .uint64, .basic .float64, .basic .bool,
    .slice (.basic .string), .map (.basic .string) (.basic .string),
    .map (.basic .string) (.basic .int64)]

/-- A shorthand that `AddFlag` accepts: none, or one byte that no registered flag
uses. -/
def shorthandFree (fset : FlagSet) (sh : Str) : Bool :=
  sh = [] || (byteLen sh ≤ 1 && !fset.formal.any (fun g => g.Shorthand = sh))

/-- The loop of `setup`, started in state `b` on the outermost struct of the
chain, comes to the field that follows `pre` in the innermost struct in state
`b'`: at every level the fields before the chain's field are set up without error
or panic, and no flag is registered under the joined name of the chain down to
that level when its field is reached.  `names` are the flag names of the enclosing
fields and `baseEnv` the environment name of the innermost of them. -/
def Arrives : List Str → Str → List Level → Fields → Binder → Binder → Prop
  | names, baseEnv, [], pre, b, b' =>
    setupFields baseEnv (join "-".toList names) pre b = (b', .ok)
  | names, baseEnv, l :: rest, pre, b, b' =>
    ∃ b1, setupFields baseEnv (join "-".toList names) l.pre b = (b1, .ok) ∧
      b1.fset.Lookup (join "-".toList (names ++ [flagName l.field])) = none ∧
      Arrives (names ++ [flagName l.field]) (envName l.field) rest pre b1 b'

/-- In `Config { Name string; Server Server }`: the field `Server`, after `Name`. -/
def serverLevel : Level :=
  { pre := [({ Name := "Name".toList, type := .basic .string }, .string "x".toList)],
    field := { Name := "Server".toList, type := .struct "main.Server".toList false },
    post := [] }

/-- In `Server { Host string; Port int; Debug bool }`: the field `Host`. -/
def hostField : StructField × GoValue :=
  ({ Name := "Host".toList, type := .basic .string }, .string "localhost".toList)

/-- In `Server { Host string; Port int; Debug bool }`: the field `Port`. -/
def portField : StructField := { Name := "Port".toList, type := .basic .int }

/-- In `Server { Host string; Port int; Debug bool }`: the field `Debug`. -/
def debugField : StructField × GoValue :=
  ({ Name := "Debug".toList, type := .basic .bool }, .bool false)

/-- The state in which `Setup`, started on an empty flag set with `Config`,
comes to `Server.Port`: `name` and `server-host` are registered. -/
def atPort : Binder :=
  (setupFields "SERVER".toList "server".toList [hostField]
    (setupFields [] [] serverLevel.pre {}).1).1

/-! ## After `Setup`: the command line, `viper.AllSettings` and `Parse`

`Parse` hands `viper.AllSettings()` to a `mapstructure` decoder.  Both are
libraries; what follows models the part of them that the bindings made by
`setup` go through: the precedence of `viper` for one key, and the key under
which the decoder looks up a field of the struct.  The conversion of a setting
to the type of the field (decode hooks, weak typing) and the `mapstructure` tag
options `squash` and `remain` are outside the model. -/

/-- `FlagSet.Set(name, value)`, which `fset.Parse` calls for `--name=value`, for a
value the flag accepts: the flag holds the text and is marked as changed. -/
def FlagSet.Set (fset : FlagSet) (name value : Str) : FlagSet :=
  { formal := fset.formal.map
      (fun f => if f.Name = name then { f with Changed := true, Value := value } else f) }

/-- What `viper` holds for a key. -/
inductive Setting
  /-- The value of a flag that was set on the command line. -/
  | flag (text : Str)
  /-- The value of an environment variable. -/
  | env (text : Str)
  /-- The default given to `SetDefault`. -/
  | default (v : GoValue)
  /-- The default of a bound flag, when nothing else is found. -/
  | flagDefault (v : GoValue)
  deriving Repr

/-- The value of the first environment variable bound to `key` that is set; an
empty value counts (`viper.AllowEmptyEnv(true)` in `init`). -/
def Viper.findEnv (v : Viper) (environ : GoMap Str) (key : Str) : Option Str :=
  match v.env.get key with
  | some names => names.findSome? (fun n => environ.get n)
  | none => none

/-- `viper.find(key, true)` over the maps the binder writes (there is no override,
config file or key/value store): a changed flag first, then the environment,
then the default, then the default of the flag. -/
def Viper.find (v : Viper) (fset : FlagSet) (environ : GoMap Str) (key : Str) :
    Option Setting :=
  let flag := (v.pflags.get key).bind fset.Lookup
  if flag.map (fun fl => fl.Changed) = some true then
    flag.map (fun fl => Setting.flag fl.Value)
  else
    match v.findEnv environ key with
    | some text => some (.env text)
    | none =>
      match v.defaults.get key with
      | some d => some (.default d)
      | none => flag.map (fun fl => Setting.flagDefault fl.DefValue)

/-- `viper.AllKeys()`. -/
def Viper.AllKeys (v : Viper) : List Str :=
  (v.pflags.keys ++ v.env.keys ++ v.defaults.keys).dedup

/-- `viper.AllSettings()`: every key with what `Get` returns for it.  Keys are
taken whole: a key that contains `.`, which `viper` turns into a nested map, is
outside this model. -/
def Viper.AllSettings (v : Viper) (fset : FlagSet) (environ : GoMap Str) : GoMap Setting :=
  v.AllKeys.filterMap (fun k => (v.find fset environ k).map (fun s => (k, s)))

/-- The name under which the decoder looks up a field (`TagName: "env"`): the
`env` tag up to its first comma, or the field name. -/
def decodeName (f : StructField) : Str :=
  let n := (splitAll ',' f.envTag).headD []
  if n = [] then f.Name else n

/-- `strings.EqualFold`, on ASCII. -/
def equalFold (a b : Str) : Bool := toLower a = toLower b

/-- The entry of the settings the decoder takes for a field name: the entry with
that key, else an entry whose key equals the name up to case. -/
def lookupSetting (settings : GoMap Setting) (name : Str) : Option Setting :=
  match settings.get name with
  | some s => some s
  | none => (settings.find? (fun kv => equalFold kv.1 name)).map Prod.snd

/-- `Parse(c)` for the struct with fields `root`, as the setting that
`decoder.Decode(viper.AllSettings())` hands to the decoder of each field of the
struct; `none` means that no key matches and the field, with everything inside
it, is left as it is.  The settings are flat, so a field inside a nested struct
is never handed a setting. -/
def Parse (b : Binder) (environ : GoMap Str) (root : Fields) :
    List (StructField × Option Setting) :=
  root.map (fun fv =>
    (fv.1, if fv.1.exported then
        lookupSetting (b.viper.AllSettings b.fset environ) (decodeName fv.1)
      else none))

/-- The struct `Config { X int }` holding 7. -/
def xConfig : Fields := [({ Name := "X".toList, type := .basic .int }, .int 7)]

/-- The struct `Config { Server struct { Port int } }` holding 8080. -/
def serverPortConfig : Fields :=
  [({ Name := "Server".toList, type := .struct "main.Server".toList false },
    .struct [({ Name := "Port".toList, type := .basic .int }, .int 8080)])]

/-- The binder after `Setup` on an empty flag set with a pointer to a `Config`. -/
def afterSetup (root : Fields) : Binder :=
  (Setup {} (.pointer (.struct "main.Config".toList false) (.struct root))).1

/-- The field `X int` of `Config { X int }`. -/
def xField : StructField := { Name := "X".toList, type := .basic .int }

/-- The binder after `Setup` on `Config { X int }` and `--x=1` on the command line. -/
def afterSetupAndFlag : Binder :=
  { afterSetup xConfig with fset := (afterSetup xConfig).fset.Set "x".toList "1".toList }

/-- The struct `Config { MaxRetryCount int }` holding 3, without tags. -/
def maxRetryCountConfig : Fields :=
  [({ Name := "MaxRetryCount".toList, type := .basic .int }, .int 3)]

/-! ## `map.go`: `int64Map` and the decode hooks -/

/-- The decimal digits of `strconv.ParseUint(s, 10, 64)` read after the value
`acc`: `none` for a character that is not one of `0` to `9` (an underscore or a
letter is a syntax error in base 10). -/
def parseDigits (acc : Nat) : Str → Option Nat
  | [] => some acc
  | c :: rest =>
    if 48 ≤ c.toNat ∧ c.toNat ≤ 57 then parseDigits (acc * 10 + (c.toNat - 48)) rest
    else none

/-- The magnitude read by `strconv.ParseUint(s, 10, 64)`, before its range
check: at least one digit, only digits. -/
def parseMagnitude (s : Str) : Option Nat :=
  if s = [] then none else parseDigits 0 s

/-- `strconv.ParseInt(s, 10, 64)`: the value, or `none` when it returns an error
(`ErrSyntax` for a text that is not an optional sign followed by decimal digits,
`ErrRange` for a value outside `[-2^63, 2^63-1]`). -/
def ParseInt (s : Str) : Option Int :=
  match s with
  | [] => none
  | c :: rest =>
    if c = '+' then
      (parseMagnitude rest).bind
        (fun n => if n < 9223372036854775808 then some (n : Int) else none)
    else if c = '-' then
      (parseMagnitude rest).bind
        (fun n => if n ≤ 9223372036854775808 then some (-(n : Int)) else none)
    else
      (parseMagnitude s).bind
        (fun n => if n < 9223372036854775808 then some (n : Int) else none)

/-- `convertToInt64Map`; the map is iterated in the order of its entries here. -/
def convertToInt64Map (val : GoMap Str) : Except MapError (GoMap Int) :=
  go val []
where
  /-- The loop of `convertToInt64Map`, `result` being the map built so far. -/
  go : GoMap Str → GoMap Int → Except MapError (GoMap Int)
    | [], result => .ok result
    | (k, v) :: rest, result =>
      match ParseInt v with
      | none => .error (.invalidInt v)
      | some intVal => go rest (GoMap.set result k intVal)

/-- The struct `int64Map`; `value` is the map its pointer refers to (`none` is a
nil map). -/
structure int64Map where
  value : Option (GoMap Int)
  changed : Bool
  deriving DecidableEq, Repr

/-- `newInt64Map`: the referenced map is overwritten with `val`. -/
def newInt64Map (val : Option (GoMap Int)) : int64Map :=
  { value := val, changed := false }

/-- `int64Map.Set`: the state after the call and how the call ended.  Assigning
into a nil map panics. -/
def int64Map.Set (m : int64Map) (val : Str) : int64Map × Status MapError :=
  match readAsCSV val with
  | .error err => (m, .error err)
  | .ok s =>
    match readAsMap s with
    | .error err => (m, .error err)
    | .ok sv =>
      match convertToInt64Map sv with
      | .error err => (m, .error err)
      | .ok v =>
        if !m.changed then
          ({ value := some v, changed := true }, .ok)
        else
          match m.value with
          | some mapValue =>
            ({ value := some (GoMap.assignAll mapValue v), changed := true }, .ok)
          | none =>
            if v = [] then ({ value := none, changed := true }, .ok)
            else (m, .panic "assignment to entry in nil map".toList)

/-- The source value `data` handed to a decode hook, by its dynamic type. -/
inductive HookData
  /-- A `[]string`. -/
  | strings (xs : List Str)
  /-- A `string`. -/
  | string (s : Str)
  /-- A value of a defined type whose kind is `String` (`type T string`),
  printed as `typ`. -/
  | definedString (typ : Str) (s : Str)
  /-- A `map[string]string`; `none` is the nil map. -/
  | stringMap (m : Option (GoMap Str))
  /-- A `map[string]int64`. -/
  | int64Map (m : Option (GoMap Int))
  /-- A value `v` of the destination type `t`, as `FlagValueHook` returns it
  (`v.Elem().Interface()`). -/
  | ofDestination (t : GoType) (v : GoValue)
  /-- A value of any other type, printed as `typ`. -/
  | other (typ : Str)
  deriving Repr

/-- The type of the source value as `%T` prints it. -/
def HookData.typeName : HookData → Str
  | .strings _ => "[]string".toList
  | .string _ => "string".toList
  | .definedString typ _ => typ
  | .stringMap _ => "map[string]string".toList
  | .int64Map _ => "map[string]int64".toList
  | .ofDestination t _ => t.String
  | .other typ => typ

/-- The function returned by `StringMapHook()`, applied to the destination type
`t` and the source value `data` (the hook does not read the source type `f`). -/
def StringMapHook (t : GoType) (data : HookData) : Except MapError HookData :=
  if t.kind ≠ .map then .ok data
  else if t.Key.map GoType.kind ≠ some .string ∨ t.Elem.map GoType.kind ≠ some .string then
    .ok data
  else
    match data with
    | .strings v =>
      match readAsMap v with
      | .ok m => .ok (.stringMap (some m))
      | .error err => .error err
    | .string v =>
      match readAsCSV v with
      | .error err => .error err
      | .ok mapValues =>
        match readAsMap mapValues with
        | .ok m => .ok (.stringMap (some m))
        | .error err => .error err
    | .stringMap v => .ok (.stringMap v)
    | d => .error (.unsupportedMapType d.typeName)

/-- The function returned by `Int64MapHook()`, applied to the destination type
`t` and the source value `data`. -/
def Int64MapHook (t : GoType) (data : HookData) : Except MapError HookData :=
  if t.kind ≠ .map then .ok data
  else if t.Key.map GoType.kind ≠ some .string ∨ t.Elem.map GoType.kind ≠ some .int64 then
    .ok data
  else
    match data with
    | .strings v =>
      match readAsMap v with
      | .error err => .error err
      | .ok mapValues =>
        match convertToInt64Map mapValues with
        | .ok m => .ok (.int64Map (some m))
        | .error err => .error err
    | .string v =>
      match readAsCSV v with
      | .error err => .error err
      | .ok mapValues =>
        match readAsMap mapValues with
        | .error err => .error err
        | .ok values =>
          match convertToInt64Map values with
          | .ok m => .ok (.int64Map (some m))
          | .error err => .error err
    | .int64Map v => .ok (.int64Map v)
    | d => .error (.unsupportedMapType d.typeName)

/-! ## Auxiliary notions for `readAsMap` and `int64Map` -/

/-- The text of an element before its first `=`. -/
def keyText (e : Str) : Str := e.takeWhile (fun c => c ≠ '=')

/-- The text of an element after its first `=`. -/
def valueText (e : Str) : Str := (e.dropWhile (fun c => c ≠ '=')).drop 1

/-- The value that the last element with key text `k` gives to `k`; `none` when
no element has that key text. -/
def lastPair : List Str → Str → Option Str
  | [], _ => none
  | e :: rest, k =>
    match lastPair rest k with
    | some v => some v
    | none => if keyText e = k then some (valueText e) else none

/-- The map a token stands for in an `int64Map`:
`convertToInt64Map(readAsMap(readAsCSV(t)))`. -/
def parseInt64Token (t : Str) : Except MapError (GoMap Int) :=
  match parseToken t with
  | .error err => .error err
  | .ok sv => convertToInt64Map sv

/-- A sequence of `int64Map.Set` calls that all return nil: the state after the
last one, or `none` as soon as a call fails or panics. -/
def setEach64 : int64Map → List Str → Option int64Map
  | m, [] => some m
  | m, t :: ts =>
    match m.Set t with
    | (m', .ok) => setEach64 m' ts
    | _ => none

/-- The int64 map `mi` is the string map `ms` with each value converted by
base-10 integer parsing: the two have the same keys, and the value of a key in
`mi` is what `ParseInt` returns for its value in `ms`. -/
def Converted (ms : GoMap Str) (mi : GoMap Int) : Prop :=
  ∀ k, match ms.get k with
    | none => mi.get k = none
    | some v => ∃ n, ParseInt v = some n ∧ mi.get k = some n

/-- After the same calls an `int64Map` and a `stringMap` mirror each other: both
have been set, both maps are allocated, and the int64 map is the string map with
each value converted. -/
def Mirrors (im : int64Map) (sm : stringMap) : Prop :=
  ∃ mi ms, im = { value := some mi, changed := true } ∧
    sm = { value := some ms, changed := true } ∧ Converted ms mi

/-! ## `pflagenv.go`: `FlagValueHook` -/

/-- How a call of a decode hook ends: it returns `(data, err)`, `err` being
`none` for a nil error, or it panics. -/
inductive HookResult
  /-- The call returned. -/
  | returned (data : HookData) (err : Option MapError)
  /-- The call panicked. -/
  | panicked (msg : Str)
  deriving Repr

/-- The function returned by `FlagValueHook()`, applied to the source type `f`,
the destination type `t` and the source value `data`.  `Set` is the method of
the destination type called on a fresh zero value (`reflect.New(t)`) with the
source string: `none` when it returns an error, otherwise the value the fresh
variable holds afterwards (`v.Elem().Interface()`).  The type assertion
`data.(string)` panics unless the dynamic type of `data` is exactly `string`. -/
def FlagValueHook (f t : GoType) (Set : Str → Option GoValue) (data : HookData) : HookResult :=
  if f.kind ≠ .string then .returned data none
  else if !t.ptrImplementsValue then .returned data none
  else
    match data with
    | .string s =>
      match Set s with
      | none => .returned data none
      | some v => .returned (.ofDestination t v) none
    | d =>
      .panicked ("interface conversion: interface {} is ".toList ++ d.typeName ++
        ", not string".toList)

/-! ## Auxiliary notions for the decode hooks -/

/-- The underlying type of a type: the defined names removed. -/
def underlying : GoType → GoType
  | .named _ u _ => underlying u
  | t => t

/-- A map type whose key type has kind `String` and whose element type has kind
`elem`. -/
def isMapFromStringTo (elem : Kind) (t : GoType) : Bool :=
  match underlying t with
  | .map k e => k.kind = .string && e.kind = elem
  | _ => false

/-- The defined type `type Mode string` whose pointer has the methods of
`pflag.Value`. -/
def modeType : GoType := .named "main.Mode".toList (.basic .string) true

/-! ## Structs used for pointer fields and shared flag names -/

/-- The struct `Config { Server *Server }` with `Server { Port int }`, the pointer
being nil. -/
def nilServerPointerConfig : Fields :=
  [({ Name := "Server".toList, type := .ptr (.struct "main.Server".toList false) },
    .pointer none)]

/-- The struct `Config { Server *Server }` with `Server { Port int }`, the pointer
referring to a `Server` that holds 8080. -/
def serverPointerConfig : Fields :=
  [({ Name := "Server".toList, type := .ptr (.struct "main.Server".toList false) },
    .pointer (some (.struct [({ Name := "Port".toList, type := .basic .int }, .int 8080)])))]

/-- The field `A string` tagged `flag:"x"`. -/
def sharedFlagFirst : StructField :=
  { Name := "A".toList, flagTag := "x".toList, type := .basic .string }

/-- The field `B map[int]string` tagged `flag:"x"`. -/
def sharedFlagSecond : StructField :=
  { Name := "B".toList, flagTag := "x".toList, type := .map (.basic .int) (.basic .string) }

/-- The struct `Config { A string; B map[int]string }`, both fields tagged
`flag:"x"`, holding `"v"` and a nil map. -/
def sharedFlagConfig : Fields :=
  [(sharedFlagFirst, .string "v".toList), (sharedFlagSecond, .other)]

/-! ## Auxiliary notions for nested leaves -/

/-- The environment bindings of `v` are kept in `v'`: every key bound in `v` is
bound in `v'` to the same names, possibly followed by more. -/
def Viper.envKept (v v' : Viper) : Prop :=
  ∀ k names, v.env.get k = some names → ∃ more, v'.env.get k = some (names ++ more)

/-- The struct `Config { ServerPort int; Server struct { Port int } }` holding 1
and 8080: the derived flag name of `ServerPort` is the joined flag name of
`Server.Port`. -/
def joinedNameClashConfig : Fields :=
  [({ Name := "ServerPort".toList, type := .basic .int }, .int 1),
   ({ Name := "Server".toList, type := .struct "main.Server".toList false },
    .struct [({ Name := "Port".toList, type := .basic .int }, .int 8080)])]

/-- The struct `Config { Bad map[int]string; Server struct { Port int } }`: a
field of unsupported kind is declared before `Server`. -/
def earlierFieldFailsConfig : Fields :=
  [({ Name := "Bad".toList, type := .map (.basic .int) (.basic .string) }, .other),
   ({ Name := "Server".toList, type := .struct "main.Server".toList false },
    .struct [({ Name := "Port".toList, type := .basic .int }, .int 8080)])]

/-- The struct `Config { Server struct { Port int } }` with `Port` tagged
`flag:"port,pp"`: a shorthand of two characters. -/
def longShorthandConfig : Fields :=
  [({ Name := "Server".toList, type := .struct "main.Server".toList false },
    .struct [({ Name := "Port".toList, flagTag := "port,pp".toList, type := .basic .int },
      .int 8080)])]

/-- The struct `Config { Port int; Server struct { Port int } }` holding 1 and
8080: both leaves have the environment name `PORT`. -/
def portAndServerPortConfig : Fields :=
  [({ Name := "Port".toList, type := .basic .int }, .int 1),
   ({ Name := "Server".toList, type := .struct "main.Server".toList false },
    .struct [({ Name := "Port".toList, type := .basic .int }, .int 8080)])]

/-! ## Go maps: lemmas -/

theorem GoMap.get_set {β : Type} (m : GoMap β) (k k' : Str) (v : β) :
    (GoMap.set m k v).get k' = if k = k' then some v else m.get k' := by
  induction m with
  | nil => simp [GoMap.set, GoMap.get]
  | cons p rest ih =>
    obtain ⟨a, b⟩ := p
    by_cases h : a = k
    · subst h
      by_cases h' : a = k' <;> simp [GoMap.set, GoMap.get, h']
    · by_cases h' : a = k'
      · subst h'
        simp [GoMap.set, GoMap.get, h, Ne.symm h]
      · simp [GoMap.set, GoMap.get, h, h', ih]

theorem GoMap.keys_set {β : Type} (m : GoMap β) (k : Str) (v : β) (x : Str) :
    x ∈ (GoMap.set m k v).keys ↔ x = k ∨ x ∈ m.keys := by
  induction m with
  | nil => simp [GoMap.set, GoMap.keys]
  | cons p rest ih =>
    obtain ⟨a, b⟩ := p
    by_cases h : a = k
    · subst h
      simp only [GoMap.set, GoMap.keys, if_true, List.map_cons, List.mem_cons]
      tauto
    · simp only [GoMap.set]
      rw [if_neg h]
      simp only [GoMap.keys, List.map_cons, List.mem_cons] at ih ⊢
      rw [ih]
      tauto

theorem GoMap.nodup_set {β : Type} (m : GoMap β) (k : Str) (v : β)
    (h : m.keys.Nodup) : (GoMap.set m k v).keys.Nodup := by
  induction m with
  | nil => simp [GoMap.set, GoMap.keys]
  | cons p rest ih =>
    obtain ⟨a, b⟩ := p
    simp only [GoMap.keys, List.map_cons, List.nodup_cons] at h
    by_cases hk : a = k
    · subst hk
      simp only [GoMap.set, GoMap.keys, if_true, List.map_cons, List.nodup_cons]
      exact h
    · simp only [GoMap.set]
      rw [if_neg hk]
      simp only [GoMap.keys, List.map_cons, List.nodup_cons]
      refine ⟨?_, ih h.2⟩
      intro hmem
      rcases (GoMap.keys_set rest k v a).1 hmem with h1 | h1
      · exact hk h1
      · exact h.1 h1

theorem GoMap.get_eq_none {β : Type} (m : GoMap β) (k : Str) (h : k ∉ m.keys) :
    m.get k = none := by
  induction m with
  | nil => rfl
  | cons p rest ih =>
    obtain ⟨a, b⟩ := p
    simp only [GoMap.keys, List.map_cons, List.mem_cons, not_or] at h
    simp [GoMap.get, Ne.symm h.1, ih h.2]

theorem GoMap.get_eq_some_iff {β : Type} (m : GoMap β) (h : m.keys.Nodup) (k : Str) (v : β) :
    m.get k = some v ↔ (k, v) ∈ m := by
  induction m with
  | nil => simp [GoMap.get]
  | cons p rest ih =>
    obtain ⟨a, b⟩ := p
    simp only [GoMap.keys, List.map_cons, List.nodup_cons] at h
    by_cases hk : a = k
    · subst hk
      simp only [GoMap.get, if_true, Option.some.injEq, List.mem_cons, Prod.mk.injEq, true_and]
      constructor
      · intro e; exact Or.inl e.symm
      · rintro (e | e)
        · exact e.symm
        · exact absurd (List.mem_map_of_mem Prod.fst e) h.1
    · simp only [GoMap.get, hk, if_false, List.mem_cons, Prod.mk.injEq]
      rw [ih h.2]
      constructor
      · intro e; exact Or.inr e
      · rintro (e | e)
        · exact absurd e.1.symm hk
        · exact e

/-- After `for k, v := range src { dst[k] = v }` a key has its value in `src` if
`src` has it, and keeps its value in `dst` otherwise. -/
theorem GoMap.get_assignAll {β : Type} (src : GoMap β) (h : src.keys.Nodup)
    (dst : GoMap β) (k : Str) :
    (GoMap.assignAll dst src).get k =
      match src.get k with
      | some v => some v
      | none => dst.get k := by
  induction src generalizing dst with
  | nil => simp [GoMap.assignAll, GoMap.get]
  | cons p rest ih =>
    obtain ⟨a, b⟩ := p
    simp only [GoMap.keys, List.map_cons, List.nodup_cons] at h
    have ih' := ih h.2 (GoMap.set dst a b)
    simp only [GoMap.assignAll, List.foldl_cons] at ih' ⊢
    rw [ih']
    by_cases hk : a = k
    · subst hk
      rw [GoMap.get_eq_none rest a h.1]
      simp [GoMap.get, GoMap.get_set]
    · simp [GoMap.get, GoMap.get_set, hk]

theorem GoMap.nodup_assignAll {β : Type} (src dst : GoMap β) (h : dst.keys.Nodup) :
    (GoMap.assignAll dst src).keys.Nodup := by
  induction src generalizing dst with
  | nil => simpa [GoMap.assignAll] using h
  | cons p rest ih =>
    simp only [GoMap.assignAll, List.foldl_cons]
    exact ih _ (GoMap.nodup_set dst p.1 p.2 h)

/-! ## `readAsMap`: lemmas -/

theorem splitFirst_eq_none (sep : Char) (v : Str) :
    splitFirst sep v = none ↔ sep ∉ v := by
  induction v with
  | nil => simp [splitFirst]
  | cons c rest ih =>
    by_cases h : c = sep
    · simp [splitFirst, h]
    · cases hs : splitFirst sep rest with
      | none =>
        have := ih.1 hs
        simp [splitFirst, h, hs, this, Ne.symm h]
      | some p =>
        have : ¬ sep ∉ rest := fun hn => by rw [ih.2 hn] at hs; cases hs
        simp only [not_not] at this
        simp [splitFirst, h, hs, this]

theorem splitFirst_append (sep : Char) (k v : Str) (h : sep ∉ k) :
    splitFirst sep (k ++ sep :: v) = some (k, v) := by
  induction k with
  | nil => simp [splitFirst]
  | cons c rest ih =>
    simp only [List.mem_cons, not_or] at h
    simp [splitFirst, Ne.symm h.1, ih h.2]

theorem readAsMap_go_nodup (vals : List Str) (acc r : GoMap Str)
    (hacc : acc.keys.Nodup) (h : readAsMap.go vals acc = .ok r) : r.keys.Nodup := by
  induction vals generalizing acc with
  | nil =>
    simp only [readAsMap.go, Except.ok.injEq] at h
    exact h ▸ hacc
  | cons v rest ih =>
    simp only [readAsMap.go] at h
    split at h
    · cases h
    · exact ih _ (GoMap.nodup_set acc _ _ hacc) h

theorem readAsMap_nodup (vals : List Str) (r : GoMap Str)
    (h : readAsMap vals = .ok r) : r.keys.Nodup :=
  readAsMap_go_nodup vals [] r (by simp [GoMap.keys]) h

theorem readAsMap_go_error (vals : List Str) (acc : GoMap Str)
    (h : ∃ e ∈ vals, '=' ∉ e) : ∃ err, readAsMap.go vals acc = .error err := by
  induction vals generalizing acc with
  | nil => simp at h
  | cons v rest ih =>
    simp only [readAsMap.go]
    cases hs : splitFirst '=' v with
    | none => exact ⟨_, rfl⟩
    | some p =>
      obtain ⟨e, he, hne⟩ := h
      rcases List.mem_cons.1 he with h1 | h1
      · subst h1
        rw [(splitFirst_eq_none '=' e).2 hne] at hs
        cases hs
      · exact ih _ ⟨e, h1, hne⟩

theorem parseToken_nodup (t : Str) (m : GoMap Str) (h : parseToken t = .ok m) :
    m.keys.Nodup := by
  unfold parseToken at h
  split at h
  · cases h
  · exact readAsMap_nodup _ _ h

/-! ## `stringMap.Set` -/

theorem stringMap.Set_of_parse_error (m : stringMap) (val : Str) (err : MapError)
    (h : parseToken val = .error err) : m.Set val = (m, .error err) := by
  unfold parseToken at h
  unfold stringMap.Set
  cases hc : readAsCSV val with
  | error e =>
    rw [hc] at h
    simp only [Except.error.injEq] at h
    simp [h]
  | ok s =>
    rw [hc] at h
    simp only at h
    simp [h]

theorem stringMap.Set_first (m : stringMap) (val : Str) (v : GoMap Str)
    (hc : m.changed = false) (h : parseToken val = .ok v) :
    m.Set val = ({ value := some v, changed := true }, .ok) := by
  unfold parseToken at h
  unfold stringMap.Set
  cases hr : readAsCSV val with
  | error e => rw [hr] at h; cases h
  | ok s =>
    rw [hr] at h
    simp only at h
    simp [h, hc]

theorem stringMap.Set_later (cur : GoMap Str) (val : Str) (v : GoMap Str)
    (h : parseToken val = .ok v) :
    stringMap.Set { value := some cur, changed := true } val =
      ({ value := some (GoMap.assignAll cur v), changed := true }, .ok) := by
  unfold parseToken at h
  unfold stringMap.Set
  cases hr : readAsCSV val with
  | error e => rw [hr] at h; cases h
  | ok s =>
    rw [hr] at h
    simp only at h
    simp [h]

theorem setEach_changed (cur : GoMap Str) (tokens : List Str) (maps : List (GoMap Str))
    (hparse : List.Forall₂ (fun t m => parseToken t = .ok m) tokens maps) :
    ∃ m, setEach { value := some cur, changed := true } tokens
        = some { value := some m, changed := true } ∧
      ∀ k, m.get k = match lastWrite maps k with
        | some v => some v
        | none => cur.get k := by
  induction hparse generalizing cur with
  | nil => exact ⟨cur, rfl, fun k => by simp [lastWrite]⟩
  | @cons t m1 ts ms h1 _ ih =>
    obtain ⟨m, hm, hget⟩ := ih (GoMap.assignAll cur m1)
    refine ⟨m, ?_, ?_⟩
    · simp only [setEach, stringMap.Set_later cur t m1 h1]
      exact hm
    · intro k
      rw [hget k, GoMap.get_assignAll m1 (parseToken_nodup t m1 h1) cur k]
      simp only [lastWrite]
      cases lastWrite ms k <;> cases m1.get k <;> rfl

/-- C1: on a `stringMap` made by `newStringMap` over any initial map, `n ≥ 1` `Set`
calls whose tokens parse all return nil and leave the bound map equal to the first
parsed map overridden in turn by the later ones (the initial contents are gone,
every later call keeps the keys its token does not name and overwrites the
others); from `{}`, `Set("a=1")`, `Set("b=2")` gives `{a:1, b:2}` and `Set("a=1")`,
`Set("a=2")` gives `{a:2}`. -/
theorem stringMap_set_replaces_then_merges
    (init : Option (GoMap Str)) (tokens : List Str) (maps : List (GoMap Str))
    (hne : tokens ≠ [])
    (hparse : List.Forall₂ (fun t m => parseToken t = .ok m) tokens maps) :
    (∃ m, setEach (newStringMap init) tokens = some { value := some m, changed := true } ∧
        ∀ k, m.get k = lastWrite maps k) ∧
    setEach (newStringMap (some [])) ["a=1".toList, "b=2".toList]
      = some { value := some [("a".toList, "1".toList), ("b".toList, "2".toList)],
               changed := true } ∧
    setEach (newStringMap (some [])) ["a=1".toList, "a=2".toList]
      = some { value := some [("a".toList, "2".toList)], changed := true } := by
  refine ⟨?_, by decide, by decide⟩
  cases hparse with
  | nil => exact absurd rfl hne
  | @cons t m1 ts ms h1 hrest =>
    obtain ⟨m, hm, hget⟩ := setEach_changed m1 ts ms hrest
    refine ⟨m, ?_, ?_⟩
    · simp only [setEach, stringMap.Set_first (newStringMap init) t m1 rfl h1]
      exact hm
    · intro k
      rw [hget k]
      simp only [lastWrite]

/-- Witness for C1: an initial map `{z:9}` and the tokens `a=1`, `b=2,a=3`. -/
theorem stringMap_set_replaces_then_merges_witness :
    ∃ m, setEach (newStringMap (some [("z".toList, "9".toList)]))
          ["a=1".toList, "b=2,a=3".toList]
        = some { value := some m, changed := true } ∧
      ∀ k, m.get k = lastWrite
        [[("a".toList, "1".toList)], [("b".toList, "2".toList), ("a".toList, "3".toList)]] k :=
  (stringMap_set_replaces_then_merges (some [("z".toList, "9".toList)])
    ["a=1".toList, "b=2,a=3".toList]
    [[("a".toList, "1".toList)], [("b".toList, "2".toList), ("a".toList, "3".toList)]]
    (by decide)
    (List.Forall₂.cons (by decide) (List.Forall₂.cons (by decide) List.Forall₂.nil))).1

/-- C3: in every state, `Set` on a token that fails to parse (`readAsCSV` fails, or
some element of the record has no `=`) returns an error and leaves the bound map
and the `changed` flag as they were; after `Set("x=1")`, `Set("a=1,b")` fails, the
map is still `{x:1}`, and a following `Set("y=2")` merges into it. -/
theorem stringMap_set_failure_keeps_state (m : stringMap) (val : Str)
    (hfail : (∃ e, readAsCSV val = .error e) ∨
      (∃ s, readAsCSV val = .ok s ∧ ∃ x ∈ s, '=' ∉ x)) :
    (∃ err, m.Set val = (m, .error err)) ∧
    (let m1 := ((newStringMap (some [])).Set "x=1".toList).1
     m1 = { value := some [("x".toList, "1".toList)], changed := true } ∧
     m1.Set "a=1,b".toList = (m1, .error (.invalidKeyValue "b".toList)) ∧
     ((m1.Set "a=1,b".toList).1.Set "y=2".toList).1
       = { value := some [("x".toList, "1".toList), ("y".toList, "2".toList)],
           changed := true }) := by
  refine ⟨?_, by decide⟩
  rcases hfail with ⟨e, he⟩ | ⟨s, hs, hx⟩
  · exact ⟨e, stringMap.Set_of_parse_error m val e (by simp [parseToken, he])⟩
  · obtain ⟨err, herr⟩ := readAsMap_go_error s [] hx
    exact ⟨err, stringMap.Set_of_parse_error m val err (by simp [parseToken, hs, readAsMap, herr])⟩

/-- Witness for C3: a map that was never set, holding `{k:v}`, and the token
`a="b` whose quote is not closed. -/
theorem stringMap_set_failure_keeps_state_witness :
    ∃ err, stringMap.Set { value := some [("k".toList, "v".toList)], changed := false }
        ['"', 'a', '=', 'b']
      = ({ value := some [("k".toList, "v".toList)], changed := false }, .error err) :=
  (stringMap_set_failure_keeps_state
    { value := some [("k".toList, "v".toList)], changed := false } ['"', 'a', '=', 'b']
    (Or.inl ⟨.csv .quote, by decide⟩)).1

/-! ## `encoding/csv`: lemmas -/

theorem trimSuffixNL_append (s : Str) : trimSuffixNL (s ++ ['\n']) = s := by
  induction s with
  | nil => simp [trimSuffixNL]
  | cons c rest ih =>
    cases rest with
    | nil => simp [trimSuffixNL]
    | cons d rest' =>
      simp only [List.cons_append] at ih ⊢
      show c :: trimSuffixNL (d :: (rest' ++ ['\n'])) = c :: d :: rest'
      rw [ih]

theorem writeAsCSV_eq (vals : List Str) : writeAsCSV vals = .ok (writeFields vals) := by
  simp [writeAsCSV, csvWrite, trimSuffixNL_append]

theorem normalizeLines_cons_of_ne (c : Char) (rest : Str) (h : c ≠ '\r') :
    normalizeLines (c :: rest) = c :: normalizeLines rest := by
  simp [normalizeLines, h]

theorem normalizeLines_append_noCR (s t : Str) (h : ∀ c ∈ s, c ≠ '\r') :
    normalizeLines (s ++ t) = s ++ normalizeLines t := by
  induction s with
  | nil => rfl
  | cons c rest ih =>
    have hc : c ≠ '\r' := h c (List.mem_cons_self _ _)
    rw [List.cons_append, normalizeLines_cons_of_ne c _ hc,
      ih (fun x hx => h x (List.mem_cons_of_mem _ hx))]
    rfl

theorem normalizeLines_append_quote (s t : Str) (h : hasCRLF s = false) :
    normalizeLines (s ++ '"' :: t) = s ++ '"' :: normalizeLines t := by
  induction s with
  | nil => exact normalizeLines_cons_of_ne '"' t (by decide)
  | cons c rest ih =>
    simp only [hasCRLF, Bool.or_eq_false_iff, Bool.and_eq_false_iff] at h
    by_cases hc : c = '\r'
    · subst hc
      cases rest with
      | nil =>
        have : normalizeLines ('"' :: t) = '"' :: normalizeLines t :=
          normalizeLines_cons_of_ne '"' t (by decide)
        simp [normalizeLines, this]
      | cons d rest' =>
        have hd : d ≠ '\n' := by
          rcases h.1 with h1 | h1
          · simp at h1
          · simpa [headIs] using h1
        have ih' := ih h.2
        simp only [List.cons_append] at ih' ⊢
        simp only [normalizeLines, if_true, hd, if_false]
        simp only [normalizeLines] at ih'
        rw [ih']
    · rw [List.cons_append, normalizeLines_cons_of_ne c _ hc, ih h.2]
      rfl

theorem headIs_nl_escapeQuotes (s : Str) :
    headIs (fun d => d = '\n') (escapeQuotes s) = headIs (fun d => d = '\n') s := by
  cases s with
  | nil => rfl
  | cons c rest =>
    by_cases hc : c = '"'
    · subst hc
      simp [escapeQuotes, headIs]
    · simp [escapeQuotes, headIs, hc]

theorem hasCRLF_escapeQuotes (s : Str) (h : hasCRLF s = false) :
    hasCRLF (escapeQuotes s) = false := by
  induction s with
  | nil => rfl
  | cons c rest ih =>
    simp only [hasCRLF, Bool.or_eq_false_iff] at h
    by_cases hc : c = '"'
    · subst hc
      simp [escapeQuotes, hasCRLF, ih h.2]
    · simp only [escapeQuotes, hc, if_false, hasCRLF, Bool.or_eq_false_iff]
      rw [headIs_nl_escapeQuotes]
      exact ⟨h.1, ih h.2⟩

/-- A field written without quotes holds no comma, quote, carriage return or
line feed. -/
theorem plain_of_not_fieldNeedsQuotes (f : Str) (h : fieldNeedsQuotes f = false) :
    ∀ c ∈ f, c ≠ ',' ∧ c ≠ '\n' ∧ c ≠ '"' ∧ c ≠ '\r' := by
  cases f with
  | nil => simp
  | cons a rest =>
    intro c hc
    simp only [fieldNeedsQuotes] at h
    split at h
    · cases h
    · split at h
      · cases h
      · rename_i h2
        simp only [List.any_eq_true, not_exists, not_and, Bool.or_eq_true, decide_eq_true_eq,
          not_or] at h2
        have := h2 c hc
        tauto

theorem normalizeLines_writeField (f t : Str) (h : hasCRLF f = false) :
    normalizeLines (writeField f ++ t) = writeField f ++ normalizeLines t := by
  unfold writeField
  by_cases hq : fieldNeedsQuotes f = true
  · simp only [hq, if_true]
    have h1 : hasCRLF ('"' :: escapeQuotes f) = false := by
      simp only [hasCRLF, Bool.or_eq_false_iff]
      exact ⟨by simp, hasCRLF_escapeQuotes f h⟩
    have := normalizeLines_append_quote ('"' :: escapeQuotes f) t h1
    simpa using this
  · simp only [hq, if_false]
    simp only [Bool.not_eq_true] at hq
    exact normalizeLines_append_noCR f t
      (fun c hc => (plain_of_not_fieldNeedsQuotes f hq c hc).2.2.2)

theorem normalizeLines_writeFields (fs : List Str) (h : ∀ f ∈ fs, hasCRLF f = false) :
    normalizeLines (writeFields fs) = writeFields fs := by
  induction fs with
  | nil => rfl
  | cons f rest ih =>
    cases rest with
    | nil =>
      have := normalizeLines_writeField f [] (h f (List.mem_cons_self _ _))
      simpa [writeFields, normalizeLines] using this
    | cons g rest' =>
      simp only [writeFields]
      rw [normalizeLines_writeField f _ (h f (List.mem_cons_self _ _)),
        normalizeLines_cons_of_ne ',' _ (by decide),
        ih (fun x hx => h x (List.mem_cons_of_mem _ hx))]

theorem readFrom_inField (f t cur : Str) (done : List Str)
    (h : ∀ c ∈ f, c ≠ ',' ∧ c ≠ '\n' ∧ c ≠ '"') :
    readFrom ⟨.inField, cur, done⟩ (f ++ t) = readFrom ⟨.inField, cur ++ f, done⟩ t := by
  induction f generalizing cur with
  | nil => simp
  | cons c rest ih =>
    obtain ⟨h1, h2, h3⟩ := h c (List.mem_cons_self _ _)
    have := ih (cur ++ [c]) (fun x hx => h x (List.mem_cons_of_mem _ hx))
    simp only [List.cons_append, readFrom, readStep, stepUnquoted, h1, h2, h3, if_false,
      List.append_eq]
    rw [this]
    simp

theorem readFrom_inQuoted (f t cur : Str) (done : List Str) :
    readFrom ⟨.inQuoted, cur, done⟩ (escapeQuotes f ++ '"' :: t)
      = readFrom ⟨.afterQuote, cur ++ f, done⟩ t := by
  induction f generalizing cur with
  | nil => simp [escapeQuotes, readFrom, readStep]
  | cons c rest ih =>
    by_cases hc : c = '"'
    · subst hc
      have := ih (cur ++ ['"'])
      simp only [escapeQuotes, if_true, List.cons_append, readFrom, readStep, List.append_eq]
      rw [this]
      simp
    · have := ih (cur ++ [c])
      simp only [escapeQuotes, hc, if_false, List.cons_append, readFrom, readStep, List.append_eq]
      rw [this]
      simp

/-- Reading a written field that is followed by the end of the input. -/
theorem readFrom_writeField_end (f : Str) (done : List Str) :
    readFrom ⟨.fieldStart, [], done⟩ (writeField f) = .ok (done ++ [f]) := by
  unfold writeField
  by_cases hq : fieldNeedsQuotes f = true
  · simp only [hq, if_true, readFrom, readStep, stepFieldStart, List.append_eq]
    rw [readFrom_inQuoted f [] [] done]
    simp [readFrom, readEnd]
  · simp only [hq, if_false]
    simp only [Bool.not_eq_true] at hq
    have hp := plain_of_not_fieldNeedsQuotes f hq
    cases f with
    | nil => simp [readFrom, readEnd]
    | cons c rest =>
      obtain ⟨h1, h2, h3, _⟩ := hp c (List.mem_cons_self _ _)
      simp only [readFrom, readStep, stepFieldStart, stepUnquoted, h1, h2, h3, if_false]
      have := readFrom_inField rest [] ([] ++ [c]) done
        (fun x hx => ⟨(hp x (List.mem_cons_of_mem _ hx)).1, (hp x (List.mem_cons_of_mem _ hx)).2.1,
          (hp x (List.mem_cons_of_mem _ hx)).2.2.1⟩)
      simp only [List.append_nil] at this
      rw [this]
      simp [readFrom, readEnd]

/-- Reading a written field that is followed by a comma. -/
theorem readFrom_writeField_comma (f t : Str) (done : List Str) :
    readFrom ⟨.fieldStart, [], done⟩ (writeField f ++ ',' :: t)
      = readFrom ⟨.fieldStart, [], done ++ [f]⟩ t := by
  unfold writeField
  by_cases hq : fieldNeedsQuotes f = true
  · simp only [hq, if_true, List.cons_append, List.append_assoc, readFrom, readStep,
      stepFieldStart, List.append_eq]
    rw [readFrom_inQuoted f _ [] done]
    simp [readFrom, readStep]
  · simp only [hq, if_false]
    simp only [Bool.not_eq_true] at hq
    have hp := plain_of_not_fieldNeedsQuotes f hq
    cases f with
    | nil => simp [readFrom, readStep, stepFieldStart, stepUnquoted]
    | cons c rest =>
      obtain ⟨h1, h2, h3, _⟩ := hp c (List.mem_cons_self _ _)
      simp only [List.cons_append, readFrom, readStep, stepFieldStart, stepUnquoted, h1, h2, h3,
        if_false, List.append_eq]
      have := readFrom_inField rest (',' :: t) ([] ++ [c]) done
        (fun x hx => ⟨(hp x (List.mem_cons_of_mem _ hx)).1, (hp x (List.mem_cons_of_mem _ hx)).2.1,
          (hp x (List.mem_cons_of_mem _ hx)).2.2.1⟩)
      rw [this]
      simp [readFrom, readStep, stepUnquoted]

theorem readFrom_writeFields (f : Str) (fs done : List Str) :
    readFrom ⟨.fieldStart, [], done⟩ (writeFields (f :: fs)) = .ok (done ++ f :: fs) := by
  induction fs generalizing f done with
  | nil => simpa [writeFields] using readFrom_writeField_end f done
  | cons g rest ih =>
    simp only [writeFields]
    rw [readFrom_writeField_comma, ih]
    simp

/-- The first character of a written non-empty field is not a line feed. -/
theorem writeField_head (f : Str) (hf : f ≠ []) :
    ∃ c rest, writeField f = c :: rest ∧ c ≠ '\n' := by
  unfold writeField
  by_cases hq : fieldNeedsQuotes f = true
  · exact ⟨'"', escapeQuotes f ++ ['"'], by simp [hq], by decide⟩
  · simp only [Bool.not_eq_true] at hq
    cases f with
    | nil => exact absurd rfl hf
    | cons c rest =>
      exact ⟨c, rest, by simp [hq],
        (plain_of_not_fieldNeedsQuotes _ hq c (List.mem_cons_self _ _)).2.1⟩

theorem readFrom_recordStart (c : Char) (rest : Str) (hc : c ≠ '\n') :
    readFrom ⟨.recordStart, [], []⟩ (c :: rest) = readFrom ⟨.fieldStart, [], []⟩ (c :: rest) := by
  simp [readFrom, readStep, hc]

theorem writeFields_head (f : Str) (fs : List Str) (hf : f ≠ []) :
    ∃ c rest, writeFields (f :: fs) = c :: rest ∧ c ≠ '\n' := by
  obtain ⟨c, rest, h1, h2⟩ := writeField_head f hf
  cases fs with
  | nil => exact ⟨c, rest, by simp [writeFields, h1], h2⟩
  | cons g gs => exact ⟨c, rest ++ ',' :: writeFields (g :: gs), by simp [writeFields, h1], h2⟩

/-- `readAsCSV` gives back the strings `writeAsCSV` was given, when the first of
them is not empty and none holds a carriage return followed by a line feed. -/
theorem readAsCSV_writeFields (f : Str) (fs : List Str) (hf : f ≠ [])
    (h : ∀ x ∈ f :: fs, hasCRLF x = false) :
    readAsCSV (writeFields (f :: fs)) = .ok (f :: fs) := by
  obtain ⟨c, rest, h1, h2⟩ := writeFields_head f fs hf
  have hne : writeFields (f :: fs) ≠ [] := by rw [h1]; simp
  unfold readAsCSV csvRead
  rw [if_neg hne, normalizeLines_writeFields _ h]
  have : readFrom ⟨.recordStart, [], []⟩ (writeFields (f :: fs)) = .ok (f :: fs) := by
    rw [h1, readFrom_recordStart c rest h2, ← h1, readFrom_writeFields]
    simp
  rw [this]

/-! ## The round trip through `writeAsCSV`, `readAsCSV` and `readAsMap` -/

theorem hasCRLF_append_sep (s t : Str) (c : Char) (hs : hasCRLF s = false)
    (ht : hasCRLF t = false) (h1 : c ≠ '\n') (h2 : c ≠ '\r') :
    hasCRLF (s ++ c :: t) = false := by
  induction s with
  | nil => simp [hasCRLF, ht, h2]
  | cons a rest ih =>
    simp only [hasCRLF, Bool.or_eq_false_iff, Bool.and_eq_false_iff] at hs
    simp only [List.cons_append, hasCRLF, Bool.or_eq_false_iff, Bool.and_eq_false_iff]
    refine ⟨?_, ih hs.2⟩
    rcases hs.1 with h | h
    · exact Or.inl h
    · cases rest with
      | nil => right; simp [headIs, h1]
      | cons b rest' => right; simpa [headIs] using h

theorem readAsMap_go_keyValueStrings (vals acc : GoMap Str)
    (hkey : ∀ kv ∈ vals, '=' ∉ kv.1) :
    readAsMap.go (keyValueStrings vals) acc = .ok (GoMap.assignAll acc vals) := by
  induction vals generalizing acc with
  | nil => rfl
  | cons kv rest ih =>
    have h1 := splitFirst_append '=' kv.1 kv.2 (hkey kv (List.mem_cons_self _ _))
    simp only [keyValueStrings, List.map_cons, readAsMap.go, h1]
    exact ih _ (fun x hx => hkey x (List.mem_cons_of_mem _ hx))

theorem GoMap.get_perm {β : Type} (m vals : GoMap β) (hnodup : m.keys.Nodup)
    (hperm : vals.Perm m) (k : Str) : vals.get k = m.get k := by
  have hnodup' : vals.keys.Nodup := (List.Perm.map Prod.fst hperm).nodup_iff.2 hnodup
  cases h : m.get k with
  | some v =>
    exact (GoMap.get_eq_some_iff vals hnodup' k v).2
      (hperm.mem_iff.2 ((GoMap.get_eq_some_iff m hnodup k v).1 h))
  | none =>
    cases h' : vals.get k with
    | none => rfl
    | some v =>
      have := (GoMap.get_eq_some_iff m hnodup k v).2
        (hperm.mem_iff.1 ((GoMap.get_eq_some_iff vals hnodup' k v).1 h'))
      rw [h] at this
      cases this

/-- C2, as amended: for a map `m` (an association list with distinct keys) whose
keys hold no `=` and whose keys and values hold no carriage return followed by a
line feed, writing its entries as `k=v` strings in any order (`vals` is a
permutation of `m`) with `writeAsCSV` and reading the token back with `readAsCSV`
and `readAsMap` succeeds and returns a map equal to it. -/
theorem csv_round_trip_of_plain_keys (m vals : GoMap Str)
    (hnodup : m.keys.Nodup) (hperm : vals.Perm m)
    (hkey : ∀ kv ∈ m, '=' ∉ kv.1)
    (hcr : ∀ kv ∈ m, hasCRLF kv.1 = false ∧ hasCRLF kv.2 = false) :
    ∃ r, writeThenRead (keyValueStrings vals) = .ok r ∧ ∀ k, r.get k = m.get k := by
  have hkey' : ∀ kv ∈ vals, '=' ∉ kv.1 := fun kv h => hkey kv (hperm.mem_iff.1 h)
  have hnodup' : vals.keys.Nodup := (List.Perm.map Prod.fst hperm).nodup_iff.2 hnodup
  refine ⟨GoMap.assignAll [] vals, ?_, ?_⟩
  · unfold writeThenRead
    rw [writeAsCSV_eq]
    cases hv : vals with
    | nil => rfl
    | cons kv rest =>
      have hread : readAsCSV (writeFields (keyValueStrings (kv :: rest)))
          = .ok (keyValueStrings (kv :: rest)) := by
        simp only [keyValueStrings, List.map_cons]
        apply readAsCSV_writeFields
        · simp
        · intro x hx
          rw [← List.map_cons (fun kv : Str × Str => kv.1 ++ '=' :: kv.2)] at hx
          obtain ⟨p, hp, rfl⟩ := List.mem_map.1 hx
          have hp' : p ∈ m := hperm.mem_iff.1 (hv ▸ hp)
          exact hasCRLF_append_sep _ _ _ (hcr p hp').1 (hcr p hp').2 (by decide) (by decide)
      simp only [hread, readAsMap]
      exact readAsMap_go_keyValueStrings _ _ (hv ▸ hkey')
  · intro k
    rw [GoMap.get_assignAll vals hnodup' [] k, ← GoMap.get_perm m vals hnodup hperm k]
    cases vals.get k <;> rfl

/-- Witness for C2 as amended: the map `{a:1, b:"x,y"}` written in the order `b`, `a`. -/
theorem csv_round_trip_of_plain_keys_witness :
    ∃ r, writeThenRead (keyValueStrings
        [("b".toList, "x,y".toList), ("a".toList, "1".toList)]) = .ok r ∧
      ∀ k, r.get k = GoMap.get [("a".toList, "1".toList), ("b".toList, "x,y".toList)] k :=
  csv_round_trip_of_plain_keys
    [("a".toList, "1".toList), ("b".toList, "x,y".toList)]
    [("b".toList, "x,y".toList), ("a".toList, "1".toList)]
    (by decide) (List.Perm.swap _ _ _) (by decide) (by decide)

/-- C2 as stated fails: the map `{"a=b": "c"}` is written as `a=b=c` and read back
as `{"a": "b=c"}`. -/
theorem csv_round_trip_fails_for_key_with_equals :
    ¬ ∃ r, writeThenRead (keyValueStrings [("a=b".toList, "c".toList)]) = .ok r ∧
      ∀ k, r.get k = GoMap.get [("a=b".toList, "c".toList)] k := by
  rintro ⟨r, hr, hk⟩
  have h : writeThenRead (keyValueStrings [("a=b".toList, "c".toList)])
      = .ok [("a".toList, "b=c".toList)] := by decide
  rw [h] at hr
  cases hr
  exact absurd (hk "a".toList) (by decide)

/-- A value holding a carriage return followed by a line feed does not come back
either: `{"a": "x\r\ny"}` is read back as `{"a": "x\ny"}`. -/
theorem csv_round_trip_drops_carriage_return :
    writeThenRead (keyValueStrings [("a".toList, ['x', '\r', '\n', 'y'])])
      = .ok [("a".toList, ['x', '\n', 'y'])] := by decide

/-! ## `setup`: the argument checks -/

theorem wrapError_status (w : SetupError → SetupError) (r : Binder × Status SetupError) :
    (wrapError w r).2 = match r.2 with
      | .ok => .ok
      | .error err => .error (w err)
      | .panic msg => .panic msg := by
  obtain ⟨b, st⟩ := r
  cases st <;> rfl

theorem wrapError_fst (w : SetupError → SetupError) (r : Binder × Status SetupError) :
    (wrapError w r).1 = r.1 := by
  obtain ⟨b, st⟩ := r
  cases st <;> rfl

theorem wrapError_not_argumentError (w : SetupError → SetupError)
    (hw : ∀ e, (w e).isArgumentError = false)
    (r : Binder × Status SetupError) (err : SetupError)
    (h : (wrapError w r).2 = .error err) : err.isArgumentError = false := by
  rw [wrapError_status] at h
  cases hr : r.2 with
  | ok => rw [hr] at h; cases h
  | panic msg => rw [hr] at h; cases h
  | error e =>
    rw [hr] at h
    simp only [Status.error.injEq] at h
    rw [← h]
    exact hw e

theorem fieldStep_not_argumentError (e p : Str) (f : StructField) (v : GoValue) (b : Binder)
    (d : Str → Str → Binder → Binder × Status SetupError) (err : SetupError)
    (h : (fieldStep e p f v b d).2 = .error err) : err.isArgumentError = false := by
  unfold fieldStep at h
  split at h
  · cases h
  · simp only at h
    split at h
    · cases h
    · split at h
      · split at h
        · exact wrapError_not_argumentError SetupError.embedded (fun _ => rfl) _ _ h
        · split at h
          · exact wrapError_not_argumentError (SetupError.inStruct _) (fun _ => rfl) _ _ h
          · split at h
            · split at h
              · split at h
                · exact wrapError_not_argumentError (SetupError.inStructPointer _) (fun _ => rfl) _ _ h
                · simp only [Status.error.injEq] at h
                  rw [← h]; rfl
              · cases h
            · simp only [Status.error.injEq] at h
              rw [← h]; rfl
      · cases h

theorem setupField_not_argumentError (e p : Str) (f : StructField) (v : GoValue) (b : Binder)
    (err : SetupError) (h : (setupField e p f v b).2 = .error err) :
    err.isArgumentError = false := by
  unfold setupField at h
  split at h <;> exact fieldStep_not_argumentError _ _ _ _ _ _ _ h

theorem setupFields_not_argumentError (e p : Str) (fields : Fields) (b : Binder)
    (err : SetupError) (h : (setupFields e p fields b).2 = .error err) :
    err.isArgumentError = false := by
  induction fields generalizing b with
  | nil => simp [setupFields] at h
  | cons fv rest ih =>
    obtain ⟨f, v⟩ := fv
    rw [setupFields] at h
    split at h
    · exact ih _ h
    · rename_i r hr
      cases hs : (setupField e p f v b) with
      | mk b' st =>
        rw [hs] at h
        cases st with
        | ok => exact absurd hs (hr b')
        | error e' =>
          have := setupField_not_argumentError e p f v b e' (by rw [hs])
          simp only [Status.error.injEq] at h
          rw [← h]; exact this
        | panic msg => cases h

/-- C10: `Setup` on an argument that is not a pointer, is a nil pointer or points
to something that is not a struct returns the error of the failing check and
leaves the flag set and the bindings as they were; on a non-nil pointer to a
struct none of the three checks fails: `Setup` runs the loop over the fields, and
what it returns is not one of those three errors. -/
theorem Setup_argument_checks (b : Binder) (c : Arg) :
    (c = .nonPointer → Setup b c = (b, .error .notPointer)) ∧
    (∀ t, c = .nilPointer t → Setup b c = (b, .error .notAddressable)) ∧
    (∀ t val, c = .pointer t val → t.kind ≠ .struct → Setup b c = (b, .error .notStruct)) ∧
    (c.isStructPointer = false →
      ∃ err, Setup b c = (b, .error err) ∧ err.isArgumentError = true) ∧
    (∀ t fields, c = .pointer t (.struct fields) → t.kind = .struct →
      Setup b c = setupFields [] [] fields b) ∧
    (c.isStructPointer = true →
      ∀ err, (Setup b c).2 = .error err → err.isArgumentError = false) := by
  refine ⟨?_, ?_, ?_, ?_, ?_, ?_⟩
  · rintro rfl; rfl
  · rintro t rfl; rfl
  · rintro t val rfl hk
    simp [Setup, setup, setupElem, hk]
  · intro h
    cases c with
    | nonPointer => exact ⟨_, rfl, rfl⟩
    | nilPointer t => exact ⟨_, rfl, rfl⟩
    | pointer t val =>
      simp only [Arg.isStructPointer, decide_eq_false_iff_not] at h
      exact ⟨.notStruct, by simp [Setup, setup, setupElem, h], rfl⟩
  · rintro t fields rfl hk
    simp [Setup, setup, setupElem, hk]
  · intro h err herr
    cases c with
    | nonPointer => simp [Arg.isStructPointer] at h
    | nilPointer t => simp [Arg.isStructPointer] at h
    | pointer t val =>
      simp only [Arg.isStructPointer, decide_eq_true_eq] at h
      simp only [Setup, setup, setupElem, h, ne_eq, not_true_eq_false, if_false] at herr
      split at herr
      · exact setupFields_not_argumentError _ _ _ _ _ herr
      · cases herr

/-! ## `setup`: the loop over the fields -/

theorem setupFields_append (e p : Str) (pre rest : Fields) (b : Binder) :
    setupFields e p (pre ++ rest) b =
      match setupFields e p pre b with
      | (b1, .ok) => setupFields e p rest b1
      | r => r := by
  induction pre generalizing b with
  | nil => simp [setupFields]
  | cons fv pre' ih =>
    obtain ⟨f, v⟩ := fv
    rw [List.cons_append, setupFields, setupFields]
    cases hs : setupField e p f v b with
    | mk b' st =>
      cases st with
      | ok => simp only; exact ih b'
      | error err => rfl
      | panic msg => rfl

theorem setupFields_append_of_ok (e p : Str) (pre rest : Fields) (b b1 : Binder)
    (h : setupFields e p pre b = (b1, .ok)) :
    setupFields e p (pre ++ rest) b = setupFields e p rest b1 := by
  rw [setupFields_append, h]

theorem setupFields_cons_of_error (e p : Str) (f : StructField) (v : GoValue) (rest : Fields)
    (b b' : Binder) (err : SetupError) (h : setupField e p f v b = (b', .error err)) :
    setupFields e p ((f, v) :: rest) b = (b', .error err) := by
  rw [setupFields, h]

theorem setupFields_cons_of_ok (e p : Str) (f : StructField) (v : GoValue) (rest : Fields)
    (b b' : Binder) (h : setupField e p f v b = (b', .ok)) :
    setupFields e p ((f, v) :: rest) b = setupFields e p rest b' := by
  rw [setupFields, h]

/-- For a field of an unsupported kind whose type is not a flag value, nothing
is registered. -/
theorem registerField_of_unsupportedKind (fset : FlagSet) (f : StructField) (v : GoValue)
    (flag sh desc : Str) (hval : f.type.ptrImplementsValue = false)
    (hkind : unsupportedKind f.type = true) :
    registerField fset f v flag sh desc = (fset, none) := by
  unfold unsupportedKind at hkind
  unfold registerField
  simp only [hval, Bool.false_eq_true, if_false]
  cases hk : f.type.kind <;> rw [hk] at hkind <;> simp only [Bool.false_eq_true] at hkind
  · -- map
    simp only [Bool.or_eq_true, Bool.and_eq_true, bne_iff_ne, ne_eq] at hkind
    simp only
    split
    · rename_i hkey
      rcases hkind with h1 | ⟨h1, h2⟩
      · exact absurd hkey h1
      · split
        · rename_i he; exact absurd he h1
        · rename_i he; exact absurd he h2
        · rfl
    · rfl
  · -- slice
    simp only [bne_iff_ne, ne_eq] at hkind
    simp only

theorem fieldStep_of_unsupportedKind (e p : Str) (f : StructField) (v : GoValue) (b : Binder)
    (d : Str → Str → Binder → Binder × Status SetupError)
    (hexp : f.exported = true) (hval : f.type.ptrImplementsValue = false)
    (hkind : unsupportedKind f.type = true)
    (hfree : b.fset.Lookup (prefixed p (flagName f)) = none) :
    fieldStep e p f v b d = (b, .error (.unsupportedType f.type.String)) := by
  have hk : f.type.kind = .map ∨ f.type.kind = .slice := by
    unfold unsupportedKind at hkind
    cases hk : f.type.kind <;> rw [hk] at hkind <;>
      first | exact Or.inl rfl | exact Or.inr rfl | simp at hkind
  unfold fieldStep
  simp only [hexp, Bool.not_true, Bool.false_eq_true, if_false,
    registerField_of_unsupportedKind b.fset f v _ _ _ hval hkind, hfree]
  rcases hk with hk | hk <;> simp [hk]

theorem setupField_of_unsupportedKind (e p : Str) (f : StructField) (v : GoValue) (b : Binder)
    (hexp : f.exported = true) (hval : f.type.ptrImplementsValue = false)
    (hkind : unsupportedKind f.type = true)
    (hfree : b.fset.Lookup (prefixed p (flagName f)) = none) :
    setupField e p f v b = (b, .error (.unsupportedType f.type.String)) := by
  unfold setupField
  split <;> exact fieldStep_of_unsupportedKind _ _ _ _ _ _ hexp hval hkind hfree

/-- C8: when the loop of `setup` reaches, in state `b1`, an exported field of an
unsupported kind (a map whose key is not a string, a string-keyed map whose
element is neither string nor int64, a slice whose element is not string; the
type bringing no `Set` of its own) whose flag name is not registered yet, it
returns the error `unsupported type <type>`, whatever fields follow, and the
flag set and the bindings are those of `b1`: what the fields before it
registered is kept, nothing is added for the fields after it.  This holds in the
loop at any nesting depth and so for `Setup` on the struct. -/
theorem setup_rejects_unsupported_kind (baseEnv baseFlag : Str) (pre post : Fields)
    (f : StructField) (v : GoValue) (b b1 : Binder) (t : GoType)
    (hexp : f.exported = true) (hval : f.type.ptrImplementsValue = false)
    (hkind : unsupportedKind f.type = true)
    (hreach : setupFields baseEnv baseFlag pre b = (b1, .ok))
    (hfree : b1.fset.Lookup (prefixed baseFlag (flagName f)) = none)
    (ht : t.kind = .struct) :
    setupFields baseEnv baseFlag (pre ++ (f, v) :: post) b
      = (b1, .error (.unsupportedType f.type.String)) ∧
    (baseEnv = [] → baseFlag = [] →
      Setup b (.pointer t (.struct (pre ++ (f, v) :: post)))
        = (b1, .error (.unsupportedType f.type.String))) ∧
    (SetupError.unsupportedType f.type.String).message
      = "unsupported type ".toList ++ f.type.String := by
  have h1 : setupFields baseEnv baseFlag (pre ++ (f, v) :: post) b
      = (b1, .error (.unsupportedType f.type.String)) := by
    rw [setupFields_append_of_ok _ _ _ _ _ _ hreach]
    exact setupFields_cons_of_error _ _ _ _ _ _ _ _
      (setupField_of_unsupportedKind _ _ _ _ _ hexp hval hkind hfree)
  refine ⟨h1, ?_, rfl⟩
  rintro rfl rfl
  simp only [Setup, setup, setupElem, ht, ne_eq, not_true_eq_false, if_false]
  exact h1

/-- Witness for C8: `struct { A string; B map[int]string; C int }` on an empty flag
set: the error names `map[int]string`, flag `a` is registered and `c` is not. -/
theorem setup_rejects_unsupported_kind_witness :
    Setup {} (.pointer (.struct "main.Config".toList false) (.struct
        ([({ Name := "A".toList, type := .basic .string }, .string "x".toList)] ++
          ({ Name := "B".toList, type := .map (.basic .int) (.basic .string) }, .other) ::
          [({ Name := "C".toList, type := .basic .int }, .int 1)])))
      = ((setupFields [] [] [({ Name := "A".toList, type := .basic .string },
            GoValue.string "x".toList)] {}).1,
          .error (.unsupportedType "map[int]string".toList)) ∧
    (setupFields [] [] [({ Name := "A".toList, type := .basic .string },
            GoValue.string "x".toList)] {}).1.fset.formal.map Flag.Name = ["a".toList] :=
  ⟨(setup_rejects_unsupported_kind [] []
      [({ Name := "A".toList, type := .basic .string }, .string "x".toList)]
      [({ Name := "C".toList, type := .basic .int }, .int 1)]
      { Name := "B".toList, type := .map (.basic .int) (.basic .string) } .other {}
      (setupFields [] [] [({ Name := "A".toList, type := .basic .string },
            GoValue.string "x".toList)] {}).1
      (.struct "main.Config".toList false)
      (by decide) (by decide) (by decide) (Prod.ext rfl (by decide))
      (Option.isNone_iff_eq_none.1 (by decide)) (by decide)).2.1 rfl rfl,
   by decide⟩

/-! ## `setup`: embedded structs and unsigned integers -/

/-- C6, the code at the failing input: in `Config { Server struct { Base; Host
string } }` with the embedded `Base { Port int }`, `Setup` succeeds and registers
`Port` as `port`, not as `server-port`, while the direct field `Host` of the same
struct is registered as `server-host`: the embedded struct is set up with an
empty prefix (line 141), not with the prefix of the enclosing struct. -/
theorem setup_embedded_in_nested_drops_prefix :
    (Setup {} (.pointer (.struct "main.Config".toList false) embeddedInNested)).2 = .ok ∧
    (Setup {} (.pointer (.struct "main.Config".toList false) embeddedInNested)).1.flagNames
      = ["port".toList, "server-host".toList] := by
  constructor <;> decide

/-- C9, the code at the failing inputs: on `Config { A uint8 }`, `Config { A
uint16 }` and `Config { A uint32 }` with an empty flag set, `Setup` panics in
`v.Int()` (lines 110, 112, 114) and registers nothing, while `uint` and `uint64`
fields, read with `v.Uint()`, are registered. -/
theorem setup_panics_on_small_unsigned :
    (Setup {} (singleField .uint8 (.uint 3))).2
      = .panic "reflect: call of reflect.Value.Int on uint8 Value".toList ∧
    (Setup {} (singleField .uint16 (.uint 3))).2
      = .panic "reflect: call of reflect.Value.Int on uint16 Value".toList ∧
    (Setup {} (singleField .uint32 (.uint 3))).2
      = .panic "reflect: call of reflect.Value.Int on uint32 Value".toList ∧
    (Setup {} (singleField .uint8 (.uint 3))).1.flagNames = [] ∧
    (Setup {} (singleField .uint (.uint 3))).2 = .ok ∧
    (Setup {} (singleField .uint (.uint 3))).1.flagNames = ["a".toList] ∧
    (Setup {} (singleField .uint64 (.uint 3))).2 = .ok ∧
    (Setup {} (singleField .uint64 (.uint 3))).1.flagNames = ["a".toList] := by
  refine ⟨by decide, by decide, by decide, by decide, by decide, by decide, by decide, by decide⟩

/-! ## Derived names -/

theorem isLower_of_isUpper (c : Char) (h : c.isUpper = true) : c.isLower = false := by
  simp only [Char.isUpper, Bool.and_eq_true, decide_eq_true_eq, ge_iff_le] at h
  have h2 := @UInt32.toNat_le_of_le c.val 90 (by decide) h.2
  simp only [Char.isLower, ge_iff_le, Bool.and_eq_false_iff, decide_eq_false_iff_not]
  left
  intro h3
  have := @UInt32.le_toNat_of_le c.val 97 (by decide) h3
  omega

theorem charClass_of_isLower (c : Char) (h : c.isLower = true) : charClass c = 1 := by
  simp [charClass, h]

theorem charClass_of_isUpper (c : Char) (h : c.isUpper = true) : charClass c = 2 := by
  simp [charClass, h, isLower_of_isUpper c h]

/-- The runs of a string that starts with `c` start with a run that starts with `c`. -/
theorem splitRuns_cons (c : Char) (t : Str) :
    ∃ run runs, splitRuns (c :: t) = (c :: run) :: runs := by
  simp only [splitRuns]
  split
  · split
    · exact ⟨_, _, rfl⟩
    · exact ⟨_, _, rfl⟩
  · exact ⟨_, _, rfl⟩

/-- A character of another class than the one that follows starts a run of its own. -/
theorem splitRuns_cons_of_ne (c d : Char) (t : Str) (h : charClass c ≠ charClass d) :
    splitRuns (c :: d :: t) = [c] :: splitRuns (d :: t) := by
  obtain ⟨run, runs, hr⟩ := splitRuns_cons d t
  rw [splitRuns, hr]
  simp [h]

/-- A character of the same class as the one that follows joins its run. -/
theorem splitRuns_cons_of_eq (c d : Char) (t run : Str) (runs : List Str)
    (hr : splitRuns (d :: t) = (d :: run) :: runs) (h : charClass c = charClass d) :
    splitRuns (c :: d :: t) = (c :: d :: run) :: runs := by
  rw [splitRuns, hr]
  simp [h]

/-- Lower-case letters in front of a string that is empty or starts with an
upper-case letter form one run. -/
theorem splitRuns_lower_append (c : Char) (l t : Str) (hc : c.isLower = true)
    (hl : ∀ x ∈ l, x.isLower = true) (ht : t = [] ∨ headIs Char.isUpper t = true) :
    splitRuns (c :: l ++ t) = (c :: l) :: splitRuns t := by
  induction l generalizing c with
  | nil =>
    cases t with
    | nil => rfl
    | cons d t' =>
      rcases ht with ht | ht
      · cases ht
      · simp only [headIs] at ht
        exact splitRuns_cons_of_ne c d t'
          (by rw [charClass_of_isLower c hc, charClass_of_isUpper d ht]; decide)
  | cons c' l' ih =>
    have hc' := hl c' (List.mem_cons_self _ _)
    have := ih c' hc' (fun x hx => hl x (List.mem_cons_of_mem _ hx))
    exact splitRuns_cons_of_eq c c' (l' ++ t) l' _ this
      (by rw [charClass_of_isLower c hc, charClass_of_isLower c' hc'])

theorem isCapitalisedWord_iff (w : Str) (h : isCapitalisedWord w = true) :
    ∃ u c l, w = u :: c :: l ∧ u.isUpper = true ∧ c.isLower = true ∧
      ∀ x ∈ l, x.isLower = true := by
  match w, h with
  | u :: c :: l, h =>
    simp only [isCapitalisedWord, Bool.and_eq_true, List.all_eq_true] at h
    exact ⟨u, c, l, rfl, h.1.1, h.1.2, h.2⟩

theorem splitRuns_concatWords (words : List Str)
    (hwords : ∀ w ∈ words, isCapitalisedWord w = true) :
    splitRuns (concatWords words) = capitalRuns words ∧
      (concatWords words = [] ∨ headIs Char.isUpper (concatWords words) = true) := by
  induction words with
  | nil => exact ⟨rfl, Or.inl rfl⟩
  | cons w ws ih =>
    obtain ⟨u, c, l, rfl, hu, hc, hl⟩ := isCapitalisedWord_iff w (hwords w (List.mem_cons_self _ _))
    obtain ⟨ih1, ih2⟩ := ih (fun x hx => hwords x (List.mem_cons_of_mem _ hx))
    refine ⟨?_, Or.inr (by simp [concatWords, headIs, hu])⟩
    have h1 := splitRuns_lower_append c l (concatWords ws) hc hl ih2
    have h2 := splitRuns_cons_of_ne u c (l ++ concatWords ws)
      (by rw [charClass_of_isUpper u hu, charClass_of_isLower c hc]; decide)
    simp only [concatWords, capitalRuns, List.cons_append] at h1 h2 ⊢
    rw [h2, h1, ih1]

theorem moveCapitalsFrom_capitalRuns (w : Str) (ws : List Str)
    (hw : isCapitalisedWord w = true) (hws : ∀ x ∈ ws, isCapitalisedWord x = true) :
    (moveCapitalsFrom w (capitalRuns ws)).filter (fun r => r ≠ []) = w :: ws := by
  induction ws generalizing w with
  | nil =>
    obtain ⟨u, c, l, rfl, _⟩ := isCapitalisedWord_iff w hw
    simp [capitalRuns, moveCapitalsFrom]
  | cons w' ws' ih =>
    obtain ⟨u, c, l, rfl, hu, hc, hl⟩ := isCapitalisedWord_iff w hw
    have hw' := hws w' (List.mem_cons_self _ _)
    obtain ⟨u', c', l', rfl, hu', hc', hl'⟩ := isCapitalisedWord_iff w' hw'
    have ih' := ih (u' :: c' :: l') hw' (fun x hx => hws x (List.mem_cons_of_mem _ hx))
    simp only [capitalRuns, moveCapitalsFrom, headIs, hu, hu', hc', isLower_of_isUpper u' hu',
      Bool.and_false, Bool.and_true, Bool.false_eq_true, if_false, if_true,
      List.dropLast_single, List.getLast?_singleton, Option.toList_some, List.singleton_append]
    simp only [List.filter_cons, ne_eq, reduceCtorEq, not_false_eq_true, decide_True,
      decide_False, not_true_eq_false, if_true, if_false, Bool.false_eq_true]
    rw [ih']

/-- `camelcase.Split` gives back the capitalised words a name is made of. -/
theorem camelcaseSplit_concatWords (words : List Str)
    (hwords : ∀ w ∈ words, isCapitalisedWord w = true) :
    camelcaseSplit (concatWords words) = words := by
  unfold camelcaseSplit
  rw [(splitRuns_concatWords words hwords).1]
  cases words with
  | nil => rfl
  | cons w ws =>
    have hw := hwords w (List.mem_cons_self _ _)
    obtain ⟨u, c, l, rfl, hu, hc, hl⟩ := isCapitalisedWord_iff w hw
    have := moveCapitalsFrom_capitalRuns (u :: c :: l) ws hw
      (fun x hx => hwords x (List.mem_cons_of_mem _ hx))
    simp only [capitalRuns, moveCapitals, moveCapitalsFrom, headIs, hu, hc, Bool.and_true,
      if_true, List.dropLast_single, List.getLast?_singleton, Option.toList_some,
      List.singleton_append]
    simp only [List.filter_cons, ne_eq, not_true_eq_false, decide_False, Bool.false_eq_true,
      if_false]
    exact this

theorem map_join (g : Char → Char) (sep : Str) (ws : List Str) :
    (join sep ws).map g = join (sep.map g) (ws.map (fun w => w.map g)) := by
  induction ws with
  | nil => rfl
  | cons w rest ih =>
    cases rest with
    | nil => rfl
    | cons w' rest' =>
      simp only [join, List.map_append, List.map_cons] at ih ⊢
      rw [ih]

/-- C7: a field without `env` and `flag` tag whose name is made of capitalised
ASCII words (an upper-case letter followed by one or more lower-case letters)
gets the upper-cased words joined by `_` as environment name and, at top level,
the lower-cased words joined by `-` as flag name; `MaxRetryCount` gives
`MAX_RETRY_COUNT` and `max-retry-count`, `FooBarBaz` gives `FOO_BAR_BAZ` and
`foo-bar-baz`. -/
theorem derived_names_of_capitalised_words (f : StructField) (words : List Str)
    (hwords : ∀ w ∈ words, isCapitalisedWord w = true)
    (hname : f.Name = concatWords words) (henv : f.envTag = []) (hflag : f.flagTag = []) :
    envName f = join "_".toList (words.map toUpper) ∧
    prefixed [] (flagName f) = join "-".toList (words.map toLower) ∧
    envName { Name := "MaxRetryCount".toList, type := .basic .int } = "MAX_RETRY_COUNT".toList ∧
    prefixed [] (flagName { Name := "MaxRetryCount".toList, type := .basic .int })
      = "max-retry-count".toList ∧
    envName { Name := "FooBarBaz".toList, type := .basic .int } = "FOO_BAR_BAZ".toList ∧
    prefixed [] (flagName { Name := "FooBarBaz".toList, type := .basic .int })
      = "foo-bar-baz".toList := by
  refine ⟨?_, ?_, by decide, by decide, by decide, by decide⟩
  · simp only [envName, henv, hname, camelcaseSplit_concatWords words hwords, toUpper,
      map_join]
    simp
    rfl
  · simp only [prefixed, flagName, hflag, hname, camelcaseSplit_concatWords words hwords,
      toLower, map_join]
    simp
    rfl

/-- Witness for C7: the name `HttpPort`, made of the words `Http` and `Port`. -/
theorem derived_names_of_capitalised_words_witness :
    envName { Name := "HttpPort".toList, type := .basic .int }
      = join "_".toList (["Http".toList, "Port".toList].map toUpper) ∧
    prefixed [] (flagName { Name := "HttpPort".toList, type := .basic .int })
      = join "-".toList (["Http".toList, "Port".toList].map toLower) :=
  ⟨(derived_names_of_capitalised_words { Name := "HttpPort".toList, type := .basic .int }
      ["Http".toList, "Port".toList] (by decide) (by decide) rfl rfl).1,
   (derived_names_of_capitalised_words { Name := "HttpPort".toList, type := .basic .int }
      ["Http".toList, "Port".toList] (by decide) (by decide) rfl rfl).2.1⟩

/-! ## `setup`: flags are only added -/

theorem AddFlag_prefix (fset : FlagSet) (flag : Flag) :
    fset.formal <+: (fset.AddFlag flag).1.formal := by
  unfold FlagSet.AddFlag
  split
  · exact List.prefix_refl _
  · simp only
    split
    · exact List.prefix_append _ _
    · split
      · exact List.prefix_append _ _
      · split
        · exact List.prefix_append _ _
        · exact List.prefix_append _ _

theorem registerAs_prefix (fset : FlagSet) (t t' : GoType) (flag : Flag) :
    fset.formal <+: (registerAs fset t t' flag).1.formal := by
  unfold registerAs
  split
  · exact AddFlag_prefix _ _
  · exact List.prefix_refl _

theorem registerMapAs_prefix (fset : FlagSet) (t t' : GoType) (flag : Flag) :
    fset.formal <+: (registerMapAs fset t t' flag).1.formal := by
  unfold registerMapAs
  split
  · exact AddFlag_prefix _ _
  · exact List.prefix_refl _

theorem intOnUnsigned_prefix (fset : FlagSet) (t' : GoType) :
    fset.formal <+: (intOnUnsigned fset t').1.formal :=
  List.prefix_refl _

theorem registerField_prefix (fset : FlagSet) (f : StructField) (v : GoValue)
    (flag sh desc : Str) :
    fset.formal <+: (registerField fset f v flag sh desc).1.formal := by
  unfold registerField
  split
  · exact AddFlag_prefix _ _
  · split <;>
      first
      | exact registerAs_prefix _ _ _ _
      | exact intOnUnsigned_prefix _ _
      | exact List.prefix_refl _
      | (split <;>
          first
          | exact registerAs_prefix _ _ _ _
          | exact AddFlag_prefix _ _
          | exact List.prefix_refl _
          | (split <;>
              first
              | exact registerAs_prefix _ _ _ _
              | exact registerMapAs_prefix _ _ _ _
              | exact List.prefix_refl _))

/-- The loop body only adds flags, if the recursive call only adds flags. -/
theorem fieldStep_prefix (e p : Str) (f : StructField) (v : GoValue) (b : Binder)
    (d : Str → Str → Binder → Binder × Status SetupError)
    (hd : ∀ e' p' b', b'.fset.formal <+: (d e' p' b').1.fset.formal) :
    b.fset.formal <+: (fieldStep e p f v b d).1.fset.formal := by
  have hreg := registerField_prefix b.fset f v (prefixed p (flagName f)) (shorthandOf f)
    (description f)
  unfold fieldStep
  split
  · exact List.prefix_refl _
  · simp only
    cases hr : registerField b.fset f v (prefixed p (flagName f)) (shorthandOf f)
        (description f) with
    | mk fset o =>
      rw [hr] at hreg
      replace hreg : b.fset.formal <+: fset.formal := hreg
      cases o with
      | some msg => exact hreg
      | none =>
        simp only
        split
        · split
          · rw [wrapError_fst]
            exact hreg.trans (hd _ _ { fset := fset, viper := b.viper })
          · split
            · rw [wrapError_fst]
              exact hreg.trans (hd _ _ { fset := fset, viper := b.viper })
            · split
              · split
                · split
                  · rw [wrapError_fst]
                    exact hreg.trans (hd _ _ { fset := fset, viper := b.viper })
                  · exact hreg
                · exact hreg
              · exact hreg
        · exact hreg

theorem setup_prefix_aux (n : Nat) :
    (∀ fields : Fields, sizeOf fields ≤ n → ∀ e p b,
      b.fset.formal <+: (setupFields e p fields b).1.fset.formal) ∧
    (∀ v : GoValue, sizeOf v ≤ n → ∀ e p f b,
      b.fset.formal <+: (setupField e p f v b).1.fset.formal) := by
  induction n with
  | zero =>
    constructor
    · intro fields h
      cases fields with
      | nil => intro e p b; simp [setupFields]
      | cons fv rest => simp at h
    · intro v h
      cases v <;> simp at h
  | succ n ih =>
    constructor
    · intro fields h e p b
      cases fields with
      | nil => simp [setupFields]
      | cons fv rest =>
        obtain ⟨f, v⟩ := fv
        simp only [List.cons.sizeOf_spec, Prod.mk.sizeOf_spec] at h
        have h1 := ih.2 v (by omega) e p f b
        rw [setupFields]
        cases hs : setupField e p f v b with
        | mk b' st =>
          rw [hs] at h1
          cases st with
          | ok => exact h1.trans (ih.1 rest (by omega) e p b')
          | error err => exact h1
          | panic msg => exact h1
    · intro v h e p f b
      unfold setupField
      split
      · rename_i fields
        simp only [GoValue.struct.sizeOf_spec] at h
        exact fieldStep_prefix _ _ _ _ _ _ (fun e' p' b' => ih.1 fields (by omega) e' p' b')
      · rename_i fields
        simp only [GoValue.pointer.sizeOf_spec, Option.some.sizeOf_spec,
          GoValue.struct.sizeOf_spec] at h
        exact fieldStep_prefix _ _ _ _ _ _ (fun e' p' b' => ih.1 fields (by omega) e' p' b')
      · exact fieldStep_prefix _ _ _ _ _ _ (fun _ _ b' => List.prefix_refl _)

/-- Whatever the loop of `setup` does, the flags registered before it stay
registered, in their order. -/
theorem setupFields_prefix (e p : Str) (fields : Fields) (b : Binder) :
    b.fset.formal <+: (setupFields e p fields b).1.fset.formal :=
  (setup_prefix_aux (sizeOf fields)).1 fields (Nat.le_refl _) e p b

/-! ## Joined flag names -/

theorem join_snoc (sep : Str) (names : List Str) (x : Str) (h : names ≠ []) :
    join sep (names ++ [x]) = join sep names ++ sep ++ x := by
  induction names with
  | nil => exact absurd rfl h
  | cons n rest ih =>
    cases rest with
    | nil => simp [join]
    | cons m rest' =>
      have := ih (by simp)
      simp only [List.cons_append, join, List.append_eq] at this ⊢
      rw [this]
      simp

theorem join_ne_nil (sep : Str) (names : List Str) (h : names ≠ [])
    (hall : ∀ n ∈ names, n ≠ []) : join sep names ≠ [] := by
  cases names with
  | nil => exact absurd rfl h
  | cons n rest =>
    have hn := hall n (List.mem_cons_self _ _)
    cases rest with
    | nil => simpa [join] using hn
    | cons m rest' => simp [join, hn]

/-- The joined name of a chain is what the prefixing of line 79 builds. -/
theorem prefixed_join (names : List Str) (x : Str) (hall : ∀ n ∈ names, n ≠ []) :
    prefixed (join "-".toList names) x = join "-".toList (names ++ [x]) := by
  cases names with
  | nil => simp [prefixed, join]
  | cons n rest =>
    rw [join_snoc _ _ _ (by simp)]
    simp [prefixed, join_ne_nil _ (n :: rest) (by simp) hall]

theorem concatWords_splitRuns (s : Str) : concatWords (splitRuns s) = s := by
  induction s with
  | nil => rfl
  | cons c rest ih =>
    rw [splitRuns]
    split
    · rename_i d run runs hr
      rw [hr] at ih
      split
      · simp only [concatWords, List.cons_append] at ih ⊢
        rw [ih]
      · simp only [concatWords, List.cons_append, List.nil_append] at ih ⊢
        rw [ih]
    · simp only [concatWords, List.cons_append, List.nil_append]
      rw [ih]

theorem dropLast_append_getLast (r : Str) : r.dropLast ++ r.getLast?.toList = r := by
  cases h : r.getLast? with
  | none =>
    have : r = [] := List.getLast?_eq_none_iff.1 h
    subst this
    rfl
  | some a => exact List.dropLast_append_getLast? a h

theorem concatWords_moveCapitalsFrom (r : Str) (rs : List Str) :
    concatWords (moveCapitalsFrom r rs) = r ++ concatWords rs := by
  induction rs generalizing r with
  | nil => simp [moveCapitalsFrom, concatWords]
  | cons r' rest ih =>
    rw [moveCapitalsFrom]
    split
    · simp only [concatWords, ih, ← List.append_assoc, dropLast_append_getLast]
    · simp only [concatWords, ih]

theorem concatWords_filter (l : List Str) :
    concatWords (l.filter (fun r => r ≠ [])) = concatWords l := by
  induction l with
  | nil => rfl
  | cons r rest ih =>
    by_cases h : r = []
    · subst h
      simpa [concatWords] using ih
    · have : (List.filter (fun r : Str => decide (r ≠ [])) (r :: rest))
          = r :: List.filter (fun r : Str => decide (r ≠ [])) rest := by
        simp [List.filter_cons, h]
      rw [this]
      simp only [concatWords, ih]

theorem concatWords_camelcaseSplit (s : Str) : concatWords (camelcaseSplit s) = s := by
  unfold camelcaseSplit
  rw [concatWords_filter]
  cases h : splitRuns s with
  | nil =>
    have := concatWords_splitRuns s
    rw [h] at this
    simpa [moveCapitals] using this
  | cons r rs =>
    have := concatWords_splitRuns s
    rw [h] at this
    simp only [moveCapitals, concatWords_moveCapitalsFrom]
    exact this

theorem join_camelcaseSplit_ne_nil (sep s : Str) (hs : s ≠ []) :
    join sep (camelcaseSplit s) ≠ [] := by
  apply join_ne_nil
  · intro h
    have := concatWords_camelcaseSplit s
    rw [h] at this
    exact hs this.symm
  · intro n hn
    unfold camelcaseSplit at hn
    simpa using (List.mem_filter.1 hn).2

/-- A field with a name has a flag name. -/
theorem flagName_ne_nil (f : StructField) (h : f.Name ≠ []) : flagName f ≠ [] := by
  have hd : toLower (join "-".toList (camelcaseSplit f.Name)) ≠ [] := by
    simp only [toLower, ne_eq, List.map_eq_nil_iff]
    exact join_camelcaseSplit_ne_nil _ _ h
  unfold flagName
  simp only
  split <;> split <;> first | exact hd | assumption

/-! ## `setup`: nested structs and their leaves -/

theorem AddFlag_of_free (fset : FlagSet) (flag : Flag)
    (hfree : fset.Lookup flag.Name = none)
    (hsh : shorthandFree fset flag.Shorthand = true) :
    fset.AddFlag flag = ({ formal := fset.formal ++ [flag] }, none) := by
  unfold FlagSet.AddFlag
  simp only [hfree, Option.isSome_none, Bool.false_eq_true, if_false]
  unfold shorthandFree at hsh
  by_cases h0 : flag.Shorthand = []
  · simp [h0]
  · simp only [h0, decide_False, Bool.false_or, Bool.and_eq_true, decide_eq_true_eq,
      Bool.not_eq_true'] at hsh
    have h1 : ¬ byteLen flag.Shorthand > 1 := by omega
    simp only [h0, if_false, h1, hsh.2, Bool.false_eq_true]

theorem Lookup_append_new (fset : FlagSet) (flag : Flag)
    (hfree : fset.Lookup flag.Name = none) :
    FlagSet.Lookup { formal := fset.formal ++ [flag] } flag.Name = some flag := by
  unfold FlagSet.Lookup at hfree ⊢
  rw [List.find?_append, hfree]
  simp

theorem registerField_of_registersFlag (fset : FlagSet) (f : StructField) (v : GoValue)
    (name sh desc : Str) (h : registersFlag f.type = true) :
    ∃ k dv, registerField fset f v name sh desc = fset.AddFlag (newFlag name sh desc k dv) := by
  unfold registerField
  by_cases hv : f.type.ptrImplementsValue = true
  · exact ⟨_, _, by simp only [hv, if_true]; rfl⟩
  · simp only [registersFlag, hv, Bool.false_or, decide_eq_true_eq, List.mem_cons,
      List.mem_singleton, List.not_mem_nil, or_false] at h
    simp only [hv, Bool.false_eq_true, if_false]
    rcases h with h | h | h | h | h | h | h | h | h | h | h | h | h | h <;>
      rw [h] <;>
      exact ⟨_, _, by
        simp [GoType.kind, Basic.kind, registerAs, registerMapAs, durationType, GoType.Elem,
          GoType.Key]
        rfl⟩

/-- The loop body on a leaf whose type is registered, whose flag name is free
and whose shorthand is accepted: one flag is added under the prefixed name, and
the field's environment name is bound to it with the field's value as default. -/
theorem fieldStep_leaf (e p : Str) (f : StructField) (v : GoValue) (b : Binder)
    (d : Str → Str → Binder → Binder × Status SetupError)
    (hexp : f.exported = true) (hreg : registersFlag f.type = true)
    (hfree : b.fset.Lookup (prefixed p (flagName f)) = none)
    (hsh : shorthandFree b.fset (shorthandOf f) = true) :
    ∃ flag : Flag, flag.Name = prefixed p (flagName f) ∧ flag.Usage = description f ∧
      flag.Shorthand = shorthandOf f ∧
      fieldStep e p f v b d =
        ({ fset := { formal := b.fset.formal ++ [flag] },
           viper := ((b.viper.BindEnv (envName f)).SetDefault (envName f) v).BindPFlag
             (envName f) flag }, .ok) := by
  obtain ⟨k, dv, hr⟩ := registerField_of_registersFlag b.fset f v (prefixed p (flagName f))
    (shorthandOf f) (description f) hreg
  refine ⟨newFlag (prefixed p (flagName f)) (shorthandOf f) (description f) k dv,
    rfl, rfl, rfl, ?_⟩
  have hadd := AddFlag_of_free b.fset
    (newFlag (prefixed p (flagName f)) (shorthandOf f) (description f) k dv) hfree hsh
  have hlook := Lookup_append_new b.fset
    (newFlag (prefixed p (flagName f)) (shorthandOf f) (description f) k dv) hfree
  unfold fieldStep
  simp only [hexp, Bool.not_true, Bool.false_eq_true, if_false, hr, hadd]
  have hname : (newFlag (prefixed p (flagName f)) (shorthandOf f) (description f) k dv).Name
      = prefixed p (flagName f) := rfl
  rw [hname] at hlook
  simp only [hlook]

theorem setupField_leaf (e p : Str) (f : StructField) (v : GoValue) (b : Binder)
    (hexp : f.exported = true) (hreg : registersFlag f.type = true)
    (hfree : b.fset.Lookup (prefixed p (flagName f)) = none)
    (hsh : shorthandFree b.fset (shorthandOf f) = true) :
    ∃ flag : Flag, flag.Name = prefixed p (flagName f) ∧ flag.Usage = description f ∧
      flag.Shorthand = shorthandOf f ∧
      setupField e p f v b =
        ({ fset := { formal := b.fset.formal ++ [flag] },
           viper := ((b.viper.BindEnv (envName f)).SetDefault (envName f) v).BindPFlag
             (envName f) flag }, .ok) := by
  unfold setupField
  split <;> exact fieldStep_leaf _ _ _ _ _ _ hexp hreg hfree hsh

theorem registerField_of_struct (fset : FlagSet) (f : StructField) (v : GoValue)
    (name sh desc : Str) (hk : f.type.kind = .struct)
    (hv : f.type.ptrImplementsValue = false) :
    registerField fset f v name sh desc = (fset, none) := by
  unfold registerField
  simp [hv, hk]

/-- The loop body on a plain struct field under whose name no flag is
registered: the recursive call gets the field's prefixed flag name as prefix. -/
theorem setupField_struct (e p : Str) (f : StructField) (fields : Fields) (b : Binder)
    (hexp : f.exported = true) (hanon : f.Anonymous = false)
    (hk : f.type.kind = .struct) (hv : f.type.ptrImplementsValue = false)
    (hfree : b.fset.Lookup (prefixed p (flagName f)) = none) :
    setupField e p f (.struct fields) b =
      wrapError (.inStruct ('*' :: f.type.String))
        (setupFields (envName f) (prefixed p (flagName f)) fields b) := by
  rw [setupField]
  unfold fieldStep
  simp only [hexp, Bool.not_true, Bool.false_eq_true, if_false,
    registerField_of_struct _ _ _ _ _ _ hk hv, hfree, hanon, Bool.false_and, hk, if_true]

theorem setupFields_cons_prefix (e p : Str) (f : StructField) (v : GoValue) (rest : Fields)
    (b : Binder) :
    (setupField e p f v b).1.fset.formal <+:
      (setupFields e p ((f, v) :: rest) b).1.fset.formal := by
  rw [setupFields]
  cases hs : setupField e p f v b with
  | mk b' st =>
    cases st with
    | ok => exact setupFields_prefix e p rest b'
    | error err => exact List.prefix_refl _
    | panic msg => exact List.prefix_refl _

/-! ## Precedence: flag, environment, default -/

theorem GoMap.get_filterMap {β : Type} (ks : List Str) (g : Str → Option β) (key : Str) :
    GoMap.get (ks.filterMap (fun k => (g k).map (fun s => (k, s)))) key
      = if key ∈ ks then g key else none := by
  induction ks with
  | nil => rfl
  | cons k rest ih =>
    cases hg : g k with
    | none =>
      simp only [List.filterMap_cons, hg, Option.map_none', ih, List.mem_cons]
      by_cases hk : key = k
      · subst hk; simp [hg]
      · simp [hk]
    | some s =>
      simp only [List.filterMap_cons, hg, Option.map_some', GoMap.get, ih, List.mem_cons]
      by_cases hk : k = key
      · subst hk; simp [hg]
      · simp [hk, Ne.symm hk]

theorem GoMap.mem_of_get {β : Type} (m : GoMap β) (k : Str) (v : β) (h : m.get k = some v) :
    (k, v) ∈ m := by
  induction m with
  | nil => simp [GoMap.get] at h
  | cons p rest ih =>
    obtain ⟨a, b⟩ := p
    by_cases hk : a = k
    · subst hk
      simp only [GoMap.get, if_true, Option.some.injEq] at h
      subst h
      exact List.mem_cons_self _ _
    · simp only [GoMap.get, hk, if_false] at h
      exact List.mem_cons_of_mem _ (ih h)

theorem find_equalFold {β : Type} (m : GoMap β) (name : Str)
    (hlow : ∀ kv ∈ m, toLower kv.1 = kv.1) :
    (m.find? (fun kv => equalFold kv.1 name)).map Prod.snd = m.get (toLower name) := by
  induction m with
  | nil => rfl
  | cons p rest ih =>
    obtain ⟨a, b⟩ := p
    have ha : toLower a = a := hlow (a, b) (List.mem_cons_self _ _)
    have ih' := ih (fun kv h => hlow kv (List.mem_cons_of_mem _ h))
    have hfold : equalFold a name = decide (a = toLower name) := by
      simp only [equalFold, ha]
    simp only [List.find?_cons, hfold, GoMap.get]
    by_cases hk : a = toLower name
    · simp only [hk, decide_True, Option.map_some', if_true]
    · simp only [hk, decide_False, if_false]
      exact ih'

theorem lookupSetting_eq (m : GoMap Setting) (name : Str)
    (hlow : ∀ kv ∈ m, toLower kv.1 = kv.1) :
    lookupSetting m name = m.get (toLower name) := by
  unfold lookupSetting
  cases h : m.get name with
  | some s =>
    have := hlow (name, s) (GoMap.mem_of_get m name s h)
    simp only at this
    rw [this, h]
  | none => exact find_equalFold m name hlow

theorem findSome_of_all_eq {α β : Type} (g : α → Option β) (names : List α) (n : α)
    (hne : names ≠ []) (hall : ∀ x ∈ names, x = n) : names.findSome? g = g n := by
  induction names with
  | nil => exact absurd rfl hne
  | cons x rest ih =>
    have hx : x = n := hall x (List.mem_cons_self _ _)
    subst hx
    cases hg : g x with
    | some v => simp [List.findSome?_cons, hg]
    | none =>
      cases rest with
      | nil => simp [List.findSome?_cons, hg]
      | cons y rest' =>
        simp only [List.findSome?_cons, hg]
        have := ih (by simp) (fun z hz => hall z (List.mem_cons_of_mem _ hz))
        simp only [List.findSome?_cons] at this
        rw [this, hg]

/-- The binding made for one field, and the precedence of a key that holds such
a binding.  Setup side: for an exported field whose flag is found after the
registration attempt, the loop body binds the field's environment name, sets its
default to the value the field holds and binds the key to the flag found.  Parse
side: in any binder `s` in which the key of a field of the struct passed to
`Parse` is bound to the flag `flag`, to the field's environment variable and to
the default `v0` (which a later field with the same key may have replaced, see
`parse_of_shared_environment_key`), and whose decode name equals its environment
name up to case, the setting handed to the field's decoder is the flag's value
when the flag was set, otherwise the value of the environment variable when it
is present, otherwise the default.  With `Config { X int }` holding 7: `--x=1`
with `X=2` gives 1, only `X=2` gives 2, neither gives 7. -/
theorem bound_field_precedence
    (e p : Str) (f : StructField) (v : GoValue) (b : Binder)
    (d : Str → Str → Binder → Binder × Status SetupError) (fset : FlagSet) (pf : Flag)
    (s : Binder) (environ : GoMap Str) (root : Fields) (flag : Flag) (v0 : GoValue)
    (names : List Str)
    (hexp : f.exported = true)
    (hreg : registerField b.fset f v (prefixed p (flagName f)) (shorthandOf f) (description f)
      = (fset, none))
    (hpf : fset.Lookup (prefixed p (flagName f)) = some pf)
    (hmem : (f, v) ∈ root)
    (hlow : ∀ k ∈ s.viper.AllKeys, toLower k = k)
    (hmatch : toLower (decodeName f) = toLower (envName f))
    (hflag : (s.viper.pflags.get (toLower (envName f))).bind s.fset.Lookup = some flag)
    (henv : s.viper.env.get (toLower (envName f)) = some names)
    (hne : names ≠ [])
    (hnames : ∀ n ∈ names, n = toUpper (toLower (envName f)))
    (hdef : s.viper.defaults.get (toLower (envName f)) = some v0) :
    (fieldStep e p f v b d
        = ({ fset := fset,
             viper := ((b.viper.BindEnv (envName f)).SetDefault (envName f) v).BindPFlag
               (envName f) pf }, .ok) ∧
      (((b.viper.BindEnv (envName f)).SetDefault (envName f) v).BindPFlag
          (envName f) pf).pflags.get (toLower (envName f)) = some pf.Name ∧
      (((b.viper.BindEnv (envName f)).SetDefault (envName f) v).BindPFlag
          (envName f) pf).defaults.get (toLower (envName f)) = some v ∧
      (((b.viper.BindEnv (envName f)).SetDefault (envName f) v).BindPFlag
          (envName f) pf).env.get (toLower (envName f))
        = some ((b.viper.env.get (toLower (envName f))).getD [] ++
            [toUpper (toLower (envName f))])) ∧
    (f, some (if flag.Changed then Setting.flag flag.Value
        else match environ.get (toUpper (toLower (envName f))) with
          | some text => Setting.env text
          | none => Setting.default v0)) ∈ Parse s environ root ∧
    Parse { afterSetup xConfig with fset := (afterSetup xConfig).fset.Set "x".toList "1".toList }
        [("X".toList, "2".toList)] xConfig
      = [({ Name := "X".toList, type := .basic .int }, some (.flag "1".toList))] ∧
    Parse (afterSetup xConfig) [("X".toList, "2".toList)] xConfig
      = [({ Name := "X".toList, type := .basic .int }, some (.env "2".toList))] ∧
    Parse (afterSetup xConfig) [] xConfig
      = [({ Name := "X".toList, type := .basic .int }, some (.default (.int 7)))] := by
  refine ⟨⟨?_, ?_, ?_, ?_⟩, ?_, rfl, rfl, rfl⟩
  · unfold fieldStep
    simp only [hexp, Bool.not_true, Bool.false_eq_true, if_false, hreg, hpf]
  · simp [Viper.BindPFlag, Viper.SetDefault, Viper.BindEnv, GoMap.get_set]
  · simp [Viper.BindPFlag, Viper.SetDefault, Viper.BindEnv, GoMap.get_set]
  · simp [Viper.BindPFlag, Viper.SetDefault, Viper.BindEnv, GoMap.get_set]
  · have hkey : toLower (envName f) ∈ s.viper.AllKeys := by
      unfold Viper.AllKeys
      rw [List.mem_dedup]
      have : (toLower (envName f), v0) ∈ s.viper.defaults := GoMap.mem_of_get _ _ _ hdef
      exact List.mem_append_right _ (List.mem_map_of_mem Prod.fst this)
    have hset : ∀ kv ∈ s.viper.AllSettings s.fset environ, toLower kv.1 = kv.1 := by
      intro kv hkv
      unfold Viper.AllSettings at hkv
      obtain ⟨k, hk, hk2⟩ := List.mem_filterMap.1 hkv
      cases hfk : s.viper.find s.fset environ k with
      | none => rw [hfk] at hk2; cases hk2
      | some st =>
        rw [hfk] at hk2
        simp only [Option.map_some', Option.some.injEq] at hk2
        rw [← hk2]
        exact hlow k hk
    have hfind : s.viper.find s.fset environ (toLower (envName f))
        = some (if flag.Changed then Setting.flag flag.Value
            else match environ.get (toUpper (toLower (envName f))) with
              | some text => Setting.env text
              | none => Setting.default v0) := by
      unfold Viper.find Viper.findEnv
      simp only [hflag, henv, hdef, Option.map_some', Option.some.injEq,
        findSome_of_all_eq _ names _ hne hnames]
      by_cases hc : flag.Changed = true
      · simp [hc]
      · simp only [hc, if_false]
        cases environ.get (toUpper (toLower (envName f))) <;> rfl
    have hlook : lookupSetting (s.viper.AllSettings s.fset environ) (decodeName f)
        = some (if flag.Changed then Setting.flag flag.Value
            else match environ.get (toUpper (toLower (envName f))) with
              | some text => Setting.env text
              | none => Setting.default v0) := by
      rw [lookupSetting_eq _ _ hset, hmatch]
      unfold Viper.AllSettings
      rw [GoMap.get_filterMap, if_pos hkey, hfind]
    unfold Parse
    refine List.mem_map.2 ⟨(f, v), hmem, ?_⟩
    simp only [hexp, if_true, hlook]

/-- Example: `Config { X int }` holding 7, set up on an empty flag set, then
`--x=1` on the command line and `X=2` in the environment: the decoder of `X` is
handed the flag's value. -/
theorem bound_field_precedence_example :
    (xField, some (Setting.flag "1".toList))
      ∈ Parse afterSetupAndFlag [("X".toList, "2".toList)] xConfig :=
  (bound_field_precedence [] [] xField (.int 7) {} (fun _ _ b => (b, .ok))
    (registerField {} xField (.int 7) "x".toList [] (description xField)).1
    (newFlag "x".toList [] (description xField) .int (.int 7))
    afterSetupAndFlag [("X".toList, "2".toList)] xConfig
    { newFlag "x".toList [] (description xField) .int (.int 7) with
      Changed := true, Value := "1".toList }
    (.int 7) ["X".toList]
    (by decide) (Prod.ext rfl (by decide)) rfl (by simp [xConfig, xField]) (by decide)
    (by decide) rfl rfl (by decide) (by decide) rfl).2.1

/-- C4: a leaf inside a nested struct does not get the value of its environment
variable.  After `Setup` on `Config { Server struct { Port int } }`, which
registers `server-port` and binds the environment variable `PORT` to the key
`port`, with the flag not set and `PORT=2` in the environment, the settings hold
the environment value under the key `port`, but `Parse` hands no setting to any
field of the struct: `Server`, and `Port` inside it, stay as they are, so `Port`
keeps 8080. -/
theorem parse_skips_environment_of_nested_leaf :
    (afterSetup serverPortConfig).flagNames = ["server-port".toList] ∧
    (afterSetup serverPortConfig).viper.AllSettings (afterSetup serverPortConfig).fset
        [("PORT".toList, "2".toList)]
      = [("port".toList, Setting.env "2".toList)] ∧
    Parse (afterSetup serverPortConfig) [("PORT".toList, "2".toList)] serverPortConfig
      = [({ Name := "Server".toList, type := .struct "main.Server".toList false }, none)] :=
  ⟨by decide, rfl, rfl⟩

/-- The same happens to a top-level field without `env` tag whose name has more
than one word: `MaxRetryCount` is bound under the key `max_retry_count`, the
decoder looks for `MaxRetryCount`, and with `MAX_RETRY_COUNT=2` in the
environment `Parse` hands the field nothing. -/
theorem parse_skips_environment_of_multiword_field :
    (afterSetup maxRetryCountConfig).viper.AllSettings (afterSetup maxRetryCountConfig).fset
        [("MAX_RETRY_COUNT".toList, "2".toList)]
      = [("max_retry_count".toList, Setting.env "2".toList)] ∧
    Parse (afterSetup maxRetryCountConfig) [("MAX_RETRY_COUNT".toList, "2".toList)]
        maxRetryCountConfig
      = [({ Name := "MaxRetryCount".toList, type := .basic .int }, none)] :=
  ⟨rfl, rfl⟩

/-! ## `readAsMap`: which inputs fail, and the map returned -/

theorem splitFirst_eq_some (e a b : Str) (h : splitFirst '=' e = some (a, b)) :
    a = keyText e ∧ b = valueText e := by
  induction e generalizing a b with
  | nil => simp [splitFirst] at h
  | cons c rest ih =>
    by_cases hc : c = '='
    · subst hc
      simp only [splitFirst, if_true, Option.some.injEq, Prod.mk.injEq] at h
      obtain ⟨rfl, rfl⟩ := h
      simp [keyText, valueText, List.takeWhile, List.dropWhile]
    · simp only [splitFirst, if_neg hc] at h
      cases hs : splitFirst '=' rest with
      | none => rw [hs] at h; cases h
      | some p =>
        obtain ⟨a', b'⟩ := p
        rw [hs] at h
        simp only [Option.some.injEq, Prod.mk.injEq] at h
        obtain ⟨ha, hb⟩ := h
        obtain ⟨h1, h2⟩ := ih a' b' hs
        subst ha hb
        simp [keyText, valueText, List.takeWhile, List.dropWhile, hc] at h1 h2 ⊢
        exact ⟨h1, h2⟩

theorem readAsMap_go_get (vals : List Str) (acc r : GoMap Str)
    (h : readAsMap.go vals acc = .ok r) (k : Str) :
    r.get k = match lastPair vals k with
      | some v => some v
      | none => acc.get k := by
  induction vals generalizing acc with
  | nil =>
    simp only [readAsMap.go, Except.ok.injEq] at h
    subst h
    rfl
  | cons e rest ih =>
    simp only [readAsMap.go] at h
    cases hs : splitFirst '=' e with
    | none => rw [hs] at h; cases h
    | some p =>
      obtain ⟨a, b⟩ := p
      rw [hs] at h
      obtain ⟨rfl, rfl⟩ := splitFirst_eq_some e a b hs
      rw [ih _ h]
      simp only [lastPair]
      cases lastPair rest k with
      | some v => rfl
      | none =>
        simp only [GoMap.get_set]
        split <;> rfl

theorem readAsMap_go_ok (vals : List Str) (acc : GoMap Str)
    (h : ∀ e ∈ vals, '=' ∈ e) : ∃ r, readAsMap.go vals acc = .ok r := by
  induction vals generalizing acc with
  | nil => exact ⟨acc, rfl⟩
  | cons e rest ih =>
    simp only [readAsMap.go]
    cases hs : splitFirst '=' e with
    | none =>
      exact absurd (h e (List.mem_cons_self _ _)) ((splitFirst_eq_none '=' e).1 hs)
    | some p => exact ih _ (fun x hx => h x (List.mem_cons_of_mem _ hx))

/-- C11: `readAsMap` returns an error exactly when some element contains no `=`;
otherwise it returns a map in which every key is looked up to the text after the
first `=` of the last element whose text before the first `=` is that key, and
which has no other keys. -/
theorem readAsMap_fails_iff_and_last_pair_wins (vals : List Str) :
    ((∃ err, readAsMap vals = .error err) ↔ ∃ e ∈ vals, '=' ∉ e) ∧
    ((∀ e ∈ vals, '=' ∈ e) →
      ∃ r, readAsMap vals = .ok r ∧ r.keys.Nodup ∧ ∀ k, r.get k = lastPair vals k) := by
  have hok : (∀ e ∈ vals, '=' ∈ e) →
      ∃ r, readAsMap vals = .ok r ∧ r.keys.Nodup ∧ ∀ k, r.get k = lastPair vals k := by
    intro h
    obtain ⟨r, hr⟩ := readAsMap_go_ok vals [] h
    refine ⟨r, hr, readAsMap_nodup vals r hr, fun k => ?_⟩
    rw [readAsMap_go_get vals [] r hr k]
    cases lastPair vals k <;> rfl
  refine ⟨⟨fun ⟨err, herr⟩ => ?_, fun h => readAsMap_go_error vals [] h⟩, hok⟩
  by_contra hcon
  have hall : ∀ e ∈ vals, '=' ∈ e := by
    intro e he
    by_contra hne
    exact hcon ⟨e, he, hne⟩
  obtain ⟨r, hr, _⟩ := hok hall
  rw [hr] at herr
  cases herr

theorem readAsMap_example :
    readAsMap ["a=1".toList, "b=x=y".toList, "a=2".toList]
      = .ok [("a".toList, "2".toList), ("b".toList, "x=y".toList)] ∧
    lastPair ["a=1".toList, "b=x=y".toList, "a=2".toList] "a".toList = some "2".toList ∧
    readAsMap ["a=1".toList, "b".toList] = .error (.invalidKeyValue "b".toList) := by
  decide

/-! ## `writeAsCSV`: line feeds in the token -/

theorem mem_escapeQuotes_lf (f : Str) : '\n' ∈ escapeQuotes f ↔ '\n' ∈ f := by
  induction f with
  | nil => simp [escapeQuotes]
  | cons c rest ih =>
    by_cases hc : c = '"'
    · subst hc
      simp only [escapeQuotes, if_true, List.mem_cons, ih]
      have : ¬ ('\n' = '"') := by decide
      tauto
    · simp only [escapeQuotes, if_neg hc, List.mem_cons, ih]

theorem mem_writeField_lf (f : Str) : '\n' ∈ writeField f ↔ '\n' ∈ f := by
  unfold writeField
  split
  · simp only [List.mem_cons, List.mem_append, mem_escapeQuotes_lf, List.mem_singleton,
      List.not_mem_nil, or_false]
    have : ¬ ('\n' = '"') := by decide
    tauto
  · rfl

theorem mem_writeFields_lf (fs : List Str) :
    '\n' ∈ writeFields fs ↔ ∃ f ∈ fs, '\n' ∈ f := by
  induction fs with
  | nil => simp [writeFields]
  | cons f rest ih =>
    cases rest with
    | nil => simp [writeFields, mem_writeField_lf]
    | cons g rest =>
      simp only [writeFields, List.mem_append, List.mem_cons, ih, mem_writeField_lf]
      have : ¬ ('\n' = ',') := by decide
      constructor
      · rintro (h | h | ⟨x, hx, h⟩)
        · exact ⟨f, Or.inl rfl, h⟩
        · exact absurd h this
        · exact ⟨x, Or.inr hx, h⟩
      · rintro ⟨x, hx | hx, h⟩
        · exact Or.inl (hx ▸ h)
        · exact Or.inr (Or.inr ⟨x, hx, h⟩)

theorem getLast_writeField (f : Str) : (writeField f).getLast? ≠ some '\n' := by
  unfold writeField
  split
  · rw [← List.cons_append, List.getLast?_concat]
    decide
  · rename_i h
    intro hl
    have hmem : '\n' ∈ f := List.mem_of_mem_getLast? hl
    have := plain_of_not_fieldNeedsQuotes f (by simpa using h) '\n' hmem
    exact this.2.1 rfl

theorem getLast_writeFields (fs : List Str) : (writeFields fs).getLast? ≠ some '\n' := by
  induction fs with
  | nil => simp [writeFields]
  | cons f rest ih =>
    cases rest with
    | nil => exact getLast_writeField f
    | cons g rest =>
      simp only [writeFields]
      cases hw : writeFields (g :: rest) with
      | nil =>
        rw [List.getLast?_concat]
        decide
      | cons c t =>
        rw [hw] at ih
        have hne : (',' :: c :: t) ≠ [] := by simp
        rw [List.getLast?_append_of_ne_nil _ hne, List.getLast?_cons_cons]
        exact ih

/-- C17 (as amended): for every sequence of strings `writeAsCSV` returns no
error and a token that does not end with the record terminator; the token
contains a line feed exactly when one of the strings does. -/
theorem writeAsCSV_token_line_feeds (vals : List Str) :
    ∃ token, writeAsCSV vals = .ok token ∧ token.getLast? ≠ some '\n' ∧
      ('\n' ∈ token ↔ ∃ f ∈ vals, '\n' ∈ f) :=
  ⟨writeFields vals, writeAsCSV_eq vals, getLast_writeFields vals, mem_writeFields_lf vals⟩

/-- C17 (counterexample): the token written for the one string `a`, line feed,
`b` keeps the line feed inside a quoted field, so it is not a single line. -/
theorem writeAsCSV_keeps_line_feed_of_field :
    writeAsCSV [['a', '\n', 'b']] = .ok ['"', 'a', '\n', 'b', '"'] ∧
    '\n' ∈ ['"', 'a', '\n', 'b', '"'] := by
  decide

/-! ## `int64Map`: lemmas -/

theorem convertToInt64Map_go_error (m : GoMap Str) (acc : GoMap Int) :
    (∃ err, convertToInt64Map.go m acc = .error err) ↔ ∃ kv ∈ m, ParseInt kv.2 = none := by
  induction m generalizing acc with
  | nil => simp [convertToInt64Map.go]
  | cons p rest ih =>
    obtain ⟨k, v⟩ := p
    simp only [convertToInt64Map.go]
    cases hp : ParseInt v with
    | none =>
      simp only [Except.error.injEq, exists_eq', List.mem_cons, true_iff]
      exact ⟨(k, v), Or.inl rfl, hp⟩
    | some n =>
      simp only [ih, List.mem_cons]
      constructor
      · rintro ⟨kv, hkv, h⟩
        exact ⟨kv, Or.inr hkv, h⟩
      · rintro ⟨kv, hkv | hkv, h⟩
        · subst hkv
          rw [hp] at h
          cases h
        · exact ⟨kv, hkv, h⟩

theorem convertToInt64Map_go_nodup (m : GoMap Str) (acc r : GoMap Int)
    (hacc : acc.keys.Nodup) (h : convertToInt64Map.go m acc = .ok r) : r.keys.Nodup := by
  induction m generalizing acc with
  | nil =>
    simp only [convertToInt64Map.go, Except.ok.injEq] at h
    exact h ▸ hacc
  | cons p rest ih =>
    obtain ⟨k, v⟩ := p
    simp only [convertToInt64Map.go] at h
    split at h
    · cases h
    · exact ih _ (GoMap.nodup_set acc _ _ hacc) h

theorem convertToInt64Map_go_get (m : GoMap Str) (acc r : GoMap Int)
    (hm : m.keys.Nodup) (h : convertToInt64Map.go m acc = .ok r) (k : Str) :
    match m.get k with
    | none => r.get k = acc.get k
    | some v => ∃ n, ParseInt v = some n ∧ r.get k = some n := by
  induction m generalizing acc with
  | nil =>
    simp only [convertToInt64Map.go, Except.ok.injEq] at h
    subst h
    rfl
  | cons p rest ih =>
    obtain ⟨a, v⟩ := p
    simp only [convertToInt64Map.go] at h
    simp only [GoMap.keys, List.map_cons, List.nodup_cons] at hm
    cases hp : ParseInt v with
    | none => rw [hp] at h; cases h
    | some n =>
      rw [hp] at h
      have hrec := ih _ hm.2 h
      by_cases hak : a = k
      · subst hak
        have hnone : GoMap.get rest a = none := GoMap.get_eq_none rest a hm.1
        rw [hnone] at hrec
        simp only [GoMap.get_set, if_true] at hrec
        simp only [GoMap.get, if_true]
        exact ⟨n, hp, hrec⟩
      · simp only [GoMap.get, if_neg hak]
        cases hg : GoMap.get rest k with
        | none =>
          rw [hg] at hrec
          simp only [GoMap.get_set, if_neg hak] at hrec
          exact hrec
        | some w =>
          rw [hg] at hrec
          exact hrec

theorem convertToInt64Map_converted (m : GoMap Str) (r : GoMap Int)
    (hm : m.keys.Nodup) (h : convertToInt64Map m = .ok r) : Converted m r ∧ r.keys.Nodup := by
  refine ⟨fun k => ?_, convertToInt64Map_go_nodup m [] r (by simp [GoMap.keys]) h⟩
  have := convertToInt64Map_go_get m [] r hm h k
  cases hg : GoMap.get m k with
  | none => rw [hg] at this; simpa [GoMap.get] using this
  | some v => rw [hg] at this; exact this

theorem int64Map.Set_eq (m : int64Map) (val : Str) :
    m.Set val =
      match parseInt64Token val with
      | .error err => (m, .error err)
      | .ok v =>
        if !m.changed then
          ({ value := some v, changed := true }, .ok)
        else
          match m.value with
          | some mapValue =>
            ({ value := some (GoMap.assignAll mapValue v), changed := true }, .ok)
          | none =>
            if v = [] then ({ value := none, changed := true }, .ok)
            else (m, .panic "assignment to entry in nil map".toList) := by
  unfold int64Map.Set parseInt64Token parseToken
  cases hc : readAsCSV val with
  | error e => rfl
  | ok s =>
    simp only
    cases hr : readAsMap s with
    | error e => rfl
    | ok sv =>
      cases hv : convertToInt64Map sv with
      | error e => rfl
      | ok v => rfl

theorem int64Map.Set_fails_iff (m : int64Map) (val : Str) :
    (∃ err, (m.Set val).2 = .error err) ↔ ∃ err, parseInt64Token val = .error err := by
  rw [int64Map.Set_eq]
  cases parseInt64Token val with
  | error e => simp
  | ok v =>
    have hr : ¬ ∃ err, (Except.ok v : Except MapError (GoMap Int)) = .error err := by
      rintro ⟨err, h⟩
      cases h
    refine iff_of_false ?_ hr
    rintro ⟨err, h⟩
    simp only at h
    split at h
    · cases h
    · split at h
      · cases h
      · split at h <;> cases h

theorem parseInt64Token_error_iff (val : Str) :
    (∃ err, parseInt64Token val = .error err) ↔
      ((∃ err, parseToken val = .error err) ∨
        ∃ sv, parseToken val = .ok sv ∧ ∃ kv ∈ sv, ParseInt kv.2 = none) := by
  unfold parseInt64Token
  cases parseToken val with
  | error e => simp
  | ok sv =>
    have hl : ¬ ∃ err, (Except.ok sv : Except MapError (GoMap Str)) = .error err := by
      rintro ⟨err, h⟩
      cases h
    simp only [hl, false_or, Except.ok.injEq, exists_eq_left']
    exact convertToInt64Map_go_error sv []

theorem stringMap.Set_error_iff (s : stringMap) (val : Str) :
    (∃ err, (s.Set val).2 = .error err) ↔ ∃ err, parseToken val = .error err := by
  cases hp : parseToken val with
  | error e =>
    rw [stringMap.Set_of_parse_error s val e hp]
    exact ⟨fun _ => ⟨e, rfl⟩, fun _ => ⟨e, rfl⟩⟩
  | ok v =>
    have hr : ¬ ∃ err, (Except.ok v : Except MapError (GoMap Str)) = .error err := by
      rintro ⟨err, h⟩
      cases h
    refine iff_of_false ?_ hr
    rintro ⟨err, h⟩
    unfold parseToken at hp
    unfold stringMap.Set at h
    cases hc : readAsCSV val with
    | error e => rw [hc] at hp; cases hp
    | ok r =>
      rw [hc] at hp h
      simp only at hp h
      rw [hp] at h
      simp only at h
      split at h
      · cases h
      · split at h
        · cases h
        · split at h <;> cases h

/-- C12 (as amended): in every state, `int64Map.Set` returns an error exactly
when the token fails for `stringMap.Set` or some value of the map read from the
token (for a key given more than once, its last value) is not a base-10 signed
64-bit integer; whenever it returns an error the bound map and the `changed`
flag are as they were, and `Set("a=1,b=x")` fails in every state. -/
theorem int64Map_set_failure_keeps_state (m : int64Map) (s : stringMap) (token : Str) :
    ((∃ err, (m.Set token).2 = .error err) ↔
      ((∃ err, (s.Set token).2 = .error err) ∨
        ∃ sv, parseToken token = .ok sv ∧ ∃ kv ∈ sv, ParseInt kv.2 = none)) ∧
    (∀ err, (m.Set token).2 = .error err → (m.Set token).1 = m) ∧
    m.Set "a=1,b=x".toList = (m, .error (.invalidInt "x".toList)) := by
  refine ⟨?_, ?_, ?_⟩
  · rw [int64Map.Set_fails_iff, parseInt64Token_error_iff, stringMap.Set_error_iff]
  · intro err h
    rw [int64Map.Set_eq] at h ⊢
    cases hp : parseInt64Token token with
    | error e => rfl
    | ok v =>
      exfalso
      rw [hp] at h
      simp only at h
      split at h
      · cases h
      · split at h
        · cases h
        · split at h
          · cases h
          · cases h
  · rw [int64Map.Set_eq]
    have : parseInt64Token "a=1,b=x".toList = .error (.invalidInt "x".toList) := by decide
    rw [this]

/-- C12 (counterexample): the token `a=x,a=1` has the pairs `a=x` and `a=1`, the
value `x` is not an integer, and `Set` accepts the token: the later pair has
replaced the earlier one before the values are converted. -/
theorem int64Map_set_accepts_replaced_value :
    readAsCSV "a=x,a=1".toList = .ok ["a=x".toList, "a=1".toList] ∧
    ParseInt "x".toList = none ∧
    (newInt64Map none).Set "a=x,a=1".toList
      = ({ value := some [("a".toList, 1)], changed := true }, .ok) := by
  decide

/-! ## `int64Map` and `stringMap` under the same calls -/

theorem converted_assignAll (ms sv : GoMap Str) (mi v : GoMap Int)
    (hsv : sv.keys.Nodup) (hv : v.keys.Nodup)
    (h1 : Converted ms mi) (h2 : Converted sv v) :
    Converted (GoMap.assignAll ms sv) (GoMap.assignAll mi v) := by
  intro k
  rw [GoMap.get_assignAll sv hsv, GoMap.get_assignAll v hv]
  have a := h1 k
  have b := h2 k
  cases hs : GoMap.get sv k with
  | none =>
    rw [hs] at b
    simp only at b
    rw [b]
    exact a
  | some x =>
    rw [hs] at b
    obtain ⟨n, hn, hg⟩ := b
    rw [hg]
    exact ⟨n, hn, rfl⟩

theorem int64Map.Set_mirror (im im' : int64Map) (sm : stringMap) (t : Str)
    (hinv : (im.changed = false ∧ sm.changed = false) ∨ Mirrors im sm)
    (h : im.Set t = (im', .ok)) : ∃ sm', sm.Set t = (sm', .ok) ∧ Mirrors im' sm' := by
  rw [int64Map.Set_eq] at h
  cases hp : parseInt64Token t with
  | error e => rw [hp] at h; cases h
  | ok v =>
    rw [hp] at h
    unfold parseInt64Token at hp
    cases hs : parseToken t with
    | error e => rw [hs] at hp; cases hp
    | ok sv =>
      rw [hs] at hp
      have hnd := parseToken_nodup t sv hs
      obtain ⟨hconv, hvnd⟩ := convertToInt64Map_converted sv v hnd hp
      rcases hinv with ⟨hi, hsm⟩ | ⟨mi, ms, rfl, rfl, hm⟩
      · simp only [hi, Bool.not_false, if_true, Prod.mk.injEq, and_true] at h
        exact ⟨_, stringMap.Set_first sm t sv hsm hs, v, sv, h.symm, rfl, hconv⟩
      · simp only [Bool.not_true, Bool.false_eq_true, if_false, Prod.mk.injEq, and_true] at h
        exact ⟨_, stringMap.Set_later ms t sv hs, _, _, h.symm, rfl,
          converted_assignAll ms sv mi v hnd hvnd hm hconv⟩

theorem setEach64_mirror (ts : List Str) (im im' : int64Map) (sm : stringMap)
    (hinv : (im.changed = false ∧ sm.changed = false) ∨ Mirrors im sm)
    (hne : ts ≠ []) (h : setEach64 im ts = some im') :
    ∃ sm', setEach sm ts = some sm' ∧ Mirrors im' sm' := by
  induction ts generalizing im sm with
  | nil => exact absurd rfl hne
  | cons t rest ih =>
    simp only [setEach64] at h
    cases hset : im.Set t with
    | mk im1 st =>
      rw [hset] at h
      cases st with
      | error e => cases h
      | panic p => cases h
      | ok =>
        simp only at h
        obtain ⟨sm1, hs1, hm1⟩ := int64Map.Set_mirror im im1 sm t hinv hset
        simp only [setEach, hs1]
        cases rest with
        | nil =>
          simp only [setEach64, Option.some.injEq] at h
          subst h
          exact ⟨sm1, rfl, hm1⟩
        | cons u rest => exact ih im1 sm1 (Or.inr hm1) (by simp) h

theorem setEach64_append (a b : List Str) (im : int64Map)
    (h : (setEach64 im (a ++ b)).isSome) : (setEach64 im a).isSome := by
  induction a generalizing im with
  | nil => rfl
  | cons t rest ih =>
    simp only [List.cons_append, setEach64] at h ⊢
    cases hset : im.Set t with
    | mk im1 st =>
      rw [hset] at h
      cases st with
      | error e => cases h
      | panic p => cases h
      | ok => exact ih im1 h

/-- C13: when `int64Map.Set` accepts every token of a sequence applied to a fresh
`int64Map`, the same calls on a fresh `stringMap` succeed too, and after every
call (after every non-empty initial part `pre` of the sequence) both maps are
allocated and the int64 map is the string map with each value converted by
base-10 integer parsing: the same keys, each value the parsed integer. -/
theorem int64Map_mirrors_stringMap (init : Option (GoMap Int)) (init' : Option (GoMap Str))
    (tokens pre : List Str) (hpre : pre <+: tokens) (hne : pre ≠ [])
    (hacc : (setEach64 (newInt64Map init) tokens).isSome) :
    ∃ mi ms, setEach64 (newInt64Map init) pre = some { value := some mi, changed := true } ∧
      setEach (newStringMap init') pre = some { value := some ms, changed := true } ∧
      Converted ms mi := by
  obtain ⟨rest, rfl⟩ := hpre
  have hsome := setEach64_append pre rest _ hacc
  obtain ⟨im', him⟩ := Option.isSome_iff_exists.1 hsome
  obtain ⟨sm', hsm, mi, ms, rfl, rfl, hconv⟩ :=
    setEach64_mirror pre (newInt64Map init) im' (newStringMap init') (Or.inl ⟨rfl, rfl⟩) hne him
  exact ⟨mi, ms, him, hsm, hconv⟩

/-- Witness for C13: the tokens `a=1,b=2` and `b=+3,c=-4` on fresh maps, after
both calls. -/
theorem int64Map_mirrors_stringMap_witness :
    ∃ mi ms,
      setEach64 (newInt64Map none) ["a=1,b=2".toList, "b=+3,c=-4".toList]
        = some { value := some mi, changed := true } ∧
      setEach (newStringMap none) ["a=1,b=2".toList, "b=+3,c=-4".toList]
        = some { value := some ms, changed := true } ∧
      Converted ms mi :=
  int64Map_mirrors_stringMap none none ["a=1,b=2".toList, "b=+3,c=-4".toList]
    ["a=1,b=2".toList, "b=+3,c=-4".toList] ⟨[], rfl⟩ (by decide) (by decide)

theorem int64Map_mirror_example :
    setEach64 (newInt64Map none) ["a=1,b=2".toList, "b=+3,c=-4".toList]
      = some { value := some [("a".toList, 1), ("b".toList, 3), ("c".toList, -4)],
               changed := true } ∧
    setEach (newStringMap none) ["a=1,b=2".toList, "b=+3,c=-4".toList]
      = some { value := some [("a".toList, "1".toList), ("b".toList, "+3".toList),
                 ("c".toList, "-4".toList)],
               changed := true } := by
  decide

/-! ## The decode hooks -/

theorem kind_underlying (t : GoType) : (underlying t).kind = t.kind := by
  induction t with
  | named n u b ih => simpa [underlying, GoType.kind] using ih
  | _ => rfl

theorem Key_underlying (t : GoType) : (underlying t).Key = t.Key := by
  induction t with
  | named n u b ih => simpa [underlying, GoType.Key] using ih
  | _ => rfl

theorem Elem_underlying (t : GoType) : (underlying t).Elem = t.Elem := by
  induction t with
  | named n u b ih => simpa [underlying, GoType.Elem] using ih
  | _ => rfl

theorem underlying_ne_named (t : GoType) (n : Str) (u : GoType) (b : Bool) :
    underlying t ≠ .named n u b := by
  induction t with
  | named n' u' b' ih => simpa [underlying] using ih
  | _ => simp [underlying]

/-- The test at the head of `StringMapHook` and `Int64MapHook` lets through the
map types from string to `elem`, by kind. -/
theorem isMapFromStringTo_iff (elem : Kind) (t : GoType) :
    isMapFromStringTo elem t = true ↔
      (t.kind = .map ∧ t.Key.map GoType.kind = some .string ∧
        t.Elem.map GoType.kind = some elem) := by
  rw [← kind_underlying t, ← Key_underlying t, ← Elem_underlying t]
  unfold isMapFromStringTo
  cases h : underlying t with
  | named n u b => exact absurd h (underlying_ne_named t n u b)
  | _ => simp [GoType.kind, GoType.Key, GoType.Elem]

theorem StringMapHook_of_map (t : GoType) (data : HookData)
    (h : isMapFromStringTo .string t = true) :
    StringMapHook t data =
      match data with
      | .strings v => (readAsMap v).map (fun m => .stringMap (some m))
      | .string v => (parseToken v).map (fun m => .stringMap (some m))
      | .stringMap v => .ok (.stringMap v)
      | d => .error (.unsupportedMapType d.typeName) := by
  obtain ⟨h1, h2, h3⟩ := (isMapFromStringTo_iff .string t).1 h
  unfold StringMapHook parseToken
  simp only [h1, h2, h3, ne_eq, not_true_eq_false, if_false, or_self]
  cases data with
  | strings v => simp only; cases readAsMap v <;> rfl
  | string v =>
    simp only
    cases readAsCSV v with
    | error e => rfl
    | ok r => simp only; cases readAsMap r <;> rfl
  | _ => rfl

theorem Int64MapHook_of_map (t : GoType) (data : HookData)
    (h : isMapFromStringTo .int64 t = true) :
    Int64MapHook t data =
      match data with
      | .strings v =>
        ((readAsMap v).bind convertToInt64Map).map (fun m => .int64Map (some m))
      | .string v => (parseInt64Token v).map (fun m => .int64Map (some m))
      | .int64Map v => .ok (.int64Map v)
      | d => .error (.unsupportedMapType d.typeName) := by
  obtain ⟨h1, h2, h3⟩ := (isMapFromStringTo_iff .int64 t).1 h
  unfold Int64MapHook parseInt64Token parseToken
  simp only [h1, h2, h3, ne_eq, not_true_eq_false, if_false, or_self]
  cases data with
  | strings v =>
    simp only
    cases readAsMap v with
    | error e => rfl
    | ok r => simp only [Except.bind]; cases convertToInt64Map r <;> rfl
  | string v =>
    simp only
    cases readAsCSV v with
    | error e => rfl
    | ok r =>
      simp only
      cases readAsMap r with
      | error e => rfl
      | ok sv => simp only; cases convertToInt64Map sv <;> rfl
  | _ => rfl

theorem StringMapHook_of_not_map (t : GoType) (data : HookData)
    (h : isMapFromStringTo .string t = false) : StringMapHook t data = .ok data := by
  have hn := (isMapFromStringTo_iff .string t).not.1 (by simp [h])
  unfold StringMapHook
  by_cases h1 : t.kind = .map
  · rw [if_neg (by simpa using h1), if_pos]
    by_contra hc
    simp only [not_or, not_not] at hc
    exact hn ⟨h1, hc.1, hc.2⟩
  · rw [if_pos h1]

theorem Int64MapHook_of_not_map (t : GoType) (data : HookData)
    (h : isMapFromStringTo .int64 t = false) : Int64MapHook t data = .ok data := by
  have hn := (isMapFromStringTo_iff .int64 t).not.1 (by simp [h])
  unfold Int64MapHook
  by_cases h1 : t.kind = .map
  · rw [if_neg (by simpa using h1), if_pos]
    by_contra hc
    simp only [not_or, not_not] at hc
    exact hn ⟨h1, hc.1, hc.2⟩
  · rw [if_pos h1]

/-- C14: `StringMapHook` returns its input with no error when the destination
is not a map type from string to string (by kind); when it is, a `[]string`
source gives `readAsMap` of it, a `string` source gives
`readAsMap(readAsCSV(s))` with the error of either, a `map[string]string` source
is returned as it is, and every other source gives an error.  `Int64MapHook` does
the same for map types from string to int64, with `convertToInt64Map` after
`readAsMap` and `map[string]int64` passed through. -/
theorem map_hooks_dispatch (t : GoType) (data : HookData) :
    (isMapFromStringTo .string t = false → StringMapHook t data = .ok data) ∧
    (isMapFromStringTo .string t = true →
      (∀ xs, StringMapHook t (.strings xs)
        = (readAsMap xs).map (fun m => .stringMap (some m))) ∧
      (∀ s, StringMapHook t (.string s)
        = ((readAsCSV s).bind readAsMap).map (fun m => .stringMap (some m))) ∧
      (∀ m, StringMapHook t (.stringMap m) = .ok (.stringMap m)) ∧
      ((∀ xs, data ≠ .strings xs) → (∀ s, data ≠ .string s) → (∀ m, data ≠ .stringMap m) →
        ∃ err, StringMapHook t data = .error err)) ∧
    (isMapFromStringTo .int64 t = false → Int64MapHook t data = .ok data) ∧
    (isMapFromStringTo .int64 t = true →
      (∀ xs, Int64MapHook t (.strings xs)
        = ((readAsMap xs).bind convertToInt64Map).map (fun m => .int64Map (some m))) ∧
      (∀ s, Int64MapHook t (.string s)
        = (((readAsCSV s).bind readAsMap).bind convertToInt64Map).map
            (fun m => .int64Map (some m))) ∧
      (∀ m, Int64MapHook t (.int64Map m) = .ok (.int64Map m)) ∧
      ((∀ xs, data ≠ .strings xs) → (∀ s, data ≠ .string s) → (∀ m, data ≠ .int64Map m) →
        ∃ err, Int64MapHook t data = .error err)) := by
  refine ⟨StringMapHook_of_not_map t data, fun h => ⟨fun xs => ?_, fun s => ?_, fun m => ?_, ?_⟩,
    Int64MapHook_of_not_map t data, fun h => ⟨fun xs => ?_, fun s => ?_, fun m => ?_, ?_⟩⟩
  · rw [StringMapHook_of_map t _ h]
  · rw [StringMapHook_of_map t _ h]
    simp only [parseToken]
    cases hc : readAsCSV s <;> rfl
  · rw [StringMapHook_of_map t _ h]
  · intro h1 h2 h3
    rw [StringMapHook_of_map t _ h]
    cases data with
    | strings v => exact absurd rfl (h1 v)
    | string v => exact absurd rfl (h2 v)
    | stringMap v => exact absurd rfl (h3 v)
    | _ => exact ⟨_, rfl⟩
  · rw [Int64MapHook_of_map t _ h]
  · rw [Int64MapHook_of_map t _ h]
    simp only [parseInt64Token, parseToken]
    cases hc : readAsCSV s with
    | error e => rfl
    | ok r => simp only [Except.bind]; cases hr : readAsMap r <;> rfl
  · rw [Int64MapHook_of_map t _ h]
  · intro h1 h2 h3
    rw [Int64MapHook_of_map t _ h]
    cases data with
    | strings v => exact absurd rfl (h1 v)
    | string v => exact absurd rfl (h2 v)
    | int64Map v => exact absurd rfl (h3 v)
    | _ => exact ⟨_, rfl⟩

theorem map_hooks_examples :
    StringMapHook (.map (.basic .string) (.basic .string)) (.string "a=1,b=2".toList)
      = .ok (.stringMap (some [("a".toList, "1".toList), ("b".toList, "2".toList)])) ∧
    StringMapHook (.map (.basic .string) (.basic .string)) (.other "int".toList)
      = .error (.unsupportedMapType "int".toList) ∧
    StringMapHook (.map (.basic .int) (.basic .string)) (.other "int".toList)
      = .ok (.other "int".toList) ∧
    Int64MapHook (.map (.basic .string) (.basic .int64)) (.strings ["a=1".toList, "b=-2".toList])
      = .ok (.int64Map (some [("a".toList, 1), ("b".toList, -2)])) ∧
    Int64MapHook (.map (.basic .string) durationType) (.string "a=x".toList)
      = .error (.invalidInt "x".toList) :=
  ⟨rfl, rfl, rfl, rfl, rfl⟩

/-- C18: for every string `s`, `StringMapHook` applied to `s` with a destination
map type from string to string returns without error exactly when the first
`Set(s)` on a freshly created `stringMap` does, and then the map the hook returns
is the map bound after that `Set`; likewise `Int64MapHook`, with a destination
map type from string to int64, and the first `int64Map.Set`. -/
theorem hooks_agree_with_first_set (t1 t2 : GoType)
    (h1 : isMapFromStringTo .string t1 = true) (h2 : isMapFromStringTo .int64 t2 = true)
    (init1 : Option (GoMap Str)) (init2 : Option (GoMap Int)) (s : Str) :
    (((∃ d, StringMapHook t1 (.string s) = .ok d) ↔ ((newStringMap init1).Set s).2 = .ok) ∧
      (∀ d, StringMapHook t1 (.string s) = .ok d →
        ∃ m, d = .stringMap (some m) ∧
          (newStringMap init1).Set s = ({ value := some m, changed := true }, .ok))) ∧
    (((∃ d, Int64MapHook t2 (.string s) = .ok d) ↔ ((newInt64Map init2).Set s).2 = .ok) ∧
      (∀ d, Int64MapHook t2 (.string s) = .ok d →
        ∃ m, d = .int64Map (some m) ∧
          (newInt64Map init2).Set s = ({ value := some m, changed := true }, .ok))) := by
  have e1 : StringMapHook t1 (.string s)
      = (parseToken s).map (fun m => HookData.stringMap (some m)) :=
    StringMapHook_of_map t1 _ h1
  have e2 : Int64MapHook t2 (.string s)
      = (parseInt64Token s).map (fun m => HookData.int64Map (some m)) :=
    Int64MapHook_of_map t2 _ h2
  rw [e1, e2]
  constructor
  · cases hp : parseToken s with
    | error e =>
      rw [stringMap.Set_of_parse_error _ s e hp]
      refine ⟨⟨?_, ?_⟩, ?_⟩
      · rintro ⟨d, hd⟩
        cases hd
      · intro h
        cases h
      · intro d hd
        cases hd
    | ok v =>
      rw [stringMap.Set_first _ s v rfl hp]
      refine ⟨⟨fun _ => rfl, fun _ => ⟨_, rfl⟩⟩, fun d hd => ?_⟩
      simp only [Except.map, Except.ok.injEq] at hd
      exact ⟨v, hd.symm, rfl⟩
  · rw [int64Map.Set_eq]
    cases hp : parseInt64Token s with
    | error e =>
      refine ⟨⟨?_, ?_⟩, ?_⟩
      · rintro ⟨d, hd⟩
        cases hd
      · intro h
        cases h
      · intro d hd
        cases hd
    | ok v =>
      refine ⟨⟨fun _ => rfl, fun _ => ⟨_, rfl⟩⟩, fun d hd => ?_⟩
      simp only [Except.map, Except.ok.injEq] at hd
      exact ⟨v, hd.symm, rfl⟩

/-- Witness for C18: the destinations `map[string]string` and
`map[string]int64`, maps that were never set, and the token `a=1,b=2`. -/
theorem hooks_agree_with_first_set_witness :
    (((∃ d, StringMapHook (.map (.basic .string) (.basic .string)) (.string "a=1,b=2".toList)
          = .ok d) ↔
        ((newStringMap none).Set "a=1,b=2".toList).2 = .ok) ∧
      (∀ d, StringMapHook (.map (.basic .string) (.basic .string)) (.string "a=1,b=2".toList)
          = .ok d →
        ∃ m, d = .stringMap (some m) ∧
          (newStringMap none).Set "a=1,b=2".toList
            = ({ value := some m, changed := true }, .ok))) ∧
    (((∃ d, Int64MapHook (.map (.basic .string) (.basic .int64)) (.string "a=1,b=2".toList)
          = .ok d) ↔
        ((newInt64Map none).Set "a=1,b=2".toList).2 = .ok) ∧
      (∀ d, Int64MapHook (.map (.basic .string) (.basic .int64)) (.string "a=1,b=2".toList)
          = .ok d →
        ∃ m, d = .int64Map (some m) ∧
          (newInt64Map none).Set "a=1,b=2".toList
            = ({ value := some m, changed := true }, .ok))) :=
  hooks_agree_with_first_set (.map (.basic .string) (.basic .string))
    (.map (.basic .string) (.basic .int64)) (by decide) (by decide) none none "a=1,b=2".toList

/-! ## `FlagValueHook` -/

/-- Where `FlagValueHook` returns: the source type is not of kind `String`, or
the pointer to the destination type is not a `pflag.Value`, or the source is a
`string`.  The error is nil, and the data is what `Set` produced or, when `Set`
failed or was not called, the input. -/
theorem FlagValueHook_returns (f t : GoType) (Set : Str → Option GoValue) (data : HookData)
    (h : f.kind ≠ .string ∨ t.ptrImplementsValue = false ∨ ∃ s, data = .string s) :
    ∃ d, FlagValueHook f t Set data = .returned d none := by
  unfold FlagValueHook
  by_cases hf : f.kind = .string
  · by_cases ht : t.ptrImplementsValue = true
    · rcases h with h | h | ⟨s, rfl⟩
      · exact absurd hf h
      · rw [ht] at h; cases h
      · simp only [hf, ht, ne_eq, not_true_eq_false, if_false, Bool.not_true,
          Bool.false_eq_true]
        cases Set s with
        | none => exact ⟨_, rfl⟩
        | some v => exact ⟨_, rfl⟩
    · simp only [hf, ne_eq, not_true_eq_false, if_false]
      rw [if_pos (by simpa using ht)]
      exact ⟨_, rfl⟩
  · rw [if_pos hf]
    exact ⟨_, rfl⟩

/-- On a `string` source with a destination whose pointer is a `pflag.Value`,
`FlagValueHook` returns what `Set` produced, or the input when `Set` failed. -/
theorem FlagValueHook_of_string (f t : GoType) (Set : Str → Option GoValue) (s : Str)
    (hf : f.kind = .string) (ht : t.ptrImplementsValue = true) :
    FlagValueHook f t Set (.string s) =
      match Set s with
      | some v => .returned (.ofDestination t v) none
      | none => .returned (.string s) none := by
  unfold FlagValueHook
  simp only [hf, ht, ne_eq, not_true_eq_false, if_false, Bool.not_true, Bool.false_eq_true]
  cases Set s <;> rfl

/-- C15: with the source `Mode("x")` of the defined type `type Mode string`,
whose pointer is a `pflag.Value`, and `Mode` as the destination type,
`FlagValueHook` passes the test on the kind of the source and then panics at the
type assertion `data.(string)`, whatever `Set` does: it returns neither the value
that `Set` produces nor the input. -/
theorem FlagValueHook_panics_on_defined_string (Set : Str → Option GoValue) :
    modeType.kind = .string ∧ modeType.ptrImplementsValue = true ∧
    FlagValueHook modeType modeType Set (.definedString "main.Mode".toList "x".toList)
      = .panicked "interface conversion: interface {} is main.Mode, not string".toList :=
  ⟨rfl, rfl, rfl⟩

/-! ## Tags -/

theorem splitAll_of_not_mem (sep : Char) (s : Str) (h : sep ∉ s) : splitAll sep s = [s] := by
  induction s with
  | nil => rfl
  | cons c rest ih =>
    simp only [List.mem_cons, not_or] at h
    simp only [splitAll, if_neg (Ne.symm h.1), ih h.2]

theorem splitAll_append (sep : Char) (n s : Str) (h : sep ∉ n) :
    splitAll sep (n ++ sep :: s) = n :: splitAll sep s := by
  induction n with
  | nil => simp [splitAll]
  | cons c rest ih =>
    simp only [List.mem_cons, not_or] at h
    simp only [List.cons_append, splitAll, if_neg (Ne.symm h.1), List.append_eq, ih h.2]

theorem envName_of_tag (f : StructField) (A B : Str) (htag : f.envTag = A ++ ',' :: B)
    (hA : ',' ∉ A) (hne : A ≠ []) : envName f = A := by
  have hc : f.envTag.contains ',' = true := by simp [htag]
  have hn : f.envTag ≠ [] := by simp [htag]
  simp only [envName, hc, hn, ne_eq, not_false_eq_true, and_self, if_true]
  rw [htag, splitAll_append ',' A B hA]
  simp [hne]

theorem flagName_of_tag (f : StructField) (n s : Str) (htag : f.flagTag = n ++ ',' :: s)
    (hn : ',' ∉ n) (hne : n ≠ []) : flagName f = n := by
  have hc : f.flagTag.contains ',' = true := by simp [htag]
  simp only [flagName, hc, if_true]
  rw [htag, splitAll_append ',' n s hn]
  simp [hne]

theorem shorthandOf_of_tag (f : StructField) (n s : Str) (htag : f.flagTag = n ++ ',' :: s)
    (hn : ',' ∉ n) (hs : ',' ∉ s) : shorthandOf f = s := by
  have hc : f.flagTag.contains ',' = true := by simp [htag]
  simp only [shorthandOf, hc, if_true]
  rw [htag, splitAll_append ',' n s hn, splitAll_of_not_mem ',' s hs]
  rfl

theorem shorthandOf_of_no_comma (f : StructField) (h : ',' ∉ f.flagTag) : shorthandOf f = [] := by
  have hc : f.flagTag.contains ',' = false := by simpa using h
  simp only [shorthandOf, hc, Bool.false_eq_true, if_false]

/-- C16: for a field that registers a flag (exported, of a supported leaf type,
its flag name and shorthand free), the flag is registered with the description
made of the `desc` tag followed by ` (environment NAME)`, `NAME` being the
environment name the field is bound under; an `env` tag `A,B` gives the
environment name `A`; a `flag` tag `n,s` gives the flag name `n` behind the
namespace prefix and the shorthand `s`; a `flag` tag without a comma gives no
shorthand. -/
theorem setup_names_follow_tags (e p : Str) (f : StructField) (v : GoValue) (b : Binder)
    (hexp : f.exported = true) (hreg : registersFlag f.type = true)
    (hfree : b.fset.Lookup (prefixed p (flagName f)) = none)
    (hsh : shorthandFree b.fset (shorthandOf f) = true) :
    ∃ (flag : Flag) (name : Str),
      setupField e p f v b =
        ({ fset := { formal := b.fset.formal ++ [flag] },
           viper := ((b.viper.BindEnv name).SetDefault name v).BindPFlag name flag }, .ok) ∧
      flag.Usage = f.descTag ++ " (environment ".toList ++ name ++ ")".toList ∧
      (∀ A B, f.envTag = A ++ ',' :: B → ',' ∉ A → A ≠ [] → name = A) ∧
      (',' ∉ f.envTag → f.envTag ≠ [] → name = f.envTag) ∧
      (f.envTag = [] → name = toUpper (join "_".toList (camelcaseSplit f.Name))) ∧
      (∀ n s, f.flagTag = n ++ ',' :: s → ',' ∉ n → n ≠ [] → ',' ∉ s →
        flag.Name = prefixed p n ∧ flag.Shorthand = s) ∧
      (',' ∉ f.flagTag → flag.Shorthand = []) := by
  obtain ⟨flag, hname, husage, hshort, hrun⟩ := setupField_leaf e p f v b hexp hreg hfree hsh
  refine ⟨flag, envName f, hrun, husage, ?_, ?_, ?_, ?_, ?_⟩
  · intro A B htag hA hne
    exact envName_of_tag f A B htag hA hne
  · intro hc hne
    have hc' : f.envTag.contains ',' = false := by simpa using hc
    simp only [envName, hc', Bool.false_eq_true, and_false, if_false, if_neg hne]
  · intro hnil
    simp only [envName, hnil, ne_eq, not_true_eq_false, false_and, if_false, if_true]
  · intro n s htag hn hne hs
    rw [hname, hshort, flagName_of_tag f n s htag hn hne, shorthandOf_of_tag f n s htag hn hs]
    exact ⟨rfl, rfl⟩
  · intro hc
    rw [hshort, shorthandOf_of_no_comma f hc]

/-- Witness for C16: the field
`Port int` tagged `env:"PORT,omitempty" flag:"port,p" desc:"Port to listen on"`,
set up behind the prefix `server` on an empty flag set. -/
theorem setup_names_follow_tags_witness :
    ∃ (flag : Flag) (name : Str),
      setupField [] "server".toList
          { Name := "Port".toList, envTag := "PORT,omitempty".toList,
            flagTag := "port,p".toList, descTag := "Port to listen on".toList,
            type := .basic .int } (.int 8080) {} =
        ({ fset := { formal := ({} : Binder).fset.formal ++ [flag] },
           viper := ((({} : Binder).viper.BindEnv name).SetDefault name (.int 8080)).BindPFlag
             name flag }, .ok) ∧
      flag.Usage = "Port to listen on".toList ++ " (environment ".toList ++ name ++ ")".toList ∧
      (∀ A B, "PORT,omitempty".toList = A ++ ',' :: B → ',' ∉ A → A ≠ [] → name = A) ∧
      (',' ∉ "PORT,omitempty".toList → "PORT,omitempty".toList ≠ [] →
        name = "PORT,omitempty".toList) ∧
      ("PORT,omitempty".toList = [] →
        name = toUpper (join "_".toList (camelcaseSplit "Port".toList))) ∧
      (∀ n s, "port,p".toList = n ++ ',' :: s → ',' ∉ n → n ≠ [] → ',' ∉ s →
        flag.Name = prefixed "server".toList n ∧ flag.Shorthand = s) ∧
      (',' ∉ "port,p".toList → flag.Shorthand = []) :=
  setup_names_follow_tags [] "server".toList
    { Name := "Port".toList, envTag := "PORT,omitempty".toList,
      flagTag := "port,p".toList, descTag := "Port to listen on".toList,
      type := .basic .int } (.int 8080) {} rfl (by decide) rfl (by decide)

theorem tagged_field_example :
    (setupField [] "server".toList
        { Name := "Port".toList, envTag := "PORT,omitempty".toList,
          flagTag := "port,p".toList, descTag := "Port to listen on".toList,
          type := .basic .int } (.int 8080) {}).1.fset.formal.map
      (fun g => (g.Name, g.Shorthand, g.Usage))
      = [("server-port".toList, "p".toList,
          "Port to listen on (environment PORT)".toList)] := by
  decide

/-! ## Pointer fields -/

/-- A nil pointer field whose name is not registered: `v.Elem()` is the zero
`Value`, and `v.Elem().Type()` panics. -/
theorem fieldStep_of_nil_pointer (e p : Str) (f : StructField) (b : Binder)
    (d : Str → Str → Binder → Binder × Status SetupError)
    (hexp : f.exported = true) (hval : f.type.ptrImplementsValue = false)
    (hkind : f.type.kind = .ptr)
    (hfree : b.fset.Lookup (prefixed p (flagName f)) = none) :
    fieldStep e p f (.pointer none) b d
      = (b, .panic "reflect: call of reflect.Value.Type on zero Value".toList) := by
  have hreg : registerField b.fset f (.pointer none) (prefixed p (flagName f)) (shorthandOf f)
      (description f) = (b.fset, none) := by
    simp only [registerField, hval, hkind, Bool.false_eq_true, if_false]
  simp only [fieldStep, hexp, hreg, hfree, hkind, Bool.not_true, Bool.false_eq_true, if_false,
    Bool.and_false, decide_False, decide_True, if_true]
  simp

/-- C19: on `Config { Server *Server }` with `Server { Port int }`, `Setup`
registers `server-port` and returns nil when the pointer refers to a `Server`,
and panics when the pointer is nil: it neither returns nil nor an error. -/
theorem setup_panics_on_nil_struct_pointer :
    (Setup {} (.pointer (.struct "main.Config".toList false) (.struct serverPointerConfig))).2
      = .ok ∧
    (Setup {} (.pointer (.struct "main.Config".toList false)
        (.struct serverPointerConfig))).1.flagNames = ["server-port".toList] ∧
    (Setup {} (.pointer (.struct "main.Config".toList false) (.struct nilServerPointerConfig))).2
      = .panic "reflect: call of reflect.Value.Type on zero Value".toList := by
  decide

/-! ## An unsupported field whose flag name is taken -/

theorem fieldStep_of_unsupportedKind_bound (e p : Str) (f : StructField) (v : GoValue)
    (b : Binder) (d : Str → Str → Binder → Binder × Status SetupError) (pf : Flag)
    (hexp : f.exported = true) (hval : f.type.ptrImplementsValue = false)
    (hkind : unsupportedKind f.type = true)
    (hfound : b.fset.Lookup (prefixed p (flagName f)) = some pf) :
    fieldStep e p f v b d =
      ({ fset := b.fset,
         viper := ((b.viper.BindEnv (envName f)).SetDefault (envName f) v).BindPFlag
           (envName f) pf }, .ok) := by
  have hreg := registerField_of_unsupportedKind b.fset f v (prefixed p (flagName f))
    (shorthandOf f) (description f) hval hkind
  simp only [fieldStep, hexp, hreg, hfound, Bool.not_true, Bool.false_eq_true, if_false]

/-- C20 (as amended): whether the loop of `setup` rejects an exported field of
unsupported kind depends on the flag registry.  When no flag is registered under
the field's flag name as the field is reached, the field gives the
unsupported-type error and nothing is bound; when one is, the field is bound to
its environment name and to that flag, without error. -/
theorem unsupported_field_rejected_iff_name_free (e p : Str) (f : StructField) (v : GoValue)
    (b : Binder) (hexp : f.exported = true) (hval : f.type.ptrImplementsValue = false)
    (hkind : unsupportedKind f.type = true) :
    (b.fset.Lookup (prefixed p (flagName f)) = none →
      setupField e p f v b = (b, .error (.unsupportedType f.type.String))) ∧
    (∀ pf, b.fset.Lookup (prefixed p (flagName f)) = some pf →
      setupField e p f v b =
        ({ fset := b.fset,
           viper := ((b.viper.BindEnv (envName f)).SetDefault (envName f) v).BindPFlag
             (envName f) pf }, .ok)) := by
  refine ⟨fun hfree => setupField_of_unsupportedKind e p f v b hexp hval hkind hfree,
    fun pf hfound => ?_⟩
  unfold setupField
  split <;> exact fieldStep_of_unsupportedKind_bound _ _ _ _ _ _ pf hexp hval hkind hfound

/-- Witness for C20: the field `B map[int]string` tagged `flag:"x"`, reached
after the field `A string` tagged `flag:"x"` has registered the flag `x`. -/
theorem unsupported_field_rejected_iff_name_free_witness :
    ((afterSetup [(sharedFlagFirst, .string "v".toList)]).fset.Lookup
        (prefixed [] (flagName sharedFlagSecond)) = none →
      setupField [] [] sharedFlagSecond .other (afterSetup [(sharedFlagFirst, .string "v".toList)])
        = (afterSetup [(sharedFlagFirst, .string "v".toList)],
            .error (.unsupportedType sharedFlagSecond.type.String))) ∧
    (∀ pf, (afterSetup [(sharedFlagFirst, .string "v".toList)]).fset.Lookup
        (prefixed [] (flagName sharedFlagSecond)) = some pf →
      setupField [] [] sharedFlagSecond .other (afterSetup [(sharedFlagFirst, .string "v".toList)])
        = ({ fset := (afterSetup [(sharedFlagFirst, .string "v".toList)]).fset,
             viper := (((afterSetup [(sharedFlagFirst, .string "v".toList)]).viper.BindEnv
               (envName sharedFlagSecond)).SetDefault (envName sharedFlagSecond)
                 .other).BindPFlag (envName sharedFlagSecond) pf }, .ok)) :=
  unsupported_field_rejected_iff_name_free [] [] sharedFlagSecond .other
    (afterSetup [(sharedFlagFirst, .string "v".toList)]) rfl rfl rfl

/-- C20 (counterexample): on `Config { A string; B map[int]string }` with both
fields tagged `flag:"x"`, `Setup` returns nil: the field `B`, of unsupported
kind, finds the flag `x` of `A` and is bound to the environment name `B` and to
that flag. -/
theorem setup_binds_unsupported_field_to_registered_flag :
    unsupportedKind sharedFlagSecond.type = true ∧
    (Setup {} (.pointer (.struct "main.Config".toList false) (.struct sharedFlagConfig))).2
      = .ok ∧
    (Setup {} (.pointer (.struct "main.Config".toList false)
        (.struct sharedFlagConfig))).1.flagNames = ["x".toList] ∧
    (Setup {} (.pointer (.struct "main.Config".toList false)
        (.struct sharedFlagConfig))).1.viper.env.get "b".toList = some ["B".toList] ∧
    (Setup {} (.pointer (.struct "main.Config".toList false)
        (.struct sharedFlagConfig))).1.viper.pflags.get "b".toList = some "x".toList := by
  decide

/-! ## `setup`: environment bindings are only added -/

theorem Viper.envKept_refl (v : Viper) : v.envKept v :=
  fun _ names h => ⟨[], by rw [List.append_nil]; exact h⟩

theorem Viper.envKept_trans (a b c : Viper) (h1 : a.envKept b) (h2 : b.envKept c) :
    a.envKept c := by
  intro k names h
  obtain ⟨m1, hm1⟩ := h1 k names h
  obtain ⟨m2, hm2⟩ := h2 k _ hm1
  exact ⟨m1 ++ m2, by rw [← List.append_assoc]; exact hm2⟩

theorem Viper.envKept_bind (v : Viper) (env : Str) (x : GoValue) (pf : Flag) :
    v.envKept (((v.BindEnv env).SetDefault env x).BindPFlag env pf) := by
  intro k names h
  simp only [Viper.BindPFlag, Viper.SetDefault, Viper.BindEnv, GoMap.get_set]
  by_cases hk : toLower env = k
  · subst hk
    rw [if_pos rfl, h]
    exact ⟨_, rfl⟩
  · rw [if_neg hk]
    exact ⟨[], by rw [List.append_nil]; exact h⟩

/-- The loop body keeps the environment bindings, if the recursive call does. -/
theorem fieldStep_envKept (e p : Str) (f : StructField) (v : GoValue) (b : Binder)
    (d : Str → Str → Binder → Binder × Status SetupError)
    (hd : ∀ (e' p' : Str) (b' : Binder), b'.viper.envKept (d e' p' b').1.viper) :
    b.viper.envKept (fieldStep e p f v b d).1.viper := by
  unfold fieldStep
  split
  · exact Viper.envKept_refl _
  · simp only
    cases hr : registerField b.fset f v (prefixed p (flagName f)) (shorthandOf f)
        (description f) with
    | mk fset o =>
      cases o with
      | some msg => exact Viper.envKept_refl _
      | none =>
        simp only
        split
        · split
          · rw [wrapError_fst]
            exact hd _ _ { fset := fset, viper := b.viper }
          · split
            · rw [wrapError_fst]
              exact hd _ _ { fset := fset, viper := b.viper }
            · split
              · split
                · split
                  · rw [wrapError_fst]
                    exact hd _ _ { fset := fset, viper := b.viper }
                  · exact Viper.envKept_refl _
                · exact Viper.envKept_refl _
              · exact Viper.envKept_refl _
        · exact Viper.envKept_bind _ _ _ _

theorem setup_envKept_aux (n : Nat) :
    (∀ fields : Fields, sizeOf fields ≤ n → ∀ (e p : Str) (b : Binder),
      b.viper.envKept (setupFields e p fields b).1.viper) ∧
    (∀ v : GoValue, sizeOf v ≤ n → ∀ (e p : Str) (f : StructField) (b : Binder),
      b.viper.envKept (setupField e p f v b).1.viper) := by
  induction n with
  | zero =>
    constructor
    · intro fields h
      cases fields with
      | nil => intro e p b; simp only [setupFields]; exact Viper.envKept_refl _
      | cons fv rest => simp at h
    · intro v h
      cases v <;> simp at h
  | succ n ih =>
    constructor
    · intro fields h e p b
      cases fields with
      | nil => simp only [setupFields]; exact Viper.envKept_refl _
      | cons fv rest =>
        obtain ⟨f, v⟩ := fv
        simp only [List.cons.sizeOf_spec, Prod.mk.sizeOf_spec] at h
        have h1 := ih.2 v (by omega) e p f b
        rw [setupFields]
        cases hs : setupField e p f v b with
        | mk b' st =>
          rw [hs] at h1
          cases st with
          | ok => exact Viper.envKept_trans _ _ _ h1 (ih.1 rest (by omega) e p b')
          | error err => exact h1
          | panic msg => exact h1
    · intro v h e p f b
      unfold setupField
      split
      · rename_i fields
        simp only [GoValue.struct.sizeOf_spec] at h
        exact fieldStep_envKept _ _ _ _ _ _ (fun e' p' b' => ih.1 fields (by omega) e' p' b')
      · rename_i fields
        simp only [GoValue.pointer.sizeOf_spec, Option.some.sizeOf_spec,
          GoValue.struct.sizeOf_spec] at h
        exact fieldStep_envKept _ _ _ _ _ _ (fun e' p' b' => ih.1 fields (by omega) e' p' b')
      · exact fieldStep_envKept _ _ _ _ _ _ (fun _ _ b' => Viper.envKept_refl _)

/-- Whatever the loop of `setup` does, the environment names bound before it
stay bound. -/
theorem setupFields_envKept (e p : Str) (fields : Fields) (b : Binder) :
    b.viper.envKept (setupFields e p fields b).1.viper :=
  (setup_envKept_aux (sizeOf fields)).1 fields (Nat.le_refl _) e p b

theorem setupFields_cons_envKept (e p : Str) (f : StructField) (v : GoValue) (rest : Fields)
    (b : Binder) :
    (setupField e p f v b).1.viper.envKept (setupFields e p ((f, v) :: rest) b).1.viper := by
  rw [setupFields]
  cases hs : setupField e p f v b with
  | mk b' st =>
    cases st with
    | ok => exact setupFields_envKept e p rest b'
    | error err => exact Viper.envKept_refl _
    | panic msg => exact Viper.envKept_refl _

theorem Lookup_of_prefix (formal : List Flag) (flag : Flag) (F : FlagSet)
    (hfree : FlagSet.Lookup { formal := formal } flag.Name = none)
    (h : formal ++ [flag] <+: F.formal) : F.Lookup flag.Name = some flag := by
  obtain ⟨more, hm⟩ := h
  unfold FlagSet.Lookup at hfree ⊢
  simp only at hfree
  rw [← hm, List.append_assoc, List.find?_append, hfree]
  simp

/-! ## A leaf inside nested structs -/

theorem setupField_baseEnv (e e' p : Str) (f : StructField) (v : GoValue) (b : Binder) :
    setupField e p f v b = setupField e' p f v b := by
  unfold setupField
  split <;> rfl

theorem nested_leaf_aux (chain : List Level) (preL postL : Fields) (L : StructField)
    (vL : GoValue) (bL : Binder)
    (hL : L.exported = true) (hreg : registersFlag L.type = true)
    (hsh : shorthandFree bL.fset (shorthandOf L) = true) :
    ∀ (names : List Str) (e : Str) (b : Binder),
      (∀ n ∈ names, n ≠ []) →
      (∀ l ∈ chain, l.field.exported = true ∧ l.field.Anonymous = false ∧
        l.field.type.kind = .struct ∧ l.field.type.ptrImplementsValue = false ∧
        l.field.Name ≠ []) →
      Arrives names e chain preL b bL →
      bL.fset.Lookup
        (join "-".toList (names ++ chain.map (fun l => flagName l.field) ++ [flagName L]))
        = none →
      ∃ flag : Flag,
        flag.Name
          = join "-".toList (names ++ chain.map (fun l => flagName l.field) ++ [flagName L]) ∧
        flag.Usage = description L ∧
        (∀ e' : Str,
          setupField e' (join "-".toList (names ++ chain.map (fun l => flagName l.field)))
              L vL bL =
            ({ fset := { formal := bL.fset.formal ++ [flag] },
               viper := ((bL.viper.BindEnv (envName L)).SetDefault (envName L) vL).BindPFlag
                 (envName L) flag }, .ok)) ∧
        bL.fset.formal ++ [flag] <+:
          (setupFields e (join "-".toList names)
            (nest chain (preL ++ (L, vL) :: postL)) b).1.fset.formal ∧
        (((bL.viper.BindEnv (envName L)).SetDefault (envName L) vL).BindPFlag
            (envName L) flag).envKept
          (setupFields e (join "-".toList names)
            (nest chain (preL ++ (L, vL) :: postL)) b).1.viper := by
  induction chain with
  | nil =>
    intro names e b hnames _ harr hfree
    simp only [Arrives] at harr
    simp only [List.map_nil, List.append_nil] at hfree ⊢
    rw [← prefixed_join names (flagName L) hnames] at hfree ⊢
    obtain ⟨flag, h1, h2, _, h4⟩ :=
      setupField_leaf e (join "-".toList names) L vL bL hL hreg hfree hsh
    refine ⟨flag, h1, h2, fun e' => ?_, ?_, ?_⟩
    · rw [setupField_baseEnv e' e]
      exact h4
    · simp only [nest]
      rw [setupFields_append_of_ok _ _ _ _ _ _ harr]
      have := setupFields_cons_prefix e (join "-".toList names) L vL postL bL
      rw [h4] at this
      exact this
    · simp only [nest]
      rw [setupFields_append_of_ok _ _ _ _ _ _ harr]
      have := setupFields_cons_envKept e (join "-".toList names) L vL postL bL
      rw [h4] at this
      exact this
  | cons l rest ih =>
    intro names e b hnames hfields harr hfree
    simp only [Arrives] at harr
    obtain ⟨b1, hpre, hlook, harr'⟩ := harr
    obtain ⟨hexp, hanon, hk, hv, hname⟩ := hfields l (List.mem_cons_self _ _)
    have hnames' : ∀ n ∈ names ++ [flagName l.field], n ≠ [] := by
      intro n hn
      rcases List.mem_append.1 hn with h | h
      · exact hnames n h
      · rw [List.mem_singleton.1 h]
        exact flagName_ne_nil _ hname
    have hfree' : bL.fset.Lookup (join "-".toList ((names ++ [flagName l.field]) ++
        rest.map (fun l => flagName l.field) ++ [flagName L])) = none := by
      simpa using hfree
    obtain ⟨flag, h1, h2, h3, h5, h6⟩ :=
      ih (names ++ [flagName l.field]) (envName l.field) b1 hnames'
        (fun x hx => hfields x (List.mem_cons_of_mem _ hx)) harr' hfree'
    rw [← prefixed_join names (flagName l.field) hnames] at hlook h5 h6
    have hstep := setupField_struct e (join "-".toList names) l.field
      (nest rest (preL ++ (L, vL) :: postL)) b1 hexp hanon hk hv hlook
    refine ⟨flag, by simpa using h1, h2, fun e' => by simpa using h3 e', ?_, ?_⟩
    · simp only [nest]
      rw [setupFields_append_of_ok _ _ _ _ _ _ hpre]
      have hcons := setupFields_cons_prefix e (join "-".toList names) l.field
        (.struct (nest rest (preL ++ (L, vL) :: postL))) l.post b1
      rw [hstep, wrapError_fst] at hcons
      exact h5.trans hcons
    · simp only [nest]
      rw [setupFields_append_of_ok _ _ _ _ _ _ hpre]
      have hcons := setupFields_cons_envKept e (join "-".toList names) l.field
        (.struct (nest rest (preL ++ (L, vL) :: postL))) l.post b1
      rw [hstep, wrapError_fst] at hcons
      exact Viper.envKept_trans _ _ _ h6 hcons

/-- C5 (as amended): let `F1, ..., Fn` (any `n`, so also `n ≥ 1`) be exported,
non-embedded fields of struct kind that bring no `Set` of their own, each
declared in the struct held by the one before, and let `L` be an exported field
of a registered type in the struct held by `Fn`.  If the loop of `setup` comes
to each of them (the fields declared before are set up without error) with no
flag registered under the joined name down to it, and `L`'s shorthand is
accepted, then the iteration for `L` returns without error, adds one flag, named
`flag(F1)-...-flag(Fn)-flag(L)`, binds the key of `L`'s own environment name,
without prefix, to that flag, sets the field's value as its default and binds
the upper-cased key as its environment variable; and in the state `Setup` ends
with, that flag is still the one found under the joined name and the key is
still bound to that environment variable.  For `Server { Port int }` the flag is
`server-port` and the environment name `PORT`. -/
theorem nested_leaf_flag_name (chain : List Level) (preL postL : Fields) (L : StructField)
    (vL : GoValue) (b bL : Binder) (t : GoType)
    (hfields : ∀ l ∈ chain, l.field.exported = true ∧ l.field.Anonymous = false ∧
      l.field.type.kind = .struct ∧ l.field.type.ptrImplementsValue = false ∧
      l.field.Name ≠ [])
    (harr : Arrives [] [] chain preL b bL)
    (hL : L.exported = true) (hreg : registersFlag L.type = true)
    (hfree : bL.fset.Lookup
      (join "-".toList (chain.map (fun l => flagName l.field) ++ [flagName L])) = none)
    (hsh : shorthandFree bL.fset (shorthandOf L) = true)
    (ht : t.kind = .struct) :
    (∃ flag : Flag,
      flag.Name = join "-".toList (chain.map (fun l => flagName l.field) ++ [flagName L]) ∧
      flag.Usage = description L ∧
      (∀ e' : Str,
        (setupField e' (join "-".toList (chain.map (fun l => flagName l.field))) L vL bL).2
          = .ok ∧
        (setupField e' (join "-".toList (chain.map (fun l => flagName l.field)))
            L vL bL).1.fset.formal = bL.fset.formal ++ [flag] ∧
        (setupField e' (join "-".toList (chain.map (fun l => flagName l.field)))
            L vL bL).1.viper.pflags.get (toLower (envName L)) = some flag.Name ∧
        (setupField e' (join "-".toList (chain.map (fun l => flagName l.field)))
            L vL bL).1.viper.defaults.get (toLower (envName L)) = some vL ∧
        (setupField e' (join "-".toList (chain.map (fun l => flagName l.field)))
            L vL bL).1.viper.env.get (toLower (envName L))
          = some ((bL.viper.env.get (toLower (envName L))).getD [] ++
              [toUpper (toLower (envName L))])) ∧
      (Setup b (.pointer t (.struct (nest chain (preL ++ (L, vL) :: postL))))).1.fset.Lookup
          (join "-".toList (chain.map (fun l => flagName l.field) ++ [flagName L]))
        = some flag ∧
      ∃ more,
        (Setup b (.pointer t (.struct (nest chain (preL ++ (L, vL) :: postL))))).1.viper.env.get
            (toLower (envName L))
          = some ((bL.viper.env.get (toLower (envName L))).getD [] ++
              [toUpper (toLower (envName L))] ++ more)) ∧
    (Setup {} (.pointer (.struct "main.Config".toList false) (.struct
        [({ Name := "Server".toList, type := .struct "main.Server".toList false },
          .struct [({ Name := "Port".toList, type := .basic .int }, .int 8080)])]))).1.flagNames
      = ["server-port".toList] ∧
    (Setup {} (.pointer (.struct "main.Config".toList false) (.struct
        [({ Name := "Server".toList, type := .struct "main.Server".toList false },
          .struct [({ Name := "Port".toList, type := .basic .int }, .int 8080)])]))).1.viper.env
      = [("port".toList, ["PORT".toList])] := by
  refine ⟨?_, by decide, by decide⟩
  obtain ⟨flag, h1, h2, h3, h5, h6⟩ :=
    nested_leaf_aux chain preL postL L vL bL hL hreg hsh [] [] b (by simp) hfields harr
      (by simpa using hfree)
  have hrun : Setup b (.pointer t (.struct (nest chain (preL ++ (L, vL) :: postL))))
      = setupFields [] (join "-".toList []) (nest chain (preL ++ (L, vL) :: postL)) b := by
    simp [Setup, setup, setupElem, ht, join]
  have henv : (((bL.viper.BindEnv (envName L)).SetDefault (envName L) vL).BindPFlag
      (envName L) flag).env.get (toLower (envName L))
      = some ((bL.viper.env.get (toLower (envName L))).getD [] ++
          [toUpper (toLower (envName L))]) := by
    simp [Viper.BindPFlag, Viper.SetDefault, Viper.BindEnv, GoMap.get_set]
  simp only [List.nil_append] at h1 h3
  refine ⟨flag, h1, h2, fun e' => ?_, ?_, ?_⟩
  · rw [h3 e']
    refine ⟨rfl, rfl, ?_, ?_, henv⟩
    · simp [Viper.BindPFlag, Viper.SetDefault, Viper.BindEnv, GoMap.get_set]
    · simp [Viper.BindPFlag, Viper.SetDefault, Viper.BindEnv, GoMap.get_set]
  · rw [hrun, ← h1]
    exact Lookup_of_prefix bL.fset.formal flag _ (by rw [h1]; exact hfree) h5
  · rw [hrun]
    exact h6 _ _ henv

/-- Witness for C5: `Config { Name string; Server Server }` with `Server { Host
string; Port int; Debug bool }`, on an empty flag set: `Port` is registered as
`server-port` and bound under `PORT`. -/
theorem nested_leaf_flag_name_witness :
    ∃ flag : Flag,
      flag.Name = join "-".toList
        ([serverLevel].map (fun l => flagName l.field) ++ [flagName portField]) ∧
      flag.Usage = description portField ∧
      (∀ e' : Str,
        (setupField e' (join "-".toList ([serverLevel].map (fun l => flagName l.field)))
            portField (.int 8080) atPort).2 = .ok ∧
        (setupField e' (join "-".toList ([serverLevel].map (fun l => flagName l.field)))
            portField (.int 8080) atPort).1.fset.formal = atPort.fset.formal ++ [flag] ∧
        (setupField e' (join "-".toList ([serverLevel].map (fun l => flagName l.field)))
            portField (.int 8080) atPort).1.viper.pflags.get (toLower (envName portField))
          = some flag.Name ∧
        (setupField e' (join "-".toList ([serverLevel].map (fun l => flagName l.field)))
            portField (.int 8080) atPort).1.viper.defaults.get (toLower (envName portField))
          = some (.int 8080) ∧
        (setupField e' (join "-".toList ([serverLevel].map (fun l => flagName l.field)))
            portField (.int 8080) atPort).1.viper.env.get (toLower (envName portField))
          = some ((atPort.viper.env.get (toLower (envName portField))).getD [] ++
              [toUpper (toLower (envName portField))])) ∧
      (Setup {} (.pointer (.struct "main.Config".toList false)
          (.struct (nest [serverLevel]
            ([hostField] ++ (portField, .int 8080) :: [debugField]))))).1.fset.Lookup
          (join "-".toList
            ([serverLevel].map (fun l => flagName l.field) ++ [flagName portField]))
        = some flag ∧
      ∃ more,
        (Setup {} (.pointer (.struct "main.Config".toList false)
          (.struct (nest [serverLevel]
            ([hostField] ++ (portField, .int 8080) :: [debugField]))))).1.viper.env.get
            (toLower (envName portField))
          = some ((atPort.viper.env.get (toLower (envName portField))).getD [] ++
              [toUpper (toLower (envName portField))] ++ more) :=
  (nested_leaf_flag_name [serverLevel] [hostField] [debugField] portField (.int 8080) {}
    atPort (.struct "main.Config".toList false)
    (by decide)
    ⟨(setupFields [] [] serverLevel.pre {}).1, Prod.ext rfl (by decide),
      Option.isNone_iff_eq_none.1 (by decide), Prod.ext rfl (by decide)⟩
    (by decide) (by decide) (Option.isNone_iff_eq_none.1 (by decide)) (by decide)
    (by decide)).1

/-- C5 (counterexample): the conditions that the claim leaves out are needed.
On `Config { ServerPort int; Server struct { Port int } }` the flag of
`ServerPort` takes the name `server-port`, and `Setup` panics when it comes to
`Server.Port`: no flag is added for it and its environment name `PORT` is not
bound.  On `Config { Bad map[int]string; Server struct { Port int } }` `Setup`
returns the unsupported-type error before it comes to `Server`, and nothing is
registered.  On `Config { Server struct { Port int } }` with `Port` tagged
`flag:"port,pp"` `Setup` panics on the shorthand and binds no environment
name. -/
theorem setup_nested_leaf_not_registered :
    ((∃ msg, (Setup {} (.pointer (.struct "main.Config".toList false)
        (.struct joinedNameClashConfig))).2 = .panic msg) ∧
      (Setup {} (.pointer (.struct "main.Config".toList false)
        (.struct joinedNameClashConfig))).1.fset.formal.map (fun g => (g.Name, g.Usage))
        = [("server-port".toList, " (environment SERVER_PORT)".toList)] ∧
      (Setup {} (.pointer (.struct "main.Config".toList false)
        (.struct joinedNameClashConfig))).1.viper.env.get "port".toList = none) ∧
    ((Setup {} (.pointer (.struct "main.Config".toList false)
        (.struct earlierFieldFailsConfig))).2
        = .error (.unsupportedType "map[int]string".toList) ∧
      (Setup {} (.pointer (.struct "main.Config".toList false)
        (.struct earlierFieldFailsConfig))).1.flagNames = []) ∧
    ((∃ msg, (Setup {} (.pointer (.struct "main.Config".toList false)
        (.struct longShorthandConfig))).2 = .panic msg) ∧
      (Setup {} (.pointer (.struct "main.Config".toList false)
        (.struct longShorthandConfig))).1.viper.env.get "port".toList = none) :=
  ⟨⟨⟨_, rfl⟩, by decide, by decide⟩, ⟨by decide, by decide⟩, ⟨⟨_, rfl⟩, by decide⟩⟩

/-! ## Two leaves with the same environment name -/

/-- After `Setup` on `Config { Port int; Server struct { Port int } }`, holding 1
and 8080, both leaves are bound under the key `port`: the binding of
`Server.Port` has replaced the default and the flag of the top-level `Port`.
With `--port=5` on the command line the key is not taken from the flag `port`,
and `Parse` hands the top-level `Port` the default 8080 of `Server.Port`. -/
theorem parse_of_shared_environment_key :
    (afterSetup portAndServerPortConfig).flagNames = ["port".toList, "server-port".toList] ∧
    (afterSetup portAndServerPortConfig).viper.pflags.get "port".toList
      = some "server-port".toList ∧
    Parse { afterSetup portAndServerPortConfig with
        fset := (afterSetup portAndServerPortConfig).fset.Set "port".toList "5".toList }
      [] portAndServerPortConfig
      = [({ Name := "Port".toList, type := .basic .int }, some (.default (.int 8080))),
         ({ Name := "Server".toList, type := .struct "main.Server".toList false }, none)] :=
  ⟨by decide, by decide, rfl⟩

end Pflagenv
